import Mathlib

/-! Device models of the circuit simulator: MOSFET, capacitor, isolator and
AC current source

A shallow embedding of `src/components/devices/mosfet.cpp`,
`src/components/capacitor.cpp`, `src/components/isolator.cpp` and
`src/components/iac.cpp`.

* `nr_double_t` is modelled by an arbitrary linearly ordered field `K`
  (exact arithmetic; rounding, infinities and NaN are not modelled).  All
  definitions are computable, so they evaluate at `K = ℚ`; the analytic
  statements (derivatives, continuity, magnitudes) are made at `K = ℝ`.
* C library functions and constants (`sqrt`, `M_PI`) and the helpers of
  `device.cpp` / `constants.h`, which are not part of the translated
  sources, are parameters of the definitions.
* The isolator methods, whose divisions have impedance-derived divisors,
  return `none` when a division by zero is evaluated.
* Member fields of the C++ objects are fields of a structure; a method is a
  function from the object before the call to the object after it.
-/

namespace Qucs

set_option linter.unusedSectionVars false

/-! ## Complex numbers (`complex.h`) -/

/-- The class `complex`: real part `r` and imaginary part `i`. -/
structure complex (K : Type) where
  r : K
  i : K
deriving DecidableEq

namespace complex

variable {K : Type} [LinearOrderedField K]

/-- Conversion `complex (nr_double_t)`: a real number as a complex one. -/
def ofReal (x : K) : complex K := ⟨x, 0⟩

/-- Construction from cartesian coordinates, `rect (x, y)`. -/
def rect (x y : K) : complex K := ⟨x, y⟩

/-- Real part, `real (z)`. -/
def real (z : complex K) : K := z.r

/-- Imaginary part, `imag (z)`. -/
def imag (z : complex K) : K := z.i

/-- Complex conjugate, `conj (z)`. -/
def conj (z : complex K) : complex K := ⟨z.r, -z.i⟩

/-- Squared magnitude, `norm (z)`. -/
def norm (z : complex K) : K := z.r * z.r + z.i * z.i

/-- Magnitude `abs (z)`, the square root of `norm (z)`; the C function
`sqrt` is a parameter. -/
def abs (sqrt : K → K) (z : complex K) : K := sqrt (norm z)

instance : Zero (complex K) := ⟨⟨0, 0⟩⟩
instance : One (complex K) := ⟨⟨1, 0⟩⟩
instance : Add (complex K) := ⟨fun a b => ⟨a.r + b.r, a.i + b.i⟩⟩
instance : Sub (complex K) := ⟨fun a b => ⟨a.r - b.r, a.i - b.i⟩⟩
instance : Neg (complex K) := ⟨fun a => ⟨-a.r, -a.i⟩⟩
instance : Mul (complex K) :=
  ⟨fun a b => ⟨a.r * b.r - a.i * b.i, a.i * b.r + a.r * b.i⟩⟩
instance : Div (complex K) :=
  ⟨fun a b => ⟨(a.r * b.r + a.i * b.i) / norm b, (a.i * b.r - a.r * b.i) / norm b⟩⟩

end complex

/-! ## The circuit base class (`circuit.h`) -/

/-- The matrices of a circuit with `size` terminals that the device
models below write: scattering matrix, MNA admittance matrix, MNA current
vector, and the node voltages the solver supplies. -/
structure circuit (K : Type) (size : Nat) where
  MatrixS : Fin size → Fin size → complex K
  MatrixY : Fin size → Fin size → complex K
  VectorI : Fin size → complex K
  VectorV : Fin size → complex K

namespace circuit

variable {K : Type} [LinearOrderedField K] {size : Nat}

/-- Entry update of a square matrix. -/
def setEntry {α : Type} (M : Fin size → Fin size → α) (r c : Fin size) (z : α) :
    Fin size → Fin size → α :=
  fun a b => if a = r ∧ b = c then z else M a b

/-- Method `setS (r, c, z)`. -/
def setS (x : circuit K size) (r c : Fin size) (z : complex K) : circuit K size :=
  { x with MatrixS := setEntry x.MatrixS r c z }

/-- Method `setY (r, c, y)`. -/
def setY (x : circuit K size) (r c : Fin size) (y : complex K) : circuit K size :=
  { x with MatrixY := setEntry x.MatrixY r c y }

/-- Method `setI (port, i)`. -/
def setI (x : circuit K size) (port : Fin size) (z : complex K) : circuit K size :=
  { x with VectorI := fun a => if a = port then z else x.VectorI a }

/-- Method `getV (port)`. -/
def getV (x : circuit K size) (port : Fin size) : complex K := x.VectorV port

/-- A circuit with all matrices cleared and all node voltages zero. -/
def cleared : circuit K size :=
  { MatrixS := fun _ _ => 0, MatrixY := fun _ _ => 0, VectorI := fun _ => 0,
    VectorV := fun _ => 0 }

end circuit

/-! ## Helpers of `device.cpp` and constants of `constants.h` -/

/-- The functions and constants the MOSFET model takes from the C library,
from `constants.h` and from `device.cpp`.  Their code is not part of the
translated sources; every statement below that does not say otherwise
holds for arbitrary values of them.  `pnJunctionMOS` returns the pair
(current, conductance) it writes through its two reference arguments. -/
structure DeviceLib (K : Type) where
  sqrt : K → K
  kelvin : K → K
  kBoverQ : K
  pnCriticalVoltage : K → K → K
  pnVoltage : K → K → K → K → K
  fetVoltage : K → K → K → K
  fetVoltageDS : K → K → K
  pnJunctionMOS : K → K → K → K × K

/-- The macro `MAX (x, y)`. -/
def MAX {K : Type} [LinearOrderedField K] (x y : K) : K := if x > y then x else y

/-- A library instance for evaluating the model on concrete inputs: the
three limiting functions are inactive (they return the new voltage they are
given), `kelvin` adds 273.15 and `kBoverQ` is Boltzmann's constant over the
elementary charge; the square root and the junction equation are supplied by
the caller. -/
def DeviceLib.unlimited {K : Type} [LinearOrderedField K] (sqrt : K → K)
    (junction : K → K → K → K × K) : DeviceLib K :=
  { sqrt := sqrt
    kelvin := fun T => T + 273.15
    kBoverQ := 1.380650524e-23 / 1.6021765314e-19
    pnCriticalVoltage := fun _ _ => 0
    pnVoltage := fun Ud _ _ _ => Ud
    fetVoltage := fun Ufet _ _ => Ufet
    fetVoltageDS := fun Ufet _ => Ufet
    pnJunctionMOS := junction }

/-- A square root on the rationals for evaluating the model on concrete
inputs: exact on squares of rationals, rounded down on numerator and
denominator otherwise. -/
def sqrtQ (x : ℚ) : ℚ := (Nat.sqrt x.num.toNat : ℚ) / (Nat.sqrt x.den : ℚ)

/-- The junction equation linearised at zero bias, `g = Is / Ute` and
`I = g * U`, for evaluating the model on concrete inputs. -/
def linearJunction {K : Type} [LinearOrderedField K] (U Is Ute : K) : K × K :=
  (Is / Ute * U, Is / Ute)

/-- The rational library used for concrete evaluations. -/
def testLib : DeviceLib ℚ := DeviceLib.unlimited sqrtQ linearJunction

/-! ## The MOSFET (`mosfet.cpp`) -/

/-- Gate node. -/
def NODE_G : Fin 4 := 0
/-- Drain node. -/
def NODE_D : Fin 4 := 1
/-- Source node. -/
def NODE_S : Fin 4 := 2
/-- Bulk node. -/
def NODE_B : Fin 4 := 3

/-- The object of class `mosfet`: a four-terminal circuit, the properties
`calcDC` reads (`Isd`, `Iss`, `N`, `Lambda`, `Temp`), the model values left
by `initModel` (`pol`, `Vto`, `beta`, `Phi`, `Ga`) and the member fields
written by `calcDC`. -/
structure mosfet (K : Type) extends circuit K 4 where
  Isd : K
  Iss : K
  N : K
  Lambda : K
  Temp : K
  pol : K
  Vto : K
  beta : K
  Phi : K
  Ga : K
  UgsPrev : K
  UgdPrev : K
  UdsPrev : K
  UbsPrev : K
  UbdPrev : K
  Ugs : K
  Ugd : K
  Uds : K
  Ubs : K
  Ubd : K
  Ibs : K
  gbs : K
  Ibd : K
  gbd : K
  MOSdir : K
  Uon : K
  Udsat : K
  Ids : K
  gm : K
  gds : K
  gmb : K
  SourceControl : K
  DrainControl : K

namespace mosfet

variable {K : Type} [LinearOrderedField K]

/-- Lines 402-403 of `calcDC`: the thermal voltage `Ut = kelvin (Temp) * kBoverQ`. -/
def Ut (lib : DeviceLib K) (m : mosfet K) : K := lib.kelvin m.Temp * lib.kBoverQ

/-- Lines 404-435 of `calcDC`: the terminal voltages are read from the node
voltages, limited against the previous iterate, and stored in the fields
`Ugs`, `Ugd`, `Uds`, `Ubs`, `Ubd` and in the previous-iterate fields. -/
def calcDC_limit (lib : DeviceLib K) (m : mosfet K) : mosfet K :=
  let n := m.N
  let Ut := Ut lib m
  let Ugd := (complex.real (m.VectorV NODE_G - m.VectorV NODE_D)) * m.pol
  let Ugs := (complex.real (m.VectorV NODE_G - m.VectorV NODE_S)) * m.pol
  let Ubs := (complex.real (m.VectorV NODE_B - m.VectorV NODE_S)) * m.pol
  let Ubd := (complex.real (m.VectorV NODE_B - m.VectorV NODE_D)) * m.pol
  let Uds := Ugs - Ugd
  let UbsCrit := lib.pnCriticalVoltage m.Iss (Ut * n)
  let UbdCrit := lib.pnCriticalVoltage m.Isd (Ut * n)
  let g : K × K × K :=
    if Uds ≥ 0 then
      let Ugs1 := lib.fetVoltage Ugs m.UgsPrev (m.Vto * m.pol)
      let Uds1 := Ugs1 - Ugd
      let Uds2 := lib.fetVoltageDS Uds1 m.UdsPrev
      let Ugd1 := Ugs1 - Uds2
      (Ugs1, Ugd1, Uds2)
    else
      let Ugd1 := lib.fetVoltage Ugd m.UgdPrev (m.Vto * m.pol)
      let Uds1 := Ugs - Ugd1
      let Uds2 := -lib.fetVoltageDS (-Uds1) (-m.UdsPrev)
      let Ugs1 := Ugd1 + Uds2
      (Ugs1, Ugd1, Uds2)
  let Ugs := g.1
  let Ugd := g.2.1
  let Uds := g.2.2
  let b : K × K :=
    if Uds ≥ 0 then
      let Ubs1 := lib.pnVoltage Ubs m.UbsPrev (Ut * n) UbsCrit
      let Ubd1 := Ubs1 - Uds
      (Ubs1, Ubd1)
    else
      let Ubd1 := lib.pnVoltage Ubd m.UbdPrev (Ut * n) UbdCrit
      let Ubs1 := Ubd1 + Uds
      (Ubs1, Ubd1)
  let Ubs := b.1
  let Ubd := b.2
  { m with
    Ugs := Ugs, Ugd := Ugd, Uds := Uds, Ubs := Ubs, Ubd := Ubd,
    UgsPrev := Ugs, UgdPrev := Ugd, UbdPrev := Ubd, UdsPrev := Uds, UbsPrev := Ubs }

/-- Lines 437-447 of `calcDC`: the two parasitic body diodes, each with the
floor conductance `gtiny` added. -/
def calcDC_diodes (lib : DeviceLib K) (m : mosfet K) : mosfet K :=
  let n := m.N
  let Ut := Ut lib m
  let gtiny := m.Iss
  let js := lib.pnJunctionMOS m.Ubs m.Iss (Ut * n)
  let Ibs := js.1 + gtiny * m.Ubs
  let gbs := js.2 + gtiny
  let gtiny := m.Isd
  let jd := lib.pnJunctionMOS m.Ubd m.Isd (Ut * n)
  let Ibd := jd.1 + gtiny * m.Ubd
  let gbd := jd.2 + gtiny
  { m with Ibs := Ibs, gbs := gbs, Ibd := Ibd, gbd := gbd }

/-- Line 450 of `calcDC`: `MOSdir = (Uds >= 0) ? +1 : -1`. -/
def dirOf (Uds : K) : K := if Uds ≥ 0 then 1 else -1

/-- Line 453 of `calcDC`: the controlling bulk voltage
`Upn = (MOSdir > 0) ? Ubs : Ubd`. -/
def Upn (m : mosfet K) : K := if dirOf m.Uds > 0 then m.Ubs else m.Ubd

/-- Lines 454-463 of `calcDC`: the threshold helper `Sarg` as a function of
`Phi` and `Upn`. -/
def Sarg (sqrt : K → K) (Phi Upn : K) : K :=
  let Sphi := sqrt Phi
  if Upn ≤ 0 then
    sqrt (Phi - Upn)
  else
    let Sarg := Sphi - Upn / Sphi / 2
    MAX Sarg 0

/-- Line 466 of `calcDC`: the bias-dependent threshold voltage
`Uon = Vto * pol + Ga * (Sarg - Sphi)` as a function of `Upn`. -/
def UonOf (sqrt : K → K) (Vto pol Ga Phi Upn : K) : K :=
  Vto * pol + Ga * (Sarg sqrt Phi Upn - sqrt Phi)

/-- Line 467 of `calcDC`: the overdrive
`Utst = ((MOSdir > 0) ? Ugs : Ugd) - Uon`, from the limited voltages held in
the fields of `m`. -/
def Utst (lib : DeviceLib K) (m : mosfet K) : K :=
  (if dirOf m.Uds > 0 then m.Ugs else m.Ugd) - UonOf lib.sqrt m.Vto m.pol m.Ga m.Phi (Upn m)

/-- Line 469 of `calcDC`: `arg = (Sarg != 0.0) ? (Ga / Sarg / 2) : 0`. -/
def argOf (Ga Sarg : K) : K := if Sarg ≠ 0 then Ga / Sarg / 2 else 0

/-- The values `Ids`, `gm`, `gds`, `gmb` assigned by the region
classification of `calcDC`. -/
structure Channel (K : Type) where
  Ids : K
  gm : K
  gds : K
  gmb : K

/-- Lines 471-494 of `calcDC`: cutoff, saturation and linear region as a
function of `beta`, `Lambda`, `arg`, the overdrive `Utst` and
`Vds = Uds * MOSdir`. -/
def channel (beta l arg Utst Vds : K) : Channel K :=
  if Utst ≤ 0 then
    { Ids := 0, gm := 0, gds := 0, gmb := 0 }
  else
    let b := beta * (1 + l * Vds)
    if Utst ≤ Vds then
      let Ids := b * Utst * Utst / 2
      let gm := b * Utst
      let gds := l * beta * Utst * Utst / 2
      { Ids := Ids, gm := gm, gds := gds, gmb := gm * arg }
    else
      let Ids := b * Vds * (Utst - Vds / 2)
      let gm := b * Vds
      let gds := b * (Utst - Vds) + l * beta * Vds * (Utst - Vds / 2)
      { Ids := Ids, gm := gm, gds := gds, gmb := gm * arg }

/-- Lines 449-497 of `calcDC`: conduction direction, threshold voltage,
region classification, and the fields `MOSdir`, `Uon`, `Udsat`, `Ids`, `gm`,
`gds`, `gmb` they assign. -/
def calcDC_channel (lib : DeviceLib K) (m : mosfet K) : mosfet K :=
  let l := m.Lambda
  let MOSdir := dirOf m.Uds
  let Upn := if MOSdir > 0 then m.Ubs else m.Ubd
  let Sarg := Sarg lib.sqrt m.Phi Upn
  let Uon := UonOf lib.sqrt m.Vto m.pol m.Ga m.Phi Upn
  let Utst := (if MOSdir > 0 then m.Ugs else m.Ugd) - Uon
  let arg := argOf m.Ga Sarg
  let Vds := m.Uds * MOSdir
  let ch := channel m.beta l arg Utst Vds
  let Udsat := m.pol * MAX Utst 0
  let Ids := MOSdir * ch.Ids
  let Uon := m.pol * Uon
  { m with
    MOSdir := MOSdir, Uon := Uon, Udsat := Udsat, Ids := Ids,
    gm := ch.gm, gds := ch.gds, gmb := ch.gmb }

/-- Lines 499-533 of `calcDC`: the equivalent current sources, the control
terms and the stamp written into the current vector and the admittance
matrix. -/
def calcDC_stamp (m : mosfet K) : mosfet K :=
  let IeqBD := m.Ibd - m.gbd * m.Ubd
  let IeqBS := m.Ibs - m.gbs * m.Ubs
  let SourceControl := if m.MOSdir > 0 then m.gm + m.gmb else 0
  let DrainControl := if m.MOSdir < 0 then m.gm + m.gmb else 0
  let IeqDS :=
    if m.MOSdir > 0 then m.Ids - m.gm * m.Ugs - m.gmb * m.Ubs - m.gds * m.Uds
    else m.Ids - m.gm * m.Ugd - m.gmb * m.Ubd - m.gds * m.Uds
  let c := m.tocircuit
  let c := c.setI NODE_G (complex.ofReal 0)
  let c := c.setI NODE_D (complex.ofReal ((IeqBD - IeqDS) * m.pol))
  let c := c.setI NODE_S (complex.ofReal ((IeqBS + IeqDS) * m.pol))
  let c := c.setI NODE_B (complex.ofReal ((-IeqBD - IeqBS) * m.pol))
  let c := c.setY NODE_G NODE_G (complex.ofReal 0)
  let c := c.setY NODE_G NODE_D (complex.ofReal 0)
  let c := c.setY NODE_G NODE_S (complex.ofReal 0)
  let c := c.setY NODE_G NODE_B (complex.ofReal 0)
  let c := c.setY NODE_D NODE_G (complex.ofReal m.gm)
  let c := c.setY NODE_D NODE_D (complex.ofReal (m.gds + m.gbd - DrainControl))
  let c := c.setY NODE_D NODE_S (complex.ofReal (-m.gds - SourceControl))
  let c := c.setY NODE_D NODE_B (complex.ofReal (m.gmb - m.gbd))
  let c := c.setY NODE_S NODE_G (complex.ofReal (-m.gm))
  let c := c.setY NODE_S NODE_D (complex.ofReal (-m.gds + DrainControl))
  let c := c.setY NODE_S NODE_S (complex.ofReal (m.gbs + m.gds + SourceControl))
  let c := c.setY NODE_S NODE_B (complex.ofReal (-m.gbs - m.gmb))
  let c := c.setY NODE_B NODE_G (complex.ofReal 0)
  let c := c.setY NODE_B NODE_D (complex.ofReal (-m.gbd))
  let c := c.setY NODE_B NODE_S (complex.ofReal (-m.gbs))
  let c := c.setY NODE_B NODE_B (complex.ofReal (m.gbs + m.gbd))
  { m with tocircuit := c, SourceControl := SourceControl, DrainControl := DrainControl }

/-- The method `mosfet::calcDC`. -/
def calcDC (lib : DeviceLib K) (m : mosfet K) : mosfet K :=
  calcDC_stamp (calcDC_channel lib (calcDC_diodes lib (calcDC_limit lib m)))

/-- The operating points stored under their names by
`calcOperatingPoints` and read back by `calcMatrixY`. -/
structure OperatingPoints (K : Type) where
  Id : K
  gm : K
  gmb : K
  gds : K
  Vth : K
  Vdsat : K
  gbs : K
  gbd : K
  Cbd : K
  Cbs : K
  Cgs : K
  Cgd : K
  Cgb : K

/-- The block "save operating points" that ends `calcOperatingPoints`: the
conductances and the current are the member fields left by `calcDC`, the
capacitances are the values computed before it. -/
def saveOperatingPointsDC (m : mosfet K) (Cbd Cbs Cgs Cgd Cgb : K) : OperatingPoints K :=
  { Id := m.Ids, gm := m.gm, gmb := m.gmb, gds := m.gds, Vth := m.Vto, Vdsat := m.Udsat,
    gbs := m.gbs, gbd := m.gbd, Cbd := Cbd, Cbs := Cbs, Cgs := Cgs, Cgd := Cgd, Cgb := Cgb }

/-- The method `mosfet::calcMatrixY`; `pi` is the constant `M_PI`, `op` the
stored operating points. -/
def calcMatrixY (pi : K) (op : OperatingPoints K) (m : mosfet K) (frequency : K) :
    Fin 4 → Fin 4 → complex K :=
  let Cgd := op.Cgd
  let Cgs := op.Cgs
  let Cbd := op.Cbd
  let Cbs := op.Cbs
  let Cgb := op.Cgb
  let gbs := op.gbs
  let gbd := op.gbd
  let gds := op.gds
  let gm := complex.ofReal op.gm
  let gmb := complex.ofReal op.gmb
  let Ygd := complex.rect 0 (2 * pi * frequency * Cgd)
  let Ygs := complex.rect 0 (2 * pi * frequency * Cgs)
  let Yds := complex.ofReal gds
  let Ybd := complex.rect gbd (2 * pi * frequency * Cbd)
  let Ybs := complex.rect gbs (2 * pi * frequency * Cbs)
  let Ygb := complex.rect 0 (2 * pi * frequency * Cgb)
  let DrainControl := complex.ofReal m.DrainControl
  let SourceControl := complex.ofReal m.SourceControl
  let y : Fin 4 → Fin 4 → complex K := fun _ _ => 0
  let y := circuit.setEntry y NODE_G NODE_G (Ygd + Ygs + Ygb)
  let y := circuit.setEntry y NODE_G NODE_D (-Ygd)
  let y := circuit.setEntry y NODE_G NODE_S (-Ygs)
  let y := circuit.setEntry y NODE_G NODE_B (-Ygb)
  let y := circuit.setEntry y NODE_D NODE_G (gm - Ygd)
  let y := circuit.setEntry y NODE_D NODE_D (Ygd + Yds + Ybd - DrainControl)
  let y := circuit.setEntry y NODE_D NODE_S (-Yds - SourceControl)
  let y := circuit.setEntry y NODE_D NODE_B (-Ybd + gmb)
  let y := circuit.setEntry y NODE_S NODE_G (-Ygs - gm)
  let y := circuit.setEntry y NODE_S NODE_D (-Yds + DrainControl)
  let y := circuit.setEntry y NODE_S NODE_S (Ygs + Yds + Ybs + SourceControl)
  let y := circuit.setEntry y NODE_S NODE_B (-Ybs - gmb)
  let y := circuit.setEntry y NODE_B NODE_G (-Ygb)
  let y := circuit.setEntry y NODE_B NODE_D (-Ybd)
  let y := circuit.setEntry y NODE_B NODE_S (-Ybs)
  let y := circuit.setEntry y NODE_B NODE_B (Ybd + Ybs + Ygb)
  y

/-- Exchange of the drain and the source terminal; gate and bulk stay. -/
def swapDS : Fin 4 → Fin 4
  | 0 => 0
  | 1 => 2
  | 2 => 1
  | 3 => 3

/-- The same device with the drain and source node voltages exchanged. -/
def exchangeDS (m : mosfet K) : mosfet K :=
  { m with tocircuit := { m.tocircuit with VectorV := fun a => m.VectorV (swapDS a) } }

/-- An n-channel device (`pol = 1`, `Vto = 1`, `beta = 2`, `Lambda = 0`,
`Phi = 1`, `Ga = 1`, body-diode saturation currents `1`) with node voltages
`Vg`, `Vd`, `Vs`, `Vb` and all other fields zero. -/
def sample (Vg Vd Vs Vb : K) : mosfet K :=
  { MatrixS := fun _ _ => 0, MatrixY := fun _ _ => 0, VectorI := fun _ => 0,
    VectorV := fun a =>
      complex.ofReal (match a with
        | 0 => Vg
        | 1 => Vd
        | 2 => Vs
        | 3 => Vb),
    Isd := 1, Iss := 1, N := 1, Lambda := 0, Temp := 27,
    pol := 1, Vto := 1, beta := 2, Phi := 1, Ga := 1,
    UgsPrev := 0, UgdPrev := 0, UdsPrev := 0, UbsPrev := 0, UbdPrev := 0,
    Ugs := 0, Ugd := 0, Uds := 0, Ubs := 0, Ubd := 0,
    Ibs := 0, gbs := 0, Ibd := 0, gbd := 0,
    MOSdir := 0, Uon := 0, Udsat := 0, Ids := 0, gm := 0, gds := 0, gmb := 0,
    SourceControl := 0, DrainControl := 0 }

end mosfet

/-! ## The capacitor (`capacitor.cpp`) -/

/-- First node of a two-terminal device. -/
def NODE_1 : Fin 2 := 0
/-- Second node of a two-terminal device. -/
def NODE_2 : Fin 2 := 1

/-- The object of class `capacitor`: a two-terminal circuit and its
property `C`. -/
structure capacitor (K : Type) extends circuit K 2 where
  C : K

namespace capacitor

variable {K : Type} [LinearOrderedField K]

/-- The method `capacitor::calcSP`; `pi` is the constant `M_PI`, `z0` the
reference impedance `circuit::z0`. -/
def calcSP (pi z0 : K) (x : capacitor K) (frequency : K) : capacitor K :=
  let c := x.C * z0
  let y := complex.ofReal 2 * complex.rect 0 (2 * pi * frequency * c)
  let s := x.tocircuit
  let s := s.setS NODE_1 NODE_1 (1 / (1 + y))
  let s := s.setS NODE_2 NODE_2 (1 / (1 + y))
  let s := s.setS NODE_1 NODE_2 (y / (1 + y))
  let s := s.setS NODE_2 NODE_1 (y / (1 + y))
  { x with tocircuit := s }

/-- The method `capacitor::calcAC`. -/
def calcAC (pi : K) (x : capacitor K) (frequency : K) : capacitor K :=
  let c := x.C
  let y := complex.rect 0 (2 * pi * frequency * c)
  let s := x.tocircuit
  let s := s.setY NODE_1 NODE_1 y
  let s := s.setY NODE_2 NODE_2 y
  let s := s.setY NODE_1 NODE_2 (-y)
  let s := s.setY NODE_2 NODE_1 (-y)
  { x with tocircuit := s }

/-- A capacitor of capacitance `C` with all matrices cleared. -/
def sample (C : K) : capacitor K :=
  { MatrixS := fun _ _ => 0, MatrixY := fun _ _ => 0, VectorI := fun _ => 0,
    VectorV := fun _ => 0, C := C }

end capacitor

/-! ## Two-port matrix algebra used to state the Y-to-S conversion -/

section TwoPort

variable {K : Type} [LinearOrderedField K]

/-- The 2x2 identity matrix. -/
def eye2 : Fin 2 → Fin 2 → complex K := fun a b => if a = b then 1 else 0

/-- Product of two 2x2 matrices. -/
def mul2 (A B : Fin 2 → Fin 2 → complex K) : Fin 2 → Fin 2 → complex K :=
  fun a b => A a 0 * B 0 b + A a 1 * B 1 b

/-- Determinant of a 2x2 matrix. -/
def det2 (A : Fin 2 → Fin 2 → complex K) : complex K := A 0 0 * A 1 1 - A 0 1 * A 1 0

/-- Inverse of a 2x2 matrix: the adjugate divided by the determinant. -/
def inv2 (A : Fin 2 → Fin 2 → complex K) : Fin 2 → Fin 2 → complex K :=
  fun a b =>
    (if a = b then A (1 - a) (1 - b) else -A a b) / det2 A

/-- The conversion `S = (I - z0 * Y) * (I + z0 * Y)^-1` in the words of the
specification, for a two-port. -/
def ytosSpec (z0 : K) (Y : Fin 2 → Fin 2 → complex K) : Fin 2 → Fin 2 → complex K :=
  mul2 (fun a b => eye2 a b - complex.ofReal z0 * Y a b)
    (inv2 (fun a b => eye2 a b + complex.ofReal z0 * Y a b))

end TwoPort

/-! ## Further methods of the circuit base class -/

namespace circuit

variable {K : Type} [LinearOrderedField K] {size : Nat}

/-- Modelled from the spec: `clearI ()` of `circuit.cpp`, which is not among
the translated sources, sets every entry of the current vector to zero
("DC: zero current"). -/
def clearI (x : circuit K size) : circuit K size :=
  { x with VectorI := fun _ => 0 }

/-- Modelled from the spec: `clearY ()` of `circuit.cpp`, which is not among
the translated sources, sets every entry of the admittance matrix to zero
("DC: zero conductance (open)"). -/
def clearY (x : circuit K size) : circuit K size :=
  { x with MatrixY := fun _ _ => 0 }

/-- Modelled from the spec: `allocMatrixMNA ()` of `circuit.cpp`, which is
not among the translated sources, allocates the MNA matrices of the device
("allocate/declare matrix shape"); freshly allocated entries are zero. -/
def allocMatrixMNA (x : circuit K size) : circuit K size :=
  { x with MatrixY := fun _ _ => 0, VectorI := fun _ => 0, VectorV := fun _ => 0 }

/-- Modelled from the spec: `allocMatrixS ()` of `circuit.cpp`, which is not
among the translated sources, allocates the scattering matrix; freshly
allocated entries are zero. -/
def allocMatrixS (x : circuit K size) : circuit K size :=
  { x with MatrixS := fun _ _ => 0 }

end circuit

/-! ## The state-history facility (`states.h`) -/

/-- The state slots of a device: `s q n` is the value of slot `q` at
history offset `n` (`0` the current value, `1` the previous step). -/
def States (K : Type) : Type := Nat → Nat → K

/-- Method `setState (state, value)`: writes the current value of a slot. -/
def setState {K : Type} (s : States K) (state : Nat) (value : K) : States K :=
  fun q n => if q = state ∧ n = 0 then value else s q n

/-- Method `getState (state, n)`. -/
def getState {K : Type} (s : States K) (state : Nat) (n : Nat) : K := s state n

/-! ## The capacitor in DC and transient analysis -/

namespace capacitor

variable {K : Type} [LinearOrderedField K]

/-- The method `capacitor::initDC`. -/
def initDC (x : capacitor K) : capacitor K :=
  let s := x.tocircuit
  let s := s.allocMatrixMNA
  let s := s.clearI
  let s := s.clearY
  { x with tocircuit := s }

/-- Charge state. -/
def qState : Nat := 0
/-- Current state. -/
def cState : Nat := 1

/-- The method `capacitor::calcTR`.  The object is the pair of the capacitor
and its state slots; `hasControlled` is the value of
`hasProperty ("Controlled")`; `integrate` is the integration helper of the
`integrator` base class, which returns the new state slots, the equivalent
conductance and the equivalent current. -/
def calcTR (integrate : States K → Nat → K → States K × K × K) (hasControlled : Bool)
    (x : capacitor K) (st : States K) : capacitor K × States K :=
  if hasControlled then (x, st)
  else
    let c := x.C
    let v := complex.real (x.VectorV NODE_1 - x.VectorV NODE_2)
    let st := setState st qState (c * v)
    let r := integrate st qState c
    let st := r.1
    let g := r.2.1
    let i := r.2.2
    let s := x.tocircuit
    let s := s.setY NODE_1 NODE_1 (complex.ofReal g)
    let s := s.setY NODE_2 NODE_2 (complex.ofReal g)
    let s := s.setY NODE_1 NODE_2 (complex.ofReal (-g))
    let s := s.setY NODE_2 NODE_1 (complex.ofReal (-g))
    let s := s.setI NODE_1 (complex.ofReal (-i))
    let s := s.setI NODE_2 (complex.ofReal i)
    ({ x with tocircuit := s }, st)

end capacitor

/-! ## The isolator (`isolator.cpp`) -/

/-- A division that records whether its divisor is zero: `none` stands for
a division by zero being evaluated. -/
def sdiv {K : Type} [LinearOrderedField K] (a b : K) : Option K :=
  if b = 0 then none else some (a / b)

/-- The function `sqr (x)`. -/
def sqr {K : Type} [LinearOrderedField K] (x : K) : K := x * x

/-- First voltage source of a device. -/
def VSRC_1 : Fin 2 := 0
/-- Second voltage source of a device. -/
def VSRC_2 : Fin 2 := 1

/-- The object of class `isolator`: a two-terminal circuit, its properties
`Z1`, `Z2`, `Temp`, and the further members of the circuit base class that
the isolator writes: the noise correlation matrix, the declared number of
voltage sources, and the blocks `B`, `C`, `D`, `E` of the augmented MNA
formulation. -/
structure isolator (K : Type) extends circuit K 2 where
  Z1 : K
  Z2 : K
  Temp : K
  MatrixN : Fin 2 → Fin 2 → complex K
  vsources : Nat
  MatrixB : Fin 2 → Fin 2 → complex K
  MatrixC : Fin 2 → Fin 2 → complex K
  MatrixD : Fin 2 → Fin 2 → complex K
  VectorE : Fin 2 → complex K

namespace isolator

variable {K : Type} [LinearOrderedField K]

/-- Method `setN (r, c, z)`. -/
def setN (x : isolator K) (r c : Fin 2) (z : complex K) : isolator K :=
  { x with MatrixN := circuit.setEntry x.MatrixN r c z }

/-- Method `setB (node, vsrc, z)`. -/
def setB (x : isolator K) (r c : Fin 2) (z : complex K) : isolator K :=
  { x with MatrixB := circuit.setEntry x.MatrixB r c z }

/-- Method `setC (vsrc, node, z)`. -/
def setC (x : isolator K) (r c : Fin 2) (z : complex K) : isolator K :=
  { x with MatrixC := circuit.setEntry x.MatrixC r c z }

/-- Method `setD (vsrc, vsrc, z)`. -/
def setD (x : isolator K) (r c : Fin 2) (z : complex K) : isolator K :=
  { x with MatrixD := circuit.setEntry x.MatrixD r c z }

/-- Method `setE (vsrc, z)`. -/
def setE (x : isolator K) (r : Fin 2) (z : complex K) : isolator K :=
  { x with VectorE := fun a => if a = r then z else x.VectorE a }

/-- Method `setVoltageSources (n)`. -/
def setVoltageSources (x : isolator K) (n : Nat) : isolator K :=
  { x with vsources := n }

/-- Modelled from the spec: `allocMatrixMNA ()` for a device with voltage
sources also allocates the blocks `B`, `C`, `D`, `E`; freshly allocated
entries are zero. -/
def allocMatrixMNA (x : isolator K) : isolator K :=
  { x with
    tocircuit := x.tocircuit.allocMatrixMNA
    MatrixB := fun _ _ => 0, MatrixC := fun _ _ => 0, MatrixD := fun _ _ => 0,
    VectorE := fun _ => 0 }

/-- The method `isolator::initSP`; `z0` is the reference impedance
`circuit::z0`.  Every division of the source is an `sdiv`. -/
def initSP (sqrt : K → K) (z0 : K) (x : isolator K) : Option (isolator K) := do
  let z1 := x.Z1
  let z2 := x.Z2
  let s1 ← sdiv (z1 - z0) (z1 + z0)
  let s2 ← sdiv (z2 - z0) (z2 + z0)
  let c := x.tocircuit.allocMatrixS
  let c := c.setS NODE_1 NODE_1 (complex.ofReal s1)
  let c := c.setS NODE_2 NODE_2 (complex.ofReal s2)
  let c := c.setS NODE_1 NODE_2 (complex.ofReal 0)
  let c := c.setS NODE_2 NODE_1 (complex.ofReal (sqrt (1 - s1 * s1) * sqrt (1 - s2 * s2)))
  pure { x with tocircuit := c }

/-- The method `isolator::calcNoiseSP`; `kelvin` and `T0` are taken from
`constants.h`.  The divisions by the impedance-derived quantities are
`sdiv`; the division by the constant `T0` is the field division. -/
def calcNoiseSP (sqrt kelvin : K → K) (T0 z0 : K) (x : isolator K) : Option (isolator K) := do
  let T := x.Temp
  let z1 := x.Z1
  let z2 := x.Z2
  let r ← sdiv (z0 - z1) (z0 + z2)
  let q ← sdiv (4 * z0) (sqr (z1 + z0))
  let f := q * kelvin T / T0
  let x := x.setN NODE_1 NODE_1 (complex.ofReal (f * z1))
  let x := x.setN NODE_1 NODE_2 (complex.ofReal (f * sqrt (z1 * z2) * r))
  let x := x.setN NODE_2 NODE_1 (complex.ofReal (f * sqrt (z1 * z2) * r))
  let x := x.setN NODE_2 NODE_2 (complex.ofReal (f * z2 * r * r))
  pure x

/-- The method `isolator::calcNoiseAC`. -/
def calcNoiseAC (sqrt kelvin : K → K) (T0 : K) (x : isolator K) : Option (isolator K) := do
  let T := x.Temp
  let z1 := x.Z1
  let z2 := x.Z2
  let f := 4 * kelvin T / T0
  let n11 ← sdiv f z1
  let x := x.setN NODE_1 NODE_1 (complex.ofReal n11)
  let x := x.setN NODE_1 NODE_2 (complex.ofReal 0)
  let n21 ← sdiv (-f * 2) (sqrt (z1 * z2))
  let x := x.setN NODE_2 NODE_1 (complex.ofReal n21)
  let n22 ← sdiv f z2
  let x := x.setN NODE_2 NODE_2 (complex.ofReal n22)
  pure x

/-- The method `isolator::initDC`; `AUGMENTED` is the build-time switch
between the augmented and the reduced formulation. -/
def initDC (AUGMENTED : Bool) (sqrt : K → K) (x : isolator K) : Option (isolator K) := do
  let z1 := x.Z1
  let z2 := x.Z2
  if AUGMENTED then
    let z21 := 2 * sqrt (z1 * z2)
    let x := x.setVoltageSources 2
    let x := x.allocMatrixMNA
    let x := x.setB NODE_1 VSRC_1 (complex.ofReal 1)
    let x := x.setB NODE_1 VSRC_2 (complex.ofReal 0)
    let x := x.setB NODE_2 VSRC_1 (complex.ofReal 0)
    let x := x.setB NODE_2 VSRC_2 (complex.ofReal 1)
    let x := x.setC VSRC_1 NODE_1 (complex.ofReal (-1))
    let x := x.setC VSRC_1 NODE_2 (complex.ofReal 0)
    let x := x.setC VSRC_2 NODE_1 (complex.ofReal 0)
    let x := x.setC VSRC_2 NODE_2 (complex.ofReal (-1))
    let x := x.setD VSRC_1 VSRC_1 (complex.ofReal z1)
    let x := x.setD VSRC_2 VSRC_2 (complex.ofReal z2)
    let x := x.setD VSRC_1 VSRC_2 (complex.ofReal 0)
    let x := x.setD VSRC_2 VSRC_1 (complex.ofReal z21)
    let x := x.setE VSRC_1 (complex.ofReal 0)
    let x := x.setE VSRC_2 (complex.ofReal 0)
    pure x
  else
    let x := x.setVoltageSources 0
    let x := x.allocMatrixMNA
    let y11 ← sdiv 1 z1
    let c := x.tocircuit.setY NODE_1 NODE_1 (complex.ofReal y11)
    let c := c.setY NODE_1 NODE_2 (complex.ofReal 0)
    let y21 ← sdiv (-2) (sqrt (z1 * z2))
    let c := c.setY NODE_2 NODE_1 (complex.ofReal y21)
    let y22 ← sdiv 1 z2
    let c := c.setY NODE_2 NODE_2 (complex.ofReal y22)
    pure { x with tocircuit := c }

/-- The method `isolator::initAC`. -/
def initAC (AUGMENTED : Bool) (sqrt : K → K) (x : isolator K) : Option (isolator K) :=
  initDC AUGMENTED sqrt x

/-- The method `isolator::initTR`. -/
def initTR (AUGMENTED : Bool) (sqrt : K → K) (x : isolator K) : Option (isolator K) :=
  initDC AUGMENTED sqrt x

/-- An isolator with port impedances `Z1`, `Z2` at 27 degrees Celsius, all
matrices cleared. -/
def sample (Z1 Z2 : K) : isolator K :=
  { MatrixS := fun _ _ => 0, MatrixY := fun _ _ => 0, VectorI := fun _ => 0,
    VectorV := fun _ => 0, Z1 := Z1, Z2 := Z2, Temp := 27,
    MatrixN := fun _ _ => 0, vsources := 0,
    MatrixB := fun _ _ => 0, MatrixC := fun _ _ => 0, MatrixD := fun _ _ => 0,
    VectorE := fun _ => 0 }

end isolator

/-! ## The ideal AC current source (`iac.cpp`) -/

/-- Modelled from the spec: the macro `rad (x)` of `consts.h`, which is not
among the translated sources, converts degrees to radians,
`x * pi / 180`. -/
def rad {K : Type} [LinearOrderedField K] (pi x : K) : K := x * pi / 180

/-- Construction from polar coordinates, `polar (mag, ang)`; the C functions
`cos` and `sin` are parameters. -/
def complex.polar {K : Type} [LinearOrderedField K] (cos sin : K → K) (mag ang : K) :
    complex K :=
  ⟨mag * cos ang, mag * sin ang⟩

/-- The object of class `iac`: a two-terminal circuit and its properties
`I`, `Phase` and `f`. -/
structure iac (K : Type) extends circuit K 2 where
  I : K
  Phase : K
  f : K

namespace iac

variable {K : Type} [LinearOrderedField K]

/-- The method `iac::initSP`. -/
def initSP (x : iac K) : iac K :=
  let c := x.tocircuit.allocMatrixS
  let c := c.setS NODE_1 NODE_1 (complex.ofReal 1)
  let c := c.setS NODE_1 NODE_2 (complex.ofReal 0)
  let c := c.setS NODE_2 NODE_1 (complex.ofReal 0)
  let c := c.setS NODE_2 NODE_2 (complex.ofReal 1)
  { x with tocircuit := c }

/-- The method `iac::initAC`; `pi` is the constant `M_PI`. -/
def initAC (pi : K) (cos sin : K → K) (x : iac K) : iac K :=
  let a := x.I
  let p := x.Phase
  let i := complex.polar cos sin a (rad pi p)
  let c := x.tocircuit.allocMatrixMNA
  let c := c.setI NODE_1 i
  let c := c.setI NODE_2 (-i)
  { x with tocircuit := c }

/-- The method `iac::calcTR`. -/
def calcTR (pi : K) (sin : K → K) (x : iac K) (t : K) : iac K :=
  let f := x.f
  let p := x.Phase
  let i := x.I * sin (2 * pi * f * t + rad pi p)
  let c := x.tocircuit
  let c := c.setI NODE_1 (complex.ofReal i)
  let c := c.setI NODE_2 (complex.ofReal (-i))
  { x with tocircuit := c }

/-- A source of amplitude `I`, phase `Phase` (degrees) and frequency `f`,
all matrices cleared. -/
def sample (I Phase f : K) : iac K :=
  { MatrixS := fun _ _ => 0, MatrixY := fun _ _ => 0, VectorI := fun _ => 0,
    VectorV := fun _ => 0, I := I, Phase := Phase, f := f }

end iac

/-- The complex number of the embedding as a complex number of the
mathematical library. -/
def complex.toC (z : complex ℝ) : ℂ := ⟨z.r, z.i⟩

/-! ## The surface potential of the MOSFET model -/

/-- Lines 253-273 of `mosfet::initModel`: the member `Phi` computed from
the property `Phi` (`P`), the substrate doping `Nsub` and the temperatures
`T1`, `T2`.  The C function `log`, the helper `pnPotential_T` of `device.cpp`
and the constants `T0`, `kBoverQ`, `NiSi` of `constants.h` are parameters. -/
def mosfet.initModel_Phi {K : Type} [LinearOrderedField K] (log : K → K)
    (pnPotential_T : K → K → K → K) (T0 kBoverQ NiSi : K) (T1 T2 P Nsub : K) : K :=
  let Ut := T0 * kBoverQ
  let P := pnPotential_T T1 T2 P
  let Phi := P
  if Phi ≤ 0 then
    if Nsub > 0 then
      if Nsub * 1e6 ≥ NiSi then
        2 * Ut * log (Nsub * 1e6 / NiSi)
      else
        0.6
    else
      0.6
  else
    Phi

/-! ## Model initialisation of the MOSFET: channel length and transconductance -/

namespace mosfet

variable {K : Type} [LinearOrderedField K]

/-- Lines 213-220 of `initModel`: the effective channel length `Leff` from
the properties `L` and `Ld`. -/
def initModel_Leff (L Ld : K) : K :=
  let Leff := L - 2 * Ld
  if Leff ≤ 0 then L else Leff

/-- Lines 222-231 of `initModel`: the oxide capacitance per unit area from
the property `Tox`; `ESiO2` and `E0` are constants of `constants.h`. -/
def initModel_Cox (ESiO2 E0 Tox : K) : K :=
  if Tox ≤ 0 then 0 else ESiO2 * E0 / Tox

/-- Line 236 of `initModel`: the temperature factor
`F1 = exp (1.5 * log (T1 / T2))`; `exp` and `log` are the C functions. -/
def initModel_F1 (exp log : K → K) (T1 T2 : K) : K := exp (1.5 * log (T1 / T2))

/-- Lines 233-251 of `initModel`: the transconductance coefficient `beta`
from the properties `Kp`, `Uo`, `W`, the temperatures `T1` (nominal) and `T2`
and the members `Cox` and `Leff` computed before. -/
def initModel_beta (exp log : K → K) (T1 T2 Kp Uo W Cox Leff : K) : K :=
  let F1 := initModel_F1 exp log T1 T2
  let Kp := Kp * F1
  let Uo := Uo * F1
  if Kp > 0 then
    Kp * W / Leff
  else
    if Cox > 0 ∧ Uo > 0 then
      Uo * 1e-4 * Cox * W / Leff
    else
      2e-5 * W / Leff

end mosfet

/-! ## Series resistances of the MOSFET (`mosfet::initDC`) -/

/-- The auxiliary resistor, reduced to the three properties `initDC` sets
on it; `none` is a property that has not been set. -/
structure resistor (K : Type) where
  Temp : Option K
  R : Option K
  Controlled : Option String

/-- One of the pointer members `rs`, `rg`, `rd`: the resistor it points to
(`none` for `NULL`) and whether that resistor is at present inserted between
the terminal and its internal node. -/
structure SeriesSlot (K : Type) where
  res : Option (resistor K)
  inserted : Bool

/-- Modelled from the spec: `splitResistor` of `device.cpp`, which is not
among the translated sources: "create-or-reuse an auxiliary two-terminal
resistor sub-device inserted between the original terminal and a new
internal node".  A new resistor has no property set. -/
def splitResistor {K : Type} (slot : SeriesSlot K) : SeriesSlot K :=
  { res := some (match slot.res with
      | some r => r
      | none => { Temp := none, R := none, Controlled := none })
    inserted := true }

/-- Modelled from the spec: `disableResistor` of `device.cpp`, which is not
among the translated sources: "disable/remove any previously created
auxiliary resistor".  The pointer is passed by value and keeps its value. -/
def disableResistor {K : Type} (slot : SeriesSlot K) : SeriesSlot K :=
  { slot with inserted := false }

/-- A method call through the pointer, `rs->...`. -/
def SeriesSlot.call {K : Type} (slot : SeriesSlot K) (f : resistor K → resistor K) :
    SeriesSlot K :=
  { slot with res := slot.res.map f }

/-- The part of the `mosfet` object that the series-resistance insertion of
`initDC` reads and writes: the name, the properties `Temp`, `Rs`, `Rd`, `Rg`,
`Rsh`, `Nrd`, `Nrs`, the members `Rs`, `Rd` and the pointers `rs`, `rg`,
`rd`. -/
structure mosfetSeries (K : Type) where
  name : String
  Temp : K
  Rs_property : K
  Rd_property : K
  Rg : K
  Rsh : K
  Nrd : K
  Nrs : K
  Rs : K
  Rd : K
  rs : SeriesSlot K
  rg : SeriesSlot K
  rd : SeriesSlot K

namespace mosfetSeries

variable {K : Type} [LinearOrderedField K]

/-- Lines 312-321 of `initModel`: drain and source resistance with the sheet
contributions. -/
def initModel_R (m : mosfetSeries K) : mosfetSeries K :=
  let Rsh := m.Rsh
  let Nrd := m.Nrd
  let Nrs := m.Nrs
  let Rd := m.Rd_property
  let Rs := m.Rs_property
  let Rd := if Rsh > 0 then (if Nrd > 0 then Rd + Rsh * Nrd else Rd) else Rd
  let Rs := if Rsh > 0 then (if Nrs > 0 then Rs + Rsh * Nrs else Rs) else Rs
  { m with Rd := Rd, Rs := Rs }

/-- The block of `initDC` for one terminal: with a non-zero resistance the
resistor is created or reused, gets the properties `Temp`, `R`, `Controlled`
and is initialised; otherwise it is disabled.  `resistorInitDC` is the method
`resistor::initDC`. -/
def seriesBlock (resistorInitDC : resistor K → resistor K) (name : String) (T R : K)
    (slot : SeriesSlot K) : SeriesSlot K :=
  if R ≠ 0 then
    let slot := splitResistor slot
    let slot := slot.call fun r => { r with Temp := some T }
    let slot := slot.call fun r => { r with R := some R }
    let slot := slot.call fun r => { r with Controlled := some name }
    let slot := slot.call resistorInitDC
    slot
  else
    disableResistor slot

/-- The method `mosfet::initDC` on the series-resistance part of the object:
`initModel ()` derives `Rs` and `Rd`, then the source, gate and drain blocks
run in this order.  (`allocMatrixMNA`, `restartDC` and the remainder of
`initModel` neither read nor write this part.) -/
def initDC (resistorInitDC : resistor K → resistor K) (m : mosfetSeries K) : mosfetSeries K :=
  let m := initModel_R m
  let T := m.Temp
  let m := { m with rs := seriesBlock resistorInitDC m.name T m.Rs m.rs }
  let Rg := m.Rg
  let m := { m with rg := seriesBlock resistorInitDC m.name T Rg m.rg }
  let m := { m with rd := seriesBlock resistorInitDC m.name T m.Rd m.rd }
  m

/-- A device named `M1` at 27 degrees Celsius with the given resistance
properties and no auxiliary resistor yet. -/
def sample (Rs Rd Rg Rsh Nrd Nrs : K) : mosfetSeries K :=
  { name := "M1", Temp := 27, Rs_property := Rs, Rd_property := Rd, Rg := Rg, Rsh := Rsh,
    Nrd := Nrd, Nrs := Nrs, Rs := 0, Rd := 0,
    rs := { res := none, inserted := false }, rg := { res := none, inserted := false },
    rd := { res := none, inserted := false } }

end mosfetSeries

/-! ## Noise and transient charges of the MOSFET -/

namespace mosfet

variable {K : Type} [LinearOrderedField K]

/-- The method `mosfet::calcMatrixCy`.  `Kf`, `Af`, `Ffe`, `T` are the
properties `Kf`, `Af`, `Ffe`, `Temp`; `pow` is the C function, `kelvin`, `T0`
and `kB` are taken from `constants.h`; `fabs` is the absolute value. -/
def calcMatrixCy (pow : K → K → K) (kelvin : K → K) (T0 kB : K) (Kf Af Ffe T : K)
    (op : OperatingPoints K) (frequency : K) : Fin 4 → Fin 4 → complex K :=
  let gm := |op.gm|
  let Ids := |op.Id|
  let i := 8 * kelvin T / T0 * gm / 3 + Kf * pow Ids Af / pow frequency Ffe / kB / T0
  let cy : Fin 4 → Fin 4 → complex K := fun _ _ => 0
  let cy := circuit.setEntry cy NODE_D NODE_D (complex.ofReal i)
  let cy := circuit.setEntry cy NODE_S NODE_S (complex.ofReal i)
  let cy := circuit.setEntry cy NODE_D NODE_S (complex.ofReal (-i))
  let cy := circuit.setEntry cy NODE_S NODE_D (complex.ofReal (-i))
  cy

/-- The local `i` of `calcMatrixCy`: the spectral density of the channel
noise plus the flicker noise. -/
def noiseDensity (pow : K → K → K) (kelvin : K → K) (T0 kB : K) (Kf Af Ffe T : K)
    (op : OperatingPoints K) (frequency : K) : K :=
  8 * kelvin T / T0 * |op.gm| / 3 + Kf * pow |op.Id| Af / pow frequency Ffe / kB / T0

/-- The method `mosfet::transientChargeTR`: returns the state slots after
the call, the value left in the reference argument `cap`, and the charge
returned. -/
def transientChargeTR (st : States K) (qstate : Nat) (cap voltage ccap : K) :
    States K × K × K :=
  let vstate := qstate + 2
  let cstate := qstate + 3
  let st := setState st cstate cap
  let cap := (cap + getState st cstate 1) / 2 + ccap
  let st := setState st vstate voltage
  (st, cap, cap * (voltage - getState st vstate 1) + getState st qstate 1)

/-- The method `mosfet::transientChargeSR`. -/
def transientChargeSR (st : States K) (qstate : Nat) (cap voltage ccap : K) :
    States K × K × K :=
  let vstate := qstate + 2
  let cstate := qstate + 3
  let st := setState st cstate cap
  let cap := (cap + 4 * getState st cstate 1 + getState st cstate 2) / 6 + ccap
  let st := setState st vstate voltage
  (st, cap, cap * (voltage - getState st vstate 1) + getState st qstate 1)

end mosfet

/-! ## The equation evaluator (`evaluate.cpp`) -/

/-- The class `constant` of the equation system, reduced to its type tag
and the value stored under that tag. -/
inductive constant (K : Type) where
  | TAG_DOUBLE (d : K)
  | TAG_COMPLEX (c : complex K)
  | TAG_VECTOR (v : List (complex K))

namespace evaluate

variable {K : Type} [LinearOrderedField K]

/-- The function `evaluate::abs_d`; `d1` is the real argument
`D (args->getResult (0))`. -/
def abs_d (d1 : K) : constant K := constant.TAG_DOUBLE d1

/-- The function `evaluate::abs_c`; `c1` is the complex argument. -/
def abs_c (sqrt : K → K) (c1 : complex K) : constant K :=
  constant.TAG_DOUBLE (complex.abs sqrt c1)

/-- The function `evaluate::sqrt_d`. -/
def sqrt_d (sqrt : K → K) (d1 : K) : constant K :=
  if d1 < 0 then
    constant.TAG_COMPLEX ⟨0, sqrt (-d1)⟩
  else
    constant.TAG_COMPLEX (complex.ofReal (sqrt d1))

end evaluate

/-! ## Polarity, operating-point voltages and state slots of the MOSFET -/

namespace mosfet

variable {K : Type} [LinearOrderedField K]

/-- The device as a p-channel device: `pol = -1`, the value line 211 of
`initModel` assigns for the type `pfet`; everything else is kept. -/
def pType (m : mosfet K) : mosfet K := { m with pol := -1 }

/-- The n-channel counterpart of a device: `pol = +1`, the threshold
negated, every node voltage negated; the previous-iterate fields and all
remaining parameters are kept. -/
def nMirror (m : mosfet K) : mosfet K :=
  { m with
    tocircuit := { m.tocircuit with VectorV := fun a => -(m.VectorV a) }
    pol := 1, Vto := -m.Vto }

/-- The operating points `Vgs`, `Vgd`, `Vbs`, `Vbd`, `Vds`, `Vgb` stored
under their names by `saveOperatingPoints`. -/
structure VoltagePoints (K : Type) where
  Vgs : K
  Vgd : K
  Vbs : K
  Vbd : K
  Vds : K
  Vgb : K

/-- The method `mosfet::saveOperatingPoints`. -/
def saveOperatingPoints (m : mosfet K) : VoltagePoints K :=
  let Vgd := complex.real (m.VectorV NODE_G - m.VectorV NODE_D) * m.pol
  let Vgs := complex.real (m.VectorV NODE_G - m.VectorV NODE_S) * m.pol
  let Vbs := complex.real (m.VectorV NODE_B - m.VectorV NODE_S) * m.pol
  let Vbd := complex.real (m.VectorV NODE_B - m.VectorV NODE_D) * m.pol
  { Vgs := Vgs, Vgd := Vgd, Vbs := Vbs, Vbd := Vbd, Vds := Vgs - Vgd, Vgb := Vgs - Vbs }

/-- The method `mosfet::loadOperatingPoints`.  The member `Ugb`, which the
structure `mosfet` does not carry, is the second component of the result. -/
def loadOperatingPoints (op : VoltagePoints K) (m : mosfet K) : mosfet K × K :=
  ({ m with Ugs := op.Vgs, Ugd := op.Vgd, Ubs := op.Vbs, Ubd := op.Vbd, Uds := op.Vds },
    op.Vgb)

/-- Lines 673-677 of `calcTR` as far as the voltage members are concerned:
`calcDC ()`, `saveOperatingPoints ()`, `loadOperatingPoints ()`.  The call
`calcOperatingPoints ()` that follows assigns the charges, the state slots
and operating points, and none of `Ugs`, `Ugd`, `Ubs`, `Ubd`, `Uds`, `Ugb`. -/
def calcTR_load (lib : DeviceLib K) (m : mosfet K) : mosfet K × K :=
  let m := calcDC lib m
  let op := saveOperatingPoints m
  loadOperatingPoints op m

/-- Lines 686-687 of `calcTR`: `Uds = Ugs - Ugd; Ugb = Ugs - Ubs;`. -/
def calcTR_voltages (s : mosfet K × K) : mosfet K × K :=
  let m := s.1
  let m := { m with Uds := m.Ugs - m.Ugd }
  (m, m.Ugs - m.Ubs)

end mosfet

/-- Gate-drain charge state. -/
def qgdState : Nat := 0
/-- Gate-drain current state. -/
def igdState : Nat := 1
/-- Gate-drain voltage state. -/
def vgdState : Nat := 2
/-- Gate-drain capacitance state. -/
def cgdState : Nat := 3
/-- Gate-source charge state. -/
def qgsState : Nat := 4
/-- Gate-source current state. -/
def igsState : Nat := 5
/-- Gate-source voltage state. -/
def vgsState : Nat := 6
/-- Gate-source capacitance state. -/
def cgsState : Nat := 7
/-- Bulk-drain charge state. -/
def qbdState : Nat := 8
/-- Bulk-drain current state. -/
def ibdState : Nat := 9
/-- Bulk-source charge state. -/
def qbsState : Nat := 10
/-- Bulk-source current state. -/
def ibsState : Nat := 11
/-- Gate-bulk charge state. -/
def qgbState : Nat := 12
/-- Gate-bulk current state. -/
def igbState : Nat := 13
/-- Gate-bulk voltage state. -/
def vgbState : Nat := 14
/-- Gate-bulk capacitance state. -/
def cgbState : Nat := 15

/-- The argument of `setStates (16)` in `mosfet::initTR`: the number of
state slots of the device, numbered from zero. -/
def mosfet.initTR_states : Nat := 16

/-- The sixteen state-slot constants in the order of their definition. -/
def mosfet.stateSlots : List Nat :=
  [qgdState, igdState, vgdState, cgdState, qgsState, igsState, vgsState, cgsState,
   qbdState, ibdState, qbsState, ibsState, qgbState, igbState, vgbState, cgbState]

/-- Transposition of a 2x2 matrix. -/
def transpose2 {K : Type} (A : Fin 2 → Fin 2 → complex K) : Fin 2 → Fin 2 → complex K :=
  fun a b => A b a

namespace evaluate

variable {K : Type} [LinearOrderedField K]

/-- The function `evaluate::real_c`. -/
def real_c (c1 : complex K) : constant K := constant.TAG_DOUBLE (complex.real c1)

/-- The function `evaluate::imag_c`. -/
def imag_c (c1 : complex K) : constant K := constant.TAG_DOUBLE (complex.imag c1)

/-- The function `evaluate::norm_c`. -/
def norm_c (c1 : complex K) : constant K := constant.TAG_DOUBLE (complex.norm c1)

end evaluate

/-! ## The applications table of the equation evaluator -/

/-- The type tags `TAG_DOUBLE`, `TAG_COMPLEX`, `TAG_VECTOR` of the equation
system. -/
inductive Tag where
  | TAG_DOUBLE
  | TAG_COMPLEX
  | TAG_VECTOR
  deriving DecidableEq

/-- The type tag stored in a constant. -/
def constant.tag {K : Type} : constant K → Tag
  | constant.TAG_DOUBLE _ => Tag.TAG_DOUBLE
  | constant.TAG_COMPLEX _ => Tag.TAG_COMPLEX
  | constant.TAG_VECTOR _ => Tag.TAG_VECTOR

/-- The evaluator functions `evaluate::...` of `evaluate.cpp`, as the values
a function pointer in the applications table can take, in the order of their
definition. -/
inductive evaluator_t where
  | plus_d | plus_c | plus_v | plus_d_d | plus_c_c | plus_c_d | plus_d_c | plus_v_d | plus_d_v
  | plus_v_c | plus_c_v | plus_v_v | minus_d | minus_c | minus_v | minus_d_d | minus_c_c
  | minus_c_d | minus_d_c | minus_v_d | minus_d_v | minus_v_c | minus_c_v | minus_v_v
  | times_d_d | times_c_c | times_c_d | times_d_c | times_v_d | times_d_v | times_v_c
  | times_c_v | times_v_v | over_d_d | over_c_c | over_c_d | over_d_c | over_v_d | over_d_v
  | over_v_c | over_c_v | over_v_v | modulo_d_d | modulo_c_c | modulo_c_d | modulo_d_c
  | modulo_v_d | modulo_d_v | modulo_v_c | modulo_c_v | modulo_v_v | power_d_d | power_c_c
  | power_c_d | power_d_c | power_v_d | power_d_v | power_v_c | power_c_v | power_v_v | real_d
  | real_c | real_v | imag_d | imag_c | imag_v | abs_d | abs_c | abs_v | conj_d | conj_c
  | conj_v | norm_d | norm_c | norm_v | phase_d | phase_c | phase_v | arg_d | arg_c | arg_v
  | dB_d | dB_c | dB_v | sqrt_d | sqrt_c | sqrt_v | exp_d | exp_c | exp_v | ln_d | ln_c | ln_v
  | log10_d | log10_c | log10_v | sin_d | sin_c | sin_v | cos_d | cos_c | cos_v | tan_d | tan_c
  | tan_v | ztor_d | ztor_c | ztor_v | rtoz_d | rtoz_c | rtoz_v
  deriving DecidableEq

/-- The type tag each evaluator function passes to `new constant (...)` when
it constructs its result, read off the body of the function. -/
def evaluator_t.resultTag : evaluator_t → Tag
  | .plus_d => Tag.TAG_DOUBLE
  | .plus_c => Tag.TAG_COMPLEX
  | .plus_v => Tag.TAG_VECTOR
  | .plus_d_d => Tag.TAG_DOUBLE
  | .plus_c_c => Tag.TAG_COMPLEX
  | .plus_c_d => Tag.TAG_COMPLEX
  | .plus_d_c => Tag.TAG_COMPLEX
  | .plus_v_d => Tag.TAG_VECTOR
  | .plus_d_v => Tag.TAG_VECTOR
  | .plus_v_c => Tag.TAG_VECTOR
  | .plus_c_v => Tag.TAG_VECTOR
  | .plus_v_v => Tag.TAG_VECTOR
  | .minus_d => Tag.TAG_DOUBLE
  | .minus_c => Tag.TAG_COMPLEX
  | .minus_v => Tag.TAG_VECTOR
  | .minus_d_d => Tag.TAG_DOUBLE
  | .minus_c_c => Tag.TAG_COMPLEX
  | .minus_c_d => Tag.TAG_COMPLEX
  | .minus_d_c => Tag.TAG_COMPLEX
  | .minus_v_d => Tag.TAG_VECTOR
  | .minus_d_v => Tag.TAG_VECTOR
  | .minus_v_c => Tag.TAG_VECTOR
  | .minus_c_v => Tag.TAG_VECTOR
  | .minus_v_v => Tag.TAG_VECTOR
  | .times_d_d => Tag.TAG_DOUBLE
  | .times_c_c => Tag.TAG_COMPLEX
  | .times_c_d => Tag.TAG_COMPLEX
  | .times_d_c => Tag.TAG_COMPLEX
  | .times_v_d => Tag.TAG_VECTOR
  | .times_d_v => Tag.TAG_VECTOR
  | .times_v_c => Tag.TAG_VECTOR
  | .times_c_v => Tag.TAG_VECTOR
  | .times_v_v => Tag.TAG_VECTOR
  | .over_d_d => Tag.TAG_DOUBLE
  | .over_c_c => Tag.TAG_COMPLEX
  | .over_c_d => Tag.TAG_COMPLEX
  | .over_d_c => Tag.TAG_COMPLEX
  | .over_v_d => Tag.TAG_VECTOR
  | .over_d_v => Tag.TAG_VECTOR
  | .over_v_c => Tag.TAG_VECTOR
  | .over_c_v => Tag.TAG_VECTOR
  | .over_v_v => Tag.TAG_VECTOR
  | .modulo_d_d => Tag.TAG_DOUBLE
  | .modulo_c_c => Tag.TAG_COMPLEX
  | .modulo_c_d => Tag.TAG_COMPLEX
  | .modulo_d_c => Tag.TAG_COMPLEX
  | .modulo_v_d => Tag.TAG_VECTOR
  | .modulo_d_v => Tag.TAG_VECTOR
  | .modulo_v_c => Tag.TAG_VECTOR
  | .modulo_c_v => Tag.TAG_VECTOR
  | .modulo_v_v => Tag.TAG_VECTOR
  | .power_d_d => Tag.TAG_DOUBLE
  | .power_c_c => Tag.TAG_COMPLEX
  | .power_c_d => Tag.TAG_COMPLEX
  | .power_d_c => Tag.TAG_COMPLEX
  | .power_v_d => Tag.TAG_VECTOR
  | .power_d_v => Tag.TAG_VECTOR
  | .power_v_c => Tag.TAG_VECTOR
  | .power_c_v => Tag.TAG_VECTOR
  | .power_v_v => Tag.TAG_VECTOR
  | .real_d => Tag.TAG_DOUBLE
  | .real_c => Tag.TAG_DOUBLE
  | .real_v => Tag.TAG_VECTOR
  | .imag_d => Tag.TAG_DOUBLE
  | .imag_c => Tag.TAG_DOUBLE
  | .imag_v => Tag.TAG_VECTOR
  | .abs_d => Tag.TAG_DOUBLE
  | .abs_c => Tag.TAG_DOUBLE
  | .abs_v => Tag.TAG_VECTOR
  | .conj_d => Tag.TAG_DOUBLE
  | .conj_c => Tag.TAG_COMPLEX
  | .conj_v => Tag.TAG_VECTOR
  | .norm_d => Tag.TAG_DOUBLE
  | .norm_c => Tag.TAG_DOUBLE
  | .norm_v => Tag.TAG_VECTOR
  | .phase_d => Tag.TAG_DOUBLE
  | .phase_c => Tag.TAG_DOUBLE
  | .phase_v => Tag.TAG_VECTOR
  | .arg_d => Tag.TAG_DOUBLE
  | .arg_c => Tag.TAG_DOUBLE
  | .arg_v => Tag.TAG_VECTOR
  | .dB_d => Tag.TAG_DOUBLE
  | .dB_c => Tag.TAG_DOUBLE
  | .dB_v => Tag.TAG_VECTOR
  | .sqrt_d => Tag.TAG_COMPLEX
  | .sqrt_c => Tag.TAG_COMPLEX
  | .sqrt_v => Tag.TAG_VECTOR
  | .exp_d => Tag.TAG_DOUBLE
  | .exp_c => Tag.TAG_COMPLEX
  | .exp_v => Tag.TAG_VECTOR
  | .ln_d => Tag.TAG_DOUBLE
  | .ln_c => Tag.TAG_COMPLEX
  | .ln_v => Tag.TAG_VECTOR
  | .log10_d => Tag.TAG_DOUBLE
  | .log10_c => Tag.TAG_COMPLEX
  | .log10_v => Tag.TAG_VECTOR
  | .sin_d => Tag.TAG_DOUBLE
  | .sin_c => Tag.TAG_COMPLEX
  | .sin_v => Tag.TAG_VECTOR
  | .cos_d => Tag.TAG_DOUBLE
  | .cos_c => Tag.TAG_COMPLEX
  | .cos_v => Tag.TAG_VECTOR
  | .tan_d => Tag.TAG_DOUBLE
  | .tan_c => Tag.TAG_COMPLEX
  | .tan_v => Tag.TAG_VECTOR
  | .ztor_d => Tag.TAG_COMPLEX
  | .ztor_c => Tag.TAG_COMPLEX
  | .ztor_v => Tag.TAG_VECTOR
  | .rtoz_d => Tag.TAG_COMPLEX
  | .rtoz_c => Tag.TAG_COMPLEX
  | .rtoz_v => Tag.TAG_VECTOR

/-- An entry of the applications table: the name of the application, the
declared type tag of the result, the evaluator function, the number of
arguments and their type tags. -/
structure application_t where
  application : String
  retval : Tag
  eval : evaluator_t
  nr_of_args : Nat
  args : List Tag
  deriving DecidableEq

/-- The array `eqn::applications`, without the terminating entry. -/
def applications : List application_t := [
  application_t.mk "+" Tag.TAG_DOUBLE evaluator_t.plus_d 1 [Tag.TAG_DOUBLE],
  application_t.mk "+" Tag.TAG_COMPLEX evaluator_t.plus_c 1 [Tag.TAG_COMPLEX],
  application_t.mk "+" Tag.TAG_VECTOR evaluator_t.plus_v 1 [Tag.TAG_VECTOR],
  application_t.mk "+" Tag.TAG_DOUBLE evaluator_t.plus_d_d 2 [Tag.TAG_DOUBLE, Tag.TAG_DOUBLE],
  application_t.mk "+" Tag.TAG_COMPLEX evaluator_t.plus_c_c 2 [Tag.TAG_COMPLEX, Tag.TAG_COMPLEX],
  application_t.mk "+" Tag.TAG_COMPLEX evaluator_t.plus_c_d 2 [Tag.TAG_COMPLEX, Tag.TAG_DOUBLE],
  application_t.mk "+" Tag.TAG_COMPLEX evaluator_t.plus_d_c 2 [Tag.TAG_DOUBLE, Tag.TAG_COMPLEX],
  application_t.mk "+" Tag.TAG_VECTOR evaluator_t.plus_v_d 2 [Tag.TAG_VECTOR, Tag.TAG_DOUBLE],
  application_t.mk "+" Tag.TAG_VECTOR evaluator_t.plus_d_v 2 [Tag.TAG_DOUBLE, Tag.TAG_VECTOR],
  application_t.mk "+" Tag.TAG_VECTOR evaluator_t.plus_v_c 2 [Tag.TAG_VECTOR, Tag.TAG_COMPLEX],
  application_t.mk "+" Tag.TAG_VECTOR evaluator_t.plus_c_v 2 [Tag.TAG_COMPLEX, Tag.TAG_VECTOR],
  application_t.mk "+" Tag.TAG_VECTOR evaluator_t.plus_v_v 2 [Tag.TAG_VECTOR, Tag.TAG_VECTOR],
  application_t.mk "-" Tag.TAG_DOUBLE evaluator_t.minus_d 1 [Tag.TAG_DOUBLE],
  application_t.mk "-" Tag.TAG_COMPLEX evaluator_t.minus_c 1 [Tag.TAG_COMPLEX],
  application_t.mk "-" Tag.TAG_VECTOR evaluator_t.minus_v 1 [Tag.TAG_VECTOR],
  application_t.mk "-" Tag.TAG_DOUBLE evaluator_t.minus_d_d 2 [Tag.TAG_DOUBLE, Tag.TAG_DOUBLE],
  application_t.mk "-" Tag.TAG_COMPLEX evaluator_t.minus_c_c 2 [Tag.TAG_COMPLEX, Tag.TAG_COMPLEX],
  application_t.mk "-" Tag.TAG_COMPLEX evaluator_t.minus_c_d 2 [Tag.TAG_COMPLEX, Tag.TAG_DOUBLE],
  application_t.mk "-" Tag.TAG_COMPLEX evaluator_t.minus_d_c 2 [Tag.TAG_DOUBLE, Tag.TAG_COMPLEX],
  application_t.mk "-" Tag.TAG_VECTOR evaluator_t.minus_v_d 2 [Tag.TAG_VECTOR, Tag.TAG_DOUBLE],
  application_t.mk "-" Tag.TAG_VECTOR evaluator_t.minus_d_v 2 [Tag.TAG_DOUBLE, Tag.TAG_VECTOR],
  application_t.mk "-" Tag.TAG_VECTOR evaluator_t.minus_v_c 2 [Tag.TAG_VECTOR, Tag.TAG_COMPLEX],
  application_t.mk "-" Tag.TAG_VECTOR evaluator_t.minus_c_v 2 [Tag.TAG_COMPLEX, Tag.TAG_VECTOR],
  application_t.mk "-" Tag.TAG_VECTOR evaluator_t.minus_v_v 2 [Tag.TAG_VECTOR, Tag.TAG_VECTOR],
  application_t.mk "*" Tag.TAG_DOUBLE evaluator_t.times_d_d 2 [Tag.TAG_DOUBLE, Tag.TAG_DOUBLE],
  application_t.mk "*" Tag.TAG_COMPLEX evaluator_t.times_c_c 2 [Tag.TAG_COMPLEX, Tag.TAG_COMPLEX],
  application_t.mk "*" Tag.TAG_COMPLEX evaluator_t.times_c_d 2 [Tag.TAG_COMPLEX, Tag.TAG_DOUBLE],
  application_t.mk "*" Tag.TAG_COMPLEX evaluator_t.times_d_c 2 [Tag.TAG_DOUBLE, Tag.TAG_COMPLEX],
  application_t.mk "*" Tag.TAG_VECTOR evaluator_t.times_v_d 2 [Tag.TAG_VECTOR, Tag.TAG_DOUBLE],
  application_t.mk "*" Tag.TAG_VECTOR evaluator_t.times_d_v 2 [Tag.TAG_DOUBLE, Tag.TAG_VECTOR],
  application_t.mk "*" Tag.TAG_VECTOR evaluator_t.times_v_c 2 [Tag.TAG_VECTOR, Tag.TAG_COMPLEX],
  application_t.mk "*" Tag.TAG_VECTOR evaluator_t.times_c_v 2 [Tag.TAG_COMPLEX, Tag.TAG_VECTOR],
  application_t.mk "*" Tag.TAG_VECTOR evaluator_t.times_v_v 2 [Tag.TAG_VECTOR, Tag.TAG_VECTOR],
  application_t.mk "/" Tag.TAG_DOUBLE evaluator_t.over_d_d 2 [Tag.TAG_DOUBLE, Tag.TAG_DOUBLE],
  application_t.mk "/" Tag.TAG_COMPLEX evaluator_t.over_c_c 2 [Tag.TAG_COMPLEX, Tag.TAG_COMPLEX],
  application_t.mk "/" Tag.TAG_COMPLEX evaluator_t.over_c_d 2 [Tag.TAG_COMPLEX, Tag.TAG_DOUBLE],
  application_t.mk "/" Tag.TAG_COMPLEX evaluator_t.over_d_c 2 [Tag.TAG_DOUBLE, Tag.TAG_COMPLEX],
  application_t.mk "/" Tag.TAG_VECTOR evaluator_t.over_v_d 2 [Tag.TAG_VECTOR, Tag.TAG_DOUBLE],
  application_t.mk "/" Tag.TAG_VECTOR evaluator_t.over_d_v 2 [Tag.TAG_DOUBLE, Tag.TAG_VECTOR],
  application_t.mk "/" Tag.TAG_VECTOR evaluator_t.over_v_c 2 [Tag.TAG_VECTOR, Tag.TAG_COMPLEX],
  application_t.mk "/" Tag.TAG_VECTOR evaluator_t.over_c_v 2 [Tag.TAG_COMPLEX, Tag.TAG_VECTOR],
  application_t.mk "/" Tag.TAG_VECTOR evaluator_t.over_v_v 2 [Tag.TAG_VECTOR, Tag.TAG_VECTOR],
  application_t.mk "%" Tag.TAG_DOUBLE evaluator_t.modulo_d_d 2 [Tag.TAG_DOUBLE, Tag.TAG_DOUBLE],
  application_t.mk "%" Tag.TAG_COMPLEX evaluator_t.modulo_c_c 2 [Tag.TAG_COMPLEX, Tag.TAG_COMPLEX],
  application_t.mk "%" Tag.TAG_COMPLEX evaluator_t.modulo_c_d 2 [Tag.TAG_COMPLEX, Tag.TAG_DOUBLE],
  application_t.mk "%" Tag.TAG_COMPLEX evaluator_t.modulo_d_c 2 [Tag.TAG_DOUBLE, Tag.TAG_COMPLEX],
  application_t.mk "%" Tag.TAG_VECTOR evaluator_t.modulo_v_d 2 [Tag.TAG_VECTOR, Tag.TAG_DOUBLE],
  application_t.mk "%" Tag.TAG_VECTOR evaluator_t.modulo_d_v 2 [Tag.TAG_DOUBLE, Tag.TAG_VECTOR],
  application_t.mk "%" Tag.TAG_VECTOR evaluator_t.modulo_v_c 2 [Tag.TAG_VECTOR, Tag.TAG_COMPLEX],
  application_t.mk "%" Tag.TAG_VECTOR evaluator_t.modulo_c_v 2 [Tag.TAG_COMPLEX, Tag.TAG_VECTOR],
  application_t.mk "%" Tag.TAG_VECTOR evaluator_t.modulo_v_v 2 [Tag.TAG_VECTOR, Tag.TAG_VECTOR],
  application_t.mk "^" Tag.TAG_DOUBLE evaluator_t.power_d_d 2 [Tag.TAG_DOUBLE, Tag.TAG_DOUBLE],
  application_t.mk "^" Tag.TAG_COMPLEX evaluator_t.power_c_c 2 [Tag.TAG_COMPLEX, Tag.TAG_COMPLEX],
  application_t.mk "^" Tag.TAG_COMPLEX evaluator_t.power_c_d 2 [Tag.TAG_COMPLEX, Tag.TAG_DOUBLE],
  application_t.mk "^" Tag.TAG_COMPLEX evaluator_t.power_d_c 2 [Tag.TAG_DOUBLE, Tag.TAG_COMPLEX],
  application_t.mk "^" Tag.TAG_VECTOR evaluator_t.power_v_d 2 [Tag.TAG_VECTOR, Tag.TAG_DOUBLE],
  application_t.mk "^" Tag.TAG_VECTOR evaluator_t.power_d_v 2 [Tag.TAG_DOUBLE, Tag.TAG_VECTOR],
  application_t.mk "^" Tag.TAG_VECTOR evaluator_t.power_v_c 2 [Tag.TAG_VECTOR, Tag.TAG_COMPLEX],
  application_t.mk "^" Tag.TAG_VECTOR evaluator_t.power_c_v 2 [Tag.TAG_COMPLEX, Tag.TAG_VECTOR],
  application_t.mk "^" Tag.TAG_VECTOR evaluator_t.power_v_v 2 [Tag.TAG_VECTOR, Tag.TAG_VECTOR],
  application_t.mk "real" Tag.TAG_DOUBLE evaluator_t.real_d 1 [Tag.TAG_DOUBLE],
  application_t.mk "real" Tag.TAG_COMPLEX evaluator_t.real_c 1 [Tag.TAG_COMPLEX],
  application_t.mk "real" Tag.TAG_VECTOR evaluator_t.real_v 1 [Tag.TAG_VECTOR],
  application_t.mk "imag" Tag.TAG_DOUBLE evaluator_t.imag_d 1 [Tag.TAG_DOUBLE],
  application_t.mk "imag" Tag.TAG_COMPLEX evaluator_t.imag_c 1 [Tag.TAG_COMPLEX],
  application_t.mk "imag" Tag.TAG_VECTOR evaluator_t.imag_v 1 [Tag.TAG_VECTOR],
  application_t.mk "abs" Tag.TAG_DOUBLE evaluator_t.abs_d 1 [Tag.TAG_DOUBLE],
  application_t.mk "abs" Tag.TAG_COMPLEX evaluator_t.abs_c 1 [Tag.TAG_COMPLEX],
  application_t.mk "abs" Tag.TAG_VECTOR evaluator_t.abs_v 1 [Tag.TAG_VECTOR],
  application_t.mk "mag" Tag.TAG_DOUBLE evaluator_t.abs_d 1 [Tag.TAG_DOUBLE],
  application_t.mk "mag" Tag.TAG_COMPLEX evaluator_t.abs_c 1 [Tag.TAG_COMPLEX],
  application_t.mk "mag" Tag.TAG_VECTOR evaluator_t.abs_v 1 [Tag.TAG_VECTOR],
  application_t.mk "conj" Tag.TAG_DOUBLE evaluator_t.conj_d 1 [Tag.TAG_DOUBLE],
  application_t.mk "conj" Tag.TAG_COMPLEX evaluator_t.conj_c 1 [Tag.TAG_COMPLEX],
  application_t.mk "conj" Tag.TAG_VECTOR evaluator_t.conj_v 1 [Tag.TAG_VECTOR],
  application_t.mk "norm" Tag.TAG_DOUBLE evaluator_t.norm_d 1 [Tag.TAG_DOUBLE],
  application_t.mk "norm" Tag.TAG_COMPLEX evaluator_t.norm_c 1 [Tag.TAG_COMPLEX],
  application_t.mk "norm" Tag.TAG_VECTOR evaluator_t.norm_v 1 [Tag.TAG_VECTOR],
  application_t.mk "phase" Tag.TAG_DOUBLE evaluator_t.phase_d 1 [Tag.TAG_DOUBLE],
  application_t.mk "phase" Tag.TAG_COMPLEX evaluator_t.phase_c 1 [Tag.TAG_COMPLEX],
  application_t.mk "phase" Tag.TAG_VECTOR evaluator_t.phase_v 1 [Tag.TAG_VECTOR],
  application_t.mk "angle" Tag.TAG_DOUBLE evaluator_t.arg_d 1 [Tag.TAG_DOUBLE],
  application_t.mk "angle" Tag.TAG_COMPLEX evaluator_t.arg_c 1 [Tag.TAG_COMPLEX],
  application_t.mk "angle" Tag.TAG_VECTOR evaluator_t.arg_v 1 [Tag.TAG_VECTOR],
  application_t.mk "arg" Tag.TAG_DOUBLE evaluator_t.arg_d 1 [Tag.TAG_DOUBLE],
  application_t.mk "arg" Tag.TAG_COMPLEX evaluator_t.arg_c 1 [Tag.TAG_COMPLEX],
  application_t.mk "arg" Tag.TAG_VECTOR evaluator_t.arg_v 1 [Tag.TAG_VECTOR],
  application_t.mk "dB" Tag.TAG_DOUBLE evaluator_t.dB_d 1 [Tag.TAG_DOUBLE],
  application_t.mk "dB" Tag.TAG_COMPLEX evaluator_t.dB_c 1 [Tag.TAG_COMPLEX],
  application_t.mk "dB" Tag.TAG_VECTOR evaluator_t.dB_v 1 [Tag.TAG_VECTOR],
  application_t.mk "sqrt" Tag.TAG_COMPLEX evaluator_t.sqrt_d 1 [Tag.TAG_DOUBLE],
  application_t.mk "sqrt" Tag.TAG_COMPLEX evaluator_t.sqrt_c 1 [Tag.TAG_COMPLEX],
  application_t.mk "sqrt" Tag.TAG_VECTOR evaluator_t.sqrt_v 1 [Tag.TAG_VECTOR],
  application_t.mk "exp" Tag.TAG_DOUBLE evaluator_t.exp_d 1 [Tag.TAG_DOUBLE],
  application_t.mk "exp" Tag.TAG_COMPLEX evaluator_t.exp_c 1 [Tag.TAG_COMPLEX],
  application_t.mk "exp" Tag.TAG_VECTOR evaluator_t.exp_v 1 [Tag.TAG_VECTOR],
  application_t.mk "ln" Tag.TAG_DOUBLE evaluator_t.ln_d 1 [Tag.TAG_DOUBLE],
  application_t.mk "ln" Tag.TAG_COMPLEX evaluator_t.ln_c 1 [Tag.TAG_COMPLEX],
  application_t.mk "ln" Tag.TAG_VECTOR evaluator_t.ln_v 1 [Tag.TAG_VECTOR],
  application_t.mk "log10" Tag.TAG_DOUBLE evaluator_t.log10_d 1 [Tag.TAG_DOUBLE],
  application_t.mk "log10" Tag.TAG_COMPLEX evaluator_t.log10_c 1 [Tag.TAG_COMPLEX],
  application_t.mk "log10" Tag.TAG_VECTOR evaluator_t.log10_v 1 [Tag.TAG_VECTOR],
  application_t.mk "sin" Tag.TAG_DOUBLE evaluator_t.sin_d 1 [Tag.TAG_DOUBLE],
  application_t.mk "sin" Tag.TAG_COMPLEX evaluator_t.sin_c 1 [Tag.TAG_COMPLEX],
  application_t.mk "sin" Tag.TAG_VECTOR evaluator_t.sin_v 1 [Tag.TAG_VECTOR],
  application_t.mk "cos" Tag.TAG_DOUBLE evaluator_t.cos_d 1 [Tag.TAG_DOUBLE],
  application_t.mk "cos" Tag.TAG_COMPLEX evaluator_t.cos_c 1 [Tag.TAG_COMPLEX],
  application_t.mk "cos" Tag.TAG_VECTOR evaluator_t.cos_v 1 [Tag.TAG_VECTOR],
  application_t.mk "tan" Tag.TAG_DOUBLE evaluator_t.tan_d 1 [Tag.TAG_DOUBLE],
  application_t.mk "tan" Tag.TAG_COMPLEX evaluator_t.tan_c 1 [Tag.TAG_COMPLEX],
  application_t.mk "tan" Tag.TAG_VECTOR evaluator_t.tan_v 1 [Tag.TAG_VECTOR],
  application_t.mk "ztor" Tag.TAG_DOUBLE evaluator_t.ztor_d 1 [Tag.TAG_DOUBLE],
  application_t.mk "ztor" Tag.TAG_COMPLEX evaluator_t.ztor_c 1 [Tag.TAG_COMPLEX],
  application_t.mk "ztor" Tag.TAG_VECTOR evaluator_t.ztor_v 1 [Tag.TAG_VECTOR],
  application_t.mk "rtoz" Tag.TAG_DOUBLE evaluator_t.rtoz_d 1 [Tag.TAG_DOUBLE],
  application_t.mk "rtoz" Tag.TAG_COMPLEX evaluator_t.rtoz_c 1 [Tag.TAG_COMPLEX],
  application_t.mk "rtoz" Tag.TAG_VECTOR evaluator_t.rtoz_v 1 [Tag.TAG_VECTOR]]

/-- The entries of the applications table whose declared result tag differs
from the tag the evaluator function constructs. -/
def mismatches : List application_t :=
  applications.filter fun e => decide (e.retval ≠ e.eval.resultTag)

/-! ## Basic facts about the embedding -/

namespace complex

variable {K : Type} [LinearOrderedField K]

@[simp] theorem zero_r : (0 : complex K).r = 0 := rfl
@[simp] theorem zero_i : (0 : complex K).i = 0 := rfl
@[simp] theorem one_r : (1 : complex K).r = 1 := rfl
@[simp] theorem one_i : (1 : complex K).i = 0 := rfl
@[simp] theorem add_r (a b : complex K) : (a + b).r = a.r + b.r := rfl
@[simp] theorem add_i (a b : complex K) : (a + b).i = a.i + b.i := rfl
@[simp] theorem sub_r (a b : complex K) : (a - b).r = a.r - b.r := rfl
@[simp] theorem sub_i (a b : complex K) : (a - b).i = a.i - b.i := rfl
@[simp] theorem neg_r (a : complex K) : (-a).r = -a.r := rfl
@[simp] theorem neg_i (a : complex K) : (-a).i = -a.i := rfl
@[simp] theorem mul_r (a b : complex K) : (a * b).r = a.r * b.r - a.i * b.i := rfl
@[simp] theorem mul_i (a b : complex K) : (a * b).i = a.i * b.r + a.r * b.i := rfl
@[simp] theorem div_r (a b : complex K) :
    (a / b).r = (a.r * b.r + a.i * b.i) / (b.r * b.r + b.i * b.i) := rfl
@[simp] theorem div_i (a b : complex K) :
    (a / b).i = (a.i * b.r - a.r * b.i) / (b.r * b.r + b.i * b.i) := rfl
@[simp] theorem ofReal_r (x : K) : (ofReal x).r = x := rfl
@[simp] theorem ofReal_i (x : K) : (ofReal x).i = 0 := rfl
@[simp] theorem rect_r (x y : K) : (rect x y).r = x := rfl
@[simp] theorem rect_i (x y : K) : (rect x y).i = y := rfl
@[simp] theorem conj_r (z : complex K) : (conj z).r = z.r := rfl
@[simp] theorem conj_i (z : complex K) : (conj z).i = -z.i := rfl

theorem ext_iff {a b : complex K} : a = b ↔ a.r = b.r ∧ a.i = b.i := by
  cases a; cases b; simp

end complex

/-! ## The DC solve of the MOSFET -/

namespace mosfet

variable {K : Type} [LinearOrderedField K]

@[simp] theorem calcDC_limit_beta (lib : DeviceLib K) (m : mosfet K) :
    (calcDC_limit lib m).beta = m.beta := rfl

@[simp] theorem calcDC_limit_Lambda (lib : DeviceLib K) (m : mosfet K) :
    (calcDC_limit lib m).Lambda = m.Lambda := rfl

@[simp] theorem calcDC_limit_Ga (lib : DeviceLib K) (m : mosfet K) :
    (calcDC_limit lib m).Ga = m.Ga := rfl

@[simp] theorem calcDC_limit_Phi (lib : DeviceLib K) (m : mosfet K) :
    (calcDC_limit lib m).Phi = m.Phi := rfl

@[simp] theorem calcDC_limit_Vto (lib : DeviceLib K) (m : mosfet K) :
    (calcDC_limit lib m).Vto = m.Vto := rfl

@[simp] theorem calcDC_limit_pol (lib : DeviceLib K) (m : mosfet K) :
    (calcDC_limit lib m).pol = m.pol := rfl

@[simp] theorem calcDC_limit_Isd (lib : DeviceLib K) (m : mosfet K) :
    (calcDC_limit lib m).Isd = m.Isd := rfl

@[simp] theorem calcDC_limit_Iss (lib : DeviceLib K) (m : mosfet K) :
    (calcDC_limit lib m).Iss = m.Iss := rfl

@[simp] theorem calcDC_limit_N (lib : DeviceLib K) (m : mosfet K) :
    (calcDC_limit lib m).N = m.N := rfl

@[simp] theorem calcDC_limit_Temp (lib : DeviceLib K) (m : mosfet K) :
    (calcDC_limit lib m).Temp = m.Temp := rfl

@[simp] theorem calcDC_beta (lib : DeviceLib K) (m : mosfet K) :
    (calcDC lib m).beta = m.beta := by
  simp only [calcDC, calcDC_stamp, calcDC_channel, calcDC_diodes, calcDC_limit_beta]

@[simp] theorem calcDC_Lambda (lib : DeviceLib K) (m : mosfet K) :
    (calcDC lib m).Lambda = m.Lambda := by
  simp only [calcDC, calcDC_stamp, calcDC_channel, calcDC_diodes, calcDC_limit_Lambda]

@[simp] theorem calcDC_Ga (lib : DeviceLib K) (m : mosfet K) :
    (calcDC lib m).Ga = m.Ga := by
  simp only [calcDC, calcDC_stamp, calcDC_channel, calcDC_diodes, calcDC_limit_Ga]

@[simp] theorem calcDC_Phi (lib : DeviceLib K) (m : mosfet K) :
    (calcDC lib m).Phi = m.Phi := by
  simp only [calcDC, calcDC_stamp, calcDC_channel, calcDC_diodes, calcDC_limit_Phi]

@[simp] theorem calcDC_Vto (lib : DeviceLib K) (m : mosfet K) :
    (calcDC lib m).Vto = m.Vto := by
  simp only [calcDC, calcDC_stamp, calcDC_channel, calcDC_diodes, calcDC_limit_Vto]

@[simp] theorem calcDC_pol (lib : DeviceLib K) (m : mosfet K) :
    (calcDC lib m).pol = m.pol := by
  simp only [calcDC, calcDC_stamp, calcDC_channel, calcDC_diodes, calcDC_limit_pol]

@[simp] theorem calcDC_Isd (lib : DeviceLib K) (m : mosfet K) :
    (calcDC lib m).Isd = m.Isd := by
  simp only [calcDC, calcDC_stamp, calcDC_channel, calcDC_diodes, calcDC_limit_Isd]

@[simp] theorem calcDC_Iss (lib : DeviceLib K) (m : mosfet K) :
    (calcDC lib m).Iss = m.Iss := by
  simp only [calcDC, calcDC_stamp, calcDC_channel, calcDC_diodes, calcDC_limit_Iss]

@[simp] theorem calcDC_N (lib : DeviceLib K) (m : mosfet K) :
    (calcDC lib m).N = m.N := by
  simp only [calcDC, calcDC_stamp, calcDC_channel, calcDC_diodes, calcDC_limit_N]

@[simp] theorem calcDC_Temp (lib : DeviceLib K) (m : mosfet K) :
    (calcDC lib m).Temp = m.Temp := by
  simp only [calcDC, calcDC_stamp, calcDC_channel, calcDC_diodes, calcDC_limit_Temp]

theorem calcDC_Uds (lib : DeviceLib K) (m : mosfet K) :
    (calcDC lib m).Uds = (calcDC_limit lib m).Uds := rfl

theorem calcDC_Ugs (lib : DeviceLib K) (m : mosfet K) :
    (calcDC lib m).Ugs = (calcDC_limit lib m).Ugs := rfl

theorem calcDC_Ugd (lib : DeviceLib K) (m : mosfet K) :
    (calcDC lib m).Ugd = (calcDC_limit lib m).Ugd := rfl

theorem calcDC_Ubs (lib : DeviceLib K) (m : mosfet K) :
    (calcDC lib m).Ubs = (calcDC_limit lib m).Ubs := rfl

theorem calcDC_Ubd (lib : DeviceLib K) (m : mosfet K) :
    (calcDC lib m).Ubd = (calcDC_limit lib m).Ubd := rfl

/-- The overdrive read off the state after `calcDC` is the local `Utst` of
the call. -/
theorem Utst_calcDC (lib : DeviceLib K) (m : mosfet K) :
    Utst lib (calcDC lib m) = Utst lib (calcDC_diodes lib (calcDC_limit lib m)) := by
  simp only [Utst, Upn, calcDC, calcDC_stamp, calcDC_channel, calcDC_diodes]

/-- The channel values left by `calcDC` are those of the region
classification at the overdrive and at `Vds = Uds * MOSdir`. -/
theorem calcDC_channel_eq (lib : DeviceLib K) (m : mosfet K) :
    let r := calcDC lib m
    let ch := channel m.beta m.Lambda (argOf m.Ga (Sarg lib.sqrt m.Phi (Upn r)))
      (Utst lib r) (r.Uds * r.MOSdir)
    r.Ids = r.MOSdir * ch.Ids ∧ r.gm = ch.gm ∧ r.gds = ch.gds ∧ r.gmb = ch.gmb ∧
      r.MOSdir = dirOf r.Uds := by
  simp only [Utst, Upn, calcDC, calcDC_stamp, calcDC_channel, calcDC_diodes, calcDC_limit_beta,
    calcDC_limit_Lambda, calcDC_limit_Ga, calcDC_limit_Phi, and_self]

end mosfet

/-! ## Derivatives of the region formulas -/

section ChannelDerivatives

open Set Filter Topology

/-- Two functions with the same derivative at `a`, one describing `f` on the
left of `a` and one on the right, give the derivative of `f` at `a`. -/
theorem hasDerivAt_glue {f g1 g2 : ℝ → ℝ} {a d : ℝ} (h1 : HasDerivAt g1 d a)
    (h2 : HasDerivAt g2 d a) (e1 : ∀ᶠ u in 𝓝 a, u ≤ a → f u = g1 u)
    (e2 : ∀ᶠ u in 𝓝 a, a ≤ u → f u = g2 u) : HasDerivAt f d a := by
  rw [← hasDerivWithinAt_univ, ← Iic_union_Ici (a := a)]
  apply HasDerivWithinAt.union
  · exact (h1.hasDerivWithinAt).congr_of_eventuallyEq (eventually_nhdsWithin_iff.mpr e1)
      (e1.self_of_nhds le_rfl)
  · exact (h2.hasDerivWithinAt).congr_of_eventuallyEq (eventually_nhdsWithin_iff.mpr e2)
      (e2.self_of_nhds le_rfl)

theorem satU_deriv (b U : ℝ) : HasDerivAt (fun u : ℝ => b * u * u / 2) (b * U) U := by
  have h := ((hasDerivAt_id U).pow 2).const_mul (b / 2)
  refine (h.congr_deriv ?_).congr_of_eventuallyEq (Eventually.of_forall fun u => ?_)
  · simp; ring
  · simp; ring

theorem linU_deriv (b V U : ℝ) : HasDerivAt (fun u : ℝ => b * V * (u - V / 2)) (b * V) U := by
  have h := ((hasDerivAt_id U).sub_const (V / 2)).const_mul (b * V)
  simpa using h

theorem satV_deriv (beta l U V : ℝ) :
    HasDerivAt (fun v : ℝ => beta * (1 + l * v) * U * U / 2) (l * beta * U * U / 2) V := by
  have h := ((((hasDerivAt_id V).const_mul l).const_add 1).const_mul beta).mul_const (U * U / 2)
  refine (h.congr_deriv ?_).congr_of_eventuallyEq (Eventually.of_forall fun u => ?_)
  · simp; ring
  · simp; ring

theorem linV_deriv (beta l U V : ℝ) :
    HasDerivAt (fun v : ℝ => beta * (1 + l * v) * v * (U - v / 2))
      (beta * (1 + l * V) * (U - V) + l * beta * V * (U - V / 2)) V := by
  have h1 := (((hasDerivAt_id V).const_mul l).const_add 1).const_mul beta
  have h3 := ((hasDerivAt_id V).div_const 2).const_sub U
  have h := (h1.mul (hasDerivAt_id V)).mul h3
  refine (h.congr_deriv ?_).congr_of_eventuallyEq (Eventually.of_forall fun u => ?_)
  · simp; ring
  · simp

/-- Outside cutoff the region classification is the two-branch square law. -/
theorem channel_Ids_of_pos {K : Type} [LinearOrderedField K] (beta l arg U V : K)
    (hU : 0 < U) :
    (mosfet.channel beta l arg U V).Ids =
      if U ≤ V then beta * (1 + l * V) * U * U / 2
      else beta * (1 + l * V) * V * (U - V / 2) := by
  simp only [mosfet.channel, if_neg (not_le.mpr hU)]
  split_ifs <;> rfl

theorem channel_gm_of_pos {K : Type} [LinearOrderedField K] (beta l arg U V : K)
    (hU : 0 < U) :
    (mosfet.channel beta l arg U V).gm =
      if U ≤ V then beta * (1 + l * V) * U else beta * (1 + l * V) * V := by
  simp only [mosfet.channel, if_neg (not_le.mpr hU)]
  split_ifs <;> rfl

theorem channel_gds_of_pos {K : Type} [LinearOrderedField K] (beta l arg U V : K)
    (hU : 0 < U) :
    (mosfet.channel beta l arg U V).gds =
      if U ≤ V then l * beta * U * U / 2
      else beta * (1 + l * V) * (U - V) + l * beta * V * (U - V / 2) := by
  simp only [mosfet.channel, if_neg (not_le.mpr hU)]
  split_ifs <;> rfl

/-- Outside cutoff, `gm` is the derivative with respect to the overdrive of
the channel current computed by the region classification. -/
theorem channel_hasDerivAt_Utst (beta l arg U V : ℝ) (hU : 0 < U) :
    HasDerivAt (fun u => (mosfet.channel beta l arg u V).Ids)
      (mosfet.channel beta l arg U V).gm U := by
  rw [channel_gm_of_pos beta l arg U V hU]
  rcases lt_trichotomy U V with h | h | h
  · rw [if_pos h.le]
    refine (satU_deriv (beta * (1 + l * V)) U).congr_of_eventuallyEq ?_
    filter_upwards [lt_mem_nhds hU, gt_mem_nhds h] with u hu huV
    rw [channel_Ids_of_pos beta l arg u V hu, if_pos huV.le]
  · rw [if_pos h.le]
    refine hasDerivAt_glue (satU_deriv (beta * (1 + l * V)) U)
      ((linU_deriv (beta * (1 + l * V)) V U).congr_deriv (by rw [h])) ?_ ?_
    · filter_upwards [lt_mem_nhds hU] with u hu huU
      rw [channel_Ids_of_pos beta l arg u V hu, if_pos (huU.trans h.le)]
    · filter_upwards [lt_mem_nhds hU] with u hu huU
      rw [channel_Ids_of_pos beta l arg u V hu]
      split_ifs with huV
      · have : u = V := le_antisymm huV (h ▸ huU)
        subst this
        ring
      · rfl
  · rw [if_neg (not_le.mpr h)]
    refine (linU_deriv (beta * (1 + l * V)) V U).congr_of_eventuallyEq ?_
    filter_upwards [lt_mem_nhds hU, lt_mem_nhds h] with u hu huV
    rw [channel_Ids_of_pos beta l arg u V hu, if_neg (not_le.mpr huV)]

/-- Outside cutoff, `gds` is the derivative with respect to `Vds` of the
channel current computed by the region classification. -/
theorem channel_hasDerivAt_Vds (beta l arg U V : ℝ) (hU : 0 < U) :
    HasDerivAt (fun v => (mosfet.channel beta l arg U v).Ids)
      (mosfet.channel beta l arg U V).gds V := by
  rw [channel_gds_of_pos beta l arg U V hU]
  rcases lt_trichotomy U V with h | h | h
  · rw [if_pos h.le]
    refine (satV_deriv beta l U V).congr_of_eventuallyEq ?_
    filter_upwards [lt_mem_nhds h] with v hv
    rw [channel_Ids_of_pos beta l arg U v hU, if_pos hv.le]
  · rw [if_pos h.le]
    refine hasDerivAt_glue ((linV_deriv beta l U V).congr_deriv (by rw [h]; ring))
      (satV_deriv beta l U V) ?_ ?_
    · filter_upwards with v hv
      rw [channel_Ids_of_pos beta l arg U v hU]
      split_ifs with hUv
      · have : v = U := le_antisymm (hv.trans h.symm.le) hUv
        subst this
        ring
      · rfl
    · filter_upwards with v hv
      rw [channel_Ids_of_pos beta l arg U v hU, if_pos (h.le.trans hv)]
  · rw [if_neg (not_le.mpr h)]
    refine (linV_deriv beta l U V).congr_of_eventuallyEq ?_
    filter_upwards [gt_mem_nhds h] with v hv
    rw [channel_Ids_of_pos beta l arg U v hU, if_neg (not_le.mpr hv)]

end ChannelDerivatives

/-- C1: in `mosfet::calcDC`, whenever the overdrive
`Utst = (MOSdir > 0 ? Ugs : Ugd) - Uon` is `<= 0`, the drain current `Ids`,
the transconductance `gm`, the output conductance `gds` and the body-effect
transconductance `gmb` are all exactly zero, whatever the drain-source
voltage, `beta`, `Lambda`, `Ga` and `Phi` are. -/
theorem C1_cutoff_all_zero {K : Type} [LinearOrderedField K] (lib : DeviceLib K)
    (m : mosfet K) (h : mosfet.Utst lib (mosfet.calcDC lib m) ≤ 0) :
    (mosfet.calcDC lib m).Ids = 0 ∧ (mosfet.calcDC lib m).gm = 0 ∧
      (mosfet.calcDC lib m).gds = 0 ∧ (mosfet.calcDC lib m).gmb = 0 := by
  obtain ⟨h1, h2, h3, h4, -⟩ := mosfet.calcDC_channel_eq lib m
  rw [h1, h2, h3, h4]
  simp [mosfet.channel, h]

/-- Witness of C1: an n-channel device with gate and source at 0 V and the
drain at 1 V is in cutoff (`Utst = -1`). -/
theorem C1_cutoff_all_zero_witness :
    mosfet.Utst testLib (mosfet.calcDC testLib (mosfet.sample 0 1 0 0)) ≤ 0 ∧
      ((mosfet.calcDC testLib (mosfet.sample 0 1 0 0)).Ids = 0 ∧
        (mosfet.calcDC testLib (mosfet.sample 0 1 0 0)).gm = 0 ∧
        (mosfet.calcDC testLib (mosfet.sample 0 1 0 0)).gds = 0 ∧
        (mosfet.calcDC testLib (mosfet.sample 0 1 0 0)).gmb = 0) :=
  have h : mosfet.Utst testLib (mosfet.calcDC testLib (mosfet.sample 0 1 0 0)) ≤ 0 := by
    rw [mosfet.Utst_calcDC]
    norm_num [mosfet.Utst, mosfet.Upn, mosfet.UonOf, mosfet.Sarg, mosfet.dirOf,
      mosfet.calcDC_diodes, mosfet.calcDC_limit, mosfet.sample, testLib, DeviceLib.unlimited,
      complex.real, NODE_G, NODE_D, NODE_S, NODE_B]
  ⟨h, C1_cutoff_all_zero testLib (mosfet.sample 0 1 0 0) h⟩

/-- The product `Uds * MOSdir` is never negative. -/
theorem mosfet.Uds_mul_dirOf_nonneg {K : Type} [LinearOrderedField K] (Uds : K) :
    0 ≤ Uds * mosfet.dirOf Uds := by
  unfold mosfet.dirOf
  split_ifs with h
  · simpa using h
  · have := not_le.mp h
    nlinarith

/-- C2: outside cutoff (`Utst > 0`; `Vds = Uds * MOSdir` is never negative)
`mosfet::calcDC` computes the square-law current with channel-length
modulation: in saturation (`Utst <= Vds`) the channel current assigned by the
region classification is `beta * (1 + Lambda * Vds) * Utst^2 / 2`, in the
linear region it is `beta * (1 + Lambda * Vds) * Vds * (Utst - Vds / 2)`
(the field `Ids` is `MOSdir` times it); in both regions `gm` is the
derivative of that formula with respect to `Utst` and `gds` its derivative
with respect to `Vds`.  The same holds for the region classification as a
whole, across the saturation/linear boundary. -/
theorem C2_square_law (lib : DeviceLib ℝ) (m : mosfet ℝ)
    (hU : 0 < mosfet.Utst lib (mosfet.calcDC lib m)) :
    let r := mosfet.calcDC lib m
    let Utst := mosfet.Utst lib r
    let Vds := r.Uds * r.MOSdir
    let arg := mosfet.argOf m.Ga (mosfet.Sarg lib.sqrt m.Phi (mosfet.Upn r))
    0 ≤ Vds ∧
    (Utst ≤ Vds →
      r.Ids = r.MOSdir * (m.beta * (1 + m.Lambda * Vds) * Utst ^ 2 / 2) ∧
      HasDerivAt (fun u => m.beta * (1 + m.Lambda * Vds) * u ^ 2 / 2) r.gm Utst ∧
      HasDerivAt (fun v => m.beta * (1 + m.Lambda * v) * Utst ^ 2 / 2) r.gds Vds) ∧
    (Vds < Utst →
      r.Ids = r.MOSdir * (m.beta * (1 + m.Lambda * Vds) * Vds * (Utst - Vds / 2)) ∧
      HasDerivAt (fun u => m.beta * (1 + m.Lambda * Vds) * Vds * (u - Vds / 2)) r.gm Utst ∧
      HasDerivAt (fun v => m.beta * (1 + m.Lambda * v) * v * (Utst - v / 2)) r.gds Vds) ∧
    HasDerivAt (fun u => (mosfet.channel m.beta m.Lambda arg u Vds).Ids) r.gm Utst ∧
    HasDerivAt (fun v => (mosfet.channel m.beta m.Lambda arg Utst v).Ids) r.gds Vds := by
  intro r Utst Vds arg
  obtain ⟨h1, h2, h3, -, h5⟩ := mosfet.calcDC_channel_eq lib m
  have hI : r.Ids = r.MOSdir * (mosfet.channel m.beta m.Lambda arg Utst Vds).Ids := h1
  have hgm : r.gm = (mosfet.channel m.beta m.Lambda arg Utst Vds).gm := h2
  have hgds : r.gds = (mosfet.channel m.beta m.Lambda arg Utst Vds).gds := h3
  have hdir : r.MOSdir = mosfet.dirOf r.Uds := h5
  have hU0 : 0 < Utst := hU
  refine ⟨?_, ?_, ?_, ?_, ?_⟩
  · show 0 ≤ r.Uds * r.MOSdir
    rw [hdir]
    exact mosfet.Uds_mul_dirOf_nonneg _
  · intro hs
    refine ⟨?_, ?_, ?_⟩
    · rw [hI, channel_Ids_of_pos _ _ _ _ _ hU0, if_pos hs]
      ring
    · rw [hgm, channel_gm_of_pos _ _ _ _ _ hU0, if_pos hs]
      refine (satU_deriv (m.beta * (1 + m.Lambda * Vds)) Utst).congr_of_eventuallyEq
        (Filter.Eventually.of_forall fun u => ?_)
      show _ = _
      ring
    · rw [hgds, channel_gds_of_pos _ _ _ _ _ hU0, if_pos hs]
      refine (satV_deriv m.beta m.Lambda Utst Vds).congr_of_eventuallyEq
        (Filter.Eventually.of_forall fun u => ?_)
      show _ = _
      ring
  · intro hl
    refine ⟨?_, ?_, ?_⟩
    · rw [hI, channel_Ids_of_pos _ _ _ _ _ hU0, if_neg (not_le.mpr hl)]
    · rw [hgm, channel_gm_of_pos _ _ _ _ _ hU0, if_neg (not_le.mpr hl)]
      exact linU_deriv (m.beta * (1 + m.Lambda * Vds)) Vds Utst
    · rw [hgds, channel_gds_of_pos _ _ _ _ _ hU0, if_neg (not_le.mpr hl)]
      exact linV_deriv m.beta m.Lambda Utst Vds
  · rw [hgm]
    exact channel_hasDerivAt_Utst _ _ _ _ _ hU0
  · rw [hgds]
    exact channel_hasDerivAt_Vds _ _ _ _ _ hU0

/-- The overdrive of the sample device with the gate at 3 V, the drain at
1 V and source and bulk at 0 V is 2 V. -/
theorem mosfet.sample_Utst_real :
    mosfet.Utst (DeviceLib.unlimited Real.sqrt linearJunction)
      (mosfet.calcDC (DeviceLib.unlimited Real.sqrt linearJunction) (mosfet.sample 3 1 0 0))
      = 2 := by
  rw [mosfet.Utst_calcDC]
  norm_num [mosfet.Utst, mosfet.Upn, mosfet.UonOf, mosfet.Sarg, mosfet.dirOf,
    mosfet.calcDC_diodes, mosfet.calcDC_limit, mosfet.sample, DeviceLib.unlimited,
    complex.real, NODE_G, NODE_D, NODE_S, NODE_B]

/-- Witness of C2: the sample device with the gate at 3 V and the drain at
1 V conducts (`Utst = 2`, `Vds = 1`, linear region). -/
theorem C2_square_law_witness :
    0 < mosfet.Utst (DeviceLib.unlimited Real.sqrt linearJunction)
      (mosfet.calcDC (DeviceLib.unlimited Real.sqrt linearJunction) (mosfet.sample 3 1 0 0)) ∧
    0 ≤ (mosfet.calcDC (DeviceLib.unlimited Real.sqrt linearJunction) (mosfet.sample 3 1 0 0)).Uds *
      (mosfet.calcDC (DeviceLib.unlimited Real.sqrt linearJunction) (mosfet.sample 3 1 0 0)).MOSdir :=
  have h : 0 < mosfet.Utst (DeviceLib.unlimited Real.sqrt linearJunction)
      (mosfet.calcDC (DeviceLib.unlimited Real.sqrt linearJunction) (mosfet.sample 3 1 0 0)) := by
    rw [mosfet.sample_Utst_real]
    norm_num
  ⟨h, (C2_square_law (DeviceLib.unlimited Real.sqrt linearJunction) (mosfet.sample 3 1 0 0) h).1⟩

/-- C4: after the limiting steps of `mosfet::calcDC`, for every input
voltage, every previous iterate and whatever the limiting functions
`fetVoltage`, `fetVoltageDS` and `pnVoltage` return, the voltages used for
the rest of the solve are loop-consistent, `Uds = Ugs - Ugd` and
`Uds = Ubs - Ubd`, and the previous-iterate fields hold exactly these
limited values. -/
theorem C4_limited_voltages_consistent {K : Type} [LinearOrderedField K]
    (lib : DeviceLib K) (m : mosfet K) :
    (mosfet.calcDC lib m).Uds = (mosfet.calcDC lib m).Ugs - (mosfet.calcDC lib m).Ugd ∧
    (mosfet.calcDC lib m).Uds = (mosfet.calcDC lib m).Ubs - (mosfet.calcDC lib m).Ubd ∧
    (mosfet.calcDC lib m).UgsPrev = (mosfet.calcDC lib m).Ugs ∧
    (mosfet.calcDC lib m).UgdPrev = (mosfet.calcDC lib m).Ugd ∧
    (mosfet.calcDC lib m).UdsPrev = (mosfet.calcDC lib m).Uds ∧
    (mosfet.calcDC lib m).UbsPrev = (mosfet.calcDC lib m).Ubs ∧
    (mosfet.calcDC lib m).UbdPrev = (mosfet.calcDC lib m).Ubd := by
  simp only [mosfet.calcDC, mosfet.calcDC_stamp, mosfet.calcDC_channel, mosfet.calcDC_diodes,
    mosfet.calcDC_limit, and_true]
  constructor
  · split_ifs <;> ring
  · split_ifs <;> ring

/-- The admittance entries and control terms written by the stamp of
`calcDC`, entry by entry. -/
theorem mosfet.calcDC_stamp_MatrixY {K : Type} [LinearOrderedField K] (m : mosfet K) :
    let SourceControl := if m.MOSdir > 0 then m.gm + m.gmb else 0
    let DrainControl := if m.MOSdir < 0 then m.gm + m.gmb else 0
    let Y := (mosfet.calcDC_stamp m).MatrixY
    (Y NODE_G NODE_G = complex.ofReal 0 ∧ Y NODE_G NODE_D = complex.ofReal 0 ∧
      Y NODE_G NODE_S = complex.ofReal 0 ∧ Y NODE_G NODE_B = complex.ofReal 0) ∧
    (Y NODE_D NODE_G = complex.ofReal m.gm ∧
      Y NODE_D NODE_D = complex.ofReal (m.gds + m.gbd - DrainControl) ∧
      Y NODE_D NODE_S = complex.ofReal (-m.gds - SourceControl) ∧
      Y NODE_D NODE_B = complex.ofReal (m.gmb - m.gbd)) ∧
    (Y NODE_S NODE_G = complex.ofReal (-m.gm) ∧
      Y NODE_S NODE_D = complex.ofReal (-m.gds + DrainControl) ∧
      Y NODE_S NODE_S = complex.ofReal (m.gbs + m.gds + SourceControl) ∧
      Y NODE_S NODE_B = complex.ofReal (-m.gbs - m.gmb)) ∧
    (Y NODE_B NODE_G = complex.ofReal 0 ∧ Y NODE_B NODE_D = complex.ofReal (-m.gbd) ∧
      Y NODE_B NODE_S = complex.ofReal (-m.gbs) ∧
      Y NODE_B NODE_B = complex.ofReal (m.gbs + m.gbd)) := by
  simp +decide [mosfet.calcDC_stamp, circuit.setY, circuit.setI, circuit.setEntry,
    NODE_G, NODE_D, NODE_S, NODE_B]

/-- C3 (evaluation at the failing input): the sample n-channel device
(`Isd = Iss`, limiting inactive) with gate 3 V, drain 1 V, source 0 V, bulk
0 V conducts forward with `gm = 2` and gets `Y (D, G) = 2`; with the drain
and source voltages exchanged the solve conducts in reverse with the same
`gm = 2` but writes `Y (S, G) = -2`, so the stamp is not the drain/source
mirror image. -/
theorem C3_mirror_fails :
    (mosfet.calcDC testLib (mosfet.sample 3 1 0 0)).MatrixY NODE_D NODE_G = complex.ofReal 2 ∧
    (mosfet.calcDC testLib (mosfet.exchangeDS (mosfet.sample 3 1 0 0))).MatrixY
      (mosfet.swapDS NODE_D) (mosfet.swapDS NODE_G) = complex.ofReal (-2) ∧
    (mosfet.calcDC testLib (mosfet.sample 3 1 0 0)).gm = 2 ∧
    (mosfet.calcDC testLib (mosfet.exchangeDS (mosfet.sample 3 1 0 0))).gm = 2 ∧
    (mosfet.calcDC testLib (mosfet.sample 3 1 0 0)).MOSdir = 1 ∧
    (mosfet.calcDC testLib (mosfet.exchangeDS (mosfet.sample 3 1 0 0))).MOSdir = -1 ∧
    (mosfet.calcDC testLib (mosfet.exchangeDS (mosfet.sample 3 1 0 0))).MatrixY
      (mosfet.swapDS NODE_D) (mosfet.swapDS NODE_G) ≠
      (mosfet.calcDC testLib (mosfet.sample 3 1 0 0)).MatrixY NODE_D NODE_G := by
  have e1 : (mosfet.calcDC_channel testLib (mosfet.calcDC_diodes testLib
      (mosfet.calcDC_limit testLib (mosfet.sample 3 1 0 0)))).gm = 2 := by
    norm_num [mosfet.calcDC_channel, mosfet.channel,
      mosfet.argOf, mosfet.UonOf, mosfet.Sarg, mosfet.dirOf, MAX,
      mosfet.calcDC_diodes, mosfet.calcDC_limit, mosfet.sample,
      testLib, DeviceLib.unlimited, linearJunction, sqrtQ,
      complex.real, NODE_G, NODE_D, NODE_S, NODE_B]
  have e2 : (mosfet.calcDC_channel testLib (mosfet.calcDC_diodes testLib
      (mosfet.calcDC_limit testLib (mosfet.exchangeDS (mosfet.sample 3 1 0 0))))).gm = 2 := by
    norm_num [mosfet.calcDC_channel, mosfet.channel,
      mosfet.argOf, mosfet.UonOf, mosfet.Sarg, mosfet.dirOf, MAX,
      mosfet.calcDC_diodes, mosfet.calcDC_limit, mosfet.sample, mosfet.exchangeDS,
      mosfet.swapDS, testLib, DeviceLib.unlimited, linearJunction, sqrtQ,
      complex.real, NODE_G, NODE_D, NODE_S, NODE_B]
  have s1 := (mosfet.calcDC_stamp_MatrixY (mosfet.calcDC_channel testLib
    (mosfet.calcDC_diodes testLib (mosfet.calcDC_limit testLib (mosfet.sample 3 1 0 0))))).2.1.1
  have s2 := (mosfet.calcDC_stamp_MatrixY (mosfet.calcDC_channel testLib
    (mosfet.calcDC_diodes testLib (mosfet.calcDC_limit testLib
      (mosfet.exchangeDS (mosfet.sample 3 1 0 0)))))).2.2.1.1
  rw [e1] at s1
  rw [e2] at s2
  have hne : (mosfet.calcDC testLib (mosfet.exchangeDS (mosfet.sample 3 1 0 0))).MatrixY
      (mosfet.swapDS NODE_D) (mosfet.swapDS NODE_G) ≠
      (mosfet.calcDC testLib (mosfet.sample 3 1 0 0)).MatrixY NODE_D NODE_G := by
    intro h
    have h2 : complex.ofReal (-2 : ℚ) = complex.ofReal 2 := by
      rw [← s1, ← s2]
      exact h
    have h3 := congrArg complex.r h2
    norm_num [complex.ofReal] at h3
  refine ⟨s1, s2, e1, e2, ?_, ?_, hne⟩
  · norm_num [mosfet.calcDC, mosfet.calcDC_stamp, mosfet.calcDC_channel, mosfet.dirOf,
      mosfet.calcDC_diodes, mosfet.calcDC_limit, mosfet.sample,
      testLib, DeviceLib.unlimited, complex.real, NODE_G, NODE_D, NODE_S, NODE_B]
  · norm_num [mosfet.calcDC, mosfet.calcDC_stamp, mosfet.calcDC_channel, mosfet.dirOf,
      mosfet.calcDC_diodes, mosfet.calcDC_limit, mosfet.sample, mosfet.exchangeDS,
      mosfet.swapDS, testLib, DeviceLib.unlimited, complex.real, NODE_G, NODE_D, NODE_S, NODE_B]

/-- The signed drain current of the sample device in reverse conduction
(drain 0 V, source 1 V) as a function of the gate voltage. -/
theorem sample_reverse_Ids (vg : ℝ) :
    (mosfet.calcDC (DeviceLib.unlimited Real.sqrt linearJunction) (mosfet.sample vg 0 1 0)).Ids =
      -(mosfet.channel 2 0 (1 / 2) (vg - 1) 1).Ids := by
  simp [mosfet.calcDC, mosfet.calcDC_stamp, mosfet.calcDC_channel,
    mosfet.argOf, mosfet.UonOf, mosfet.Sarg, mosfet.dirOf,
    mosfet.calcDC_diodes, mosfet.calcDC_limit, mosfet.sample, DeviceLib.unlimited,
    complex.real, NODE_G, NODE_D, NODE_S, NODE_B]
  norm_num

/-- The signed drain current of the sample device in forward conduction
(drain 1 V, source 0 V) as a function of the gate voltage. -/
theorem sample_forward_Ids (vg : ℝ) :
    (mosfet.calcDC (DeviceLib.unlimited Real.sqrt linearJunction) (mosfet.sample vg 1 0 0)).Ids =
      (mosfet.channel 2 0 (1 / 2) (vg - 1) 1).Ids := by
  simp [mosfet.calcDC, mosfet.calcDC_stamp, mosfet.calcDC_channel,
    mosfet.argOf, mosfet.UonOf, mosfet.Sarg, mosfet.dirOf,
    mosfet.calcDC_diodes, mosfet.calcDC_limit, mosfet.sample, DeviceLib.unlimited,
    complex.real, NODE_G, NODE_D, NODE_S, NODE_B]


/-- In forward conduction the entry `Y (D, G) = gm` written by `calcDC` is
the derivative of the signed drain current `Ids` with respect to the gate
voltage; in reverse conduction that derivative is `-gm`, while the entry
written is still `+gm`. -/
theorem sample_gate_derivative :
    HasDerivAt (fun vg : ℝ => (mosfet.calcDC (DeviceLib.unlimited Real.sqrt linearJunction)
      (mosfet.sample vg 1 0 0)).Ids) 2 3 ∧
    (mosfet.calcDC (DeviceLib.unlimited Real.sqrt linearJunction)
      (mosfet.sample 3 1 0 0)).MatrixY NODE_D NODE_G = complex.ofReal 2 ∧
    HasDerivAt (fun vg : ℝ => (mosfet.calcDC (DeviceLib.unlimited Real.sqrt linearJunction)
      (mosfet.sample vg 0 1 0)).Ids) (-2) 3 ∧
    (mosfet.calcDC (DeviceLib.unlimited Real.sqrt linearJunction)
      (mosfet.sample 3 0 1 0)).MatrixY NODE_D NODE_G = complex.ofReal 2 := by
  have hc : HasDerivAt (fun vg : ℝ => (mosfet.channel 2 0 (1 / 2) (vg - 1) 1).Ids) 2 3 := by
    have h1 := channel_hasDerivAt_Utst 2 0 (1 / 2) (3 - 1) 1 (by norm_num)
    have h2 : HasDerivAt (fun vg : ℝ => vg - 1) 1 3 := (hasDerivAt_id 3).sub_const 1
    have h3 := HasDerivAt.comp 3 h1 h2
    have e : (mosfet.channel (2 : ℝ) 0 (1 / 2) (3 - 1) 1).gm * 1 = 2 := by
      norm_num [mosfet.channel]
    rw [e] at h3
    exact h3
  have g1 : (mosfet.calcDC_channel (DeviceLib.unlimited Real.sqrt linearJunction)
      (mosfet.calcDC_diodes (DeviceLib.unlimited Real.sqrt linearJunction)
      (mosfet.calcDC_limit (DeviceLib.unlimited Real.sqrt linearJunction)
        (mosfet.sample 3 1 0 0)))).gm = 2 := by
    norm_num [mosfet.calcDC_channel, mosfet.channel,
      mosfet.argOf, mosfet.UonOf, mosfet.Sarg, mosfet.dirOf, MAX,
      mosfet.calcDC_diodes, mosfet.calcDC_limit, mosfet.sample,
      DeviceLib.unlimited, linearJunction, complex.real, NODE_G, NODE_D, NODE_S, NODE_B]
  have g2 : (mosfet.calcDC_channel (DeviceLib.unlimited Real.sqrt linearJunction)
      (mosfet.calcDC_diodes (DeviceLib.unlimited Real.sqrt linearJunction)
      (mosfet.calcDC_limit (DeviceLib.unlimited Real.sqrt linearJunction)
        (mosfet.sample 3 0 1 0)))).gm = 2 := by
    norm_num [mosfet.calcDC_channel, mosfet.channel,
      mosfet.argOf, mosfet.UonOf, mosfet.Sarg, mosfet.dirOf, MAX,
      mosfet.calcDC_diodes, mosfet.calcDC_limit, mosfet.sample,
      DeviceLib.unlimited, linearJunction, complex.real, NODE_G, NODE_D, NODE_S, NODE_B]
  have s1 := (mosfet.calcDC_stamp_MatrixY (mosfet.calcDC_channel
    (DeviceLib.unlimited Real.sqrt linearJunction)
    (mosfet.calcDC_diodes (DeviceLib.unlimited Real.sqrt linearJunction)
    (mosfet.calcDC_limit (DeviceLib.unlimited Real.sqrt linearJunction)
      (mosfet.sample 3 1 0 0))))).2.1.1
  have s2 := (mosfet.calcDC_stamp_MatrixY (mosfet.calcDC_channel
    (DeviceLib.unlimited Real.sqrt linearJunction)
    (mosfet.calcDC_diodes (DeviceLib.unlimited Real.sqrt linearJunction)
    (mosfet.calcDC_limit (DeviceLib.unlimited Real.sqrt linearJunction)
      (mosfet.sample 3 0 1 0))))).2.1.1
  rw [g1] at s1
  rw [g2] at s2
  refine ⟨?_, s1, ?_, s2⟩
  · exact hc.congr_of_eventuallyEq (Filter.Eventually.of_forall sample_forward_Ids)
  · exact hc.neg.congr_of_eventuallyEq (Filter.Eventually.of_forall sample_reverse_Ids)


/-! ## The threshold helper `Sarg` -/

section Threshold

open Set Filter Topology

theorem MAX_zero_nonneg {K : Type} [LinearOrderedField K] (x : K) : 0 ≤ MAX x 0 := by
  unfold MAX
  split_ifs with h
  · exact le_of_lt h
  · exact le_refl 0

/-- Derivative of the branch `sqrt (Phi - Upn)` where `Phi - Upn > 0`. -/
theorem sqrt_branch_deriv (Phi U : ℝ) (h : 0 < Phi - U) :
    HasDerivAt (fun u : ℝ => Real.sqrt (Phi - u)) (-(1 / (2 * Real.sqrt (Phi - U)))) U := by
  have h1 : HasDerivAt (fun u : ℝ => Phi - u) (-1) U := by
    simpa using (hasDerivAt_id U).const_sub Phi
  have h2 := h1.sqrt (ne_of_gt h)
  refine h2.congr_deriv ?_
  ring

/-- Derivative of the Taylor branch `sqrt Phi - Upn / sqrt Phi / 2`. -/
theorem taylor_branch_deriv (Phi U : ℝ) :
    HasDerivAt (fun u : ℝ => Real.sqrt Phi - u / Real.sqrt Phi / 2)
      (-(1 / (2 * Real.sqrt Phi))) U := by
  have h1 := (((hasDerivAt_id U).div_const (Real.sqrt Phi)).div_const 2).const_sub (Real.sqrt Phi)
  refine h1.congr_deriv ?_
  simp only [one_div, mul_inv_rev]
  ring

/-- For `Phi > 0` the helper `Sarg` is differentiable at `Upn = 0`, with
derivative `-1 / (2 * sqrt Phi)`. -/
theorem Sarg_hasDerivAt_zero (Phi : ℝ) (hPhi : 0 < Phi) :
    HasDerivAt (mosfet.Sarg Real.sqrt Phi) (-(1 / (2 * Real.sqrt Phi))) 0 := by
  have hs : 0 < Real.sqrt Phi := Real.sqrt_pos.mpr hPhi
  have h1 := sqrt_branch_deriv Phi 0 (by simpa using hPhi)
  rw [sub_zero] at h1
  have h2 := taylor_branch_deriv Phi 0
  refine hasDerivAt_glue h1 h2 ?_ ?_
  · filter_upwards with u hu
    simp [mosfet.Sarg, hu]
  · have hpos : ∀ᶠ u in 𝓝 (0 : ℝ), 0 < Real.sqrt Phi - u / Real.sqrt Phi / 2 := by
      have hc := h2.continuousAt
      have h0 : (0 : ℝ) < Real.sqrt Phi - 0 / Real.sqrt Phi / 2 := by simpa using hs
      exact hc.eventually (lt_mem_nhds h0)
    filter_upwards [hpos] with u hu hu0
    rcases eq_or_lt_of_le hu0 with h | h
    · subst h
      simp [mosfet.Sarg]
    · simp [mosfet.Sarg, not_le.mpr h, MAX, hu]

end Threshold

/-- C5: for `Phi > 0` the threshold helper `Sarg` of `mosfet::calcDC`, as a
function of the bulk junction voltage `Upn`, is continuous at `Upn = 0` with
value `sqrt Phi`, has the left and the right derivative
`-1 / (2 * sqrt Phi)` there (so it is differentiable there), and is
non-negative for every `Upn`. -/
theorem C5_Sarg_continuous_smooth_nonneg (Phi : ℝ) (hPhi : 0 < Phi) :
    ContinuousAt (mosfet.Sarg Real.sqrt Phi) 0 ∧
    mosfet.Sarg Real.sqrt Phi 0 = Real.sqrt Phi ∧
    HasDerivWithinAt (mosfet.Sarg Real.sqrt Phi) (-(1 / (2 * Real.sqrt Phi))) (Set.Iic 0) 0 ∧
    HasDerivWithinAt (mosfet.Sarg Real.sqrt Phi) (-(1 / (2 * Real.sqrt Phi))) (Set.Ici 0) 0 ∧
    HasDerivAt (mosfet.Sarg Real.sqrt Phi) (-(1 / (2 * Real.sqrt Phi))) 0 ∧
    ∀ Upn : ℝ, 0 ≤ mosfet.Sarg Real.sqrt Phi Upn := by
  have h := Sarg_hasDerivAt_zero Phi hPhi
  refine ⟨h.continuousAt, by simp [mosfet.Sarg], h.hasDerivWithinAt, h.hasDerivWithinAt, h, ?_⟩
  intro Upn
  unfold mosfet.Sarg
  simp only
  split_ifs
  · exact Real.sqrt_nonneg _
  · exact MAX_zero_nonneg _

/-- Witness of C5 at `Phi = 1`. -/
theorem C5_Sarg_continuous_smooth_nonneg_witness :
    (0 : ℝ) < 1 ∧ mosfet.Sarg Real.sqrt 1 0 = Real.sqrt 1 :=
  ⟨one_pos, (C5_Sarg_continuous_smooth_nonneg 1 one_pos).2.1⟩

/-! ## The body-effect transconductance -/

section BodyEffect

open Set Filter Topology

/-- For `Phi > 0` and `Upn <= 0` the helper `Sarg` has the derivative of
the square-root branch. -/
theorem Sarg_hasDerivAt_nonpos (Phi U : ℝ) (hPhi : 0 < Phi) (hU : U ≤ 0) :
    HasDerivAt (mosfet.Sarg Real.sqrt Phi) (-(1 / (2 * Real.sqrt (Phi - U)))) U := by
  rcases eq_or_lt_of_le hU with h | h
  · subst h
    simpa using Sarg_hasDerivAt_zero Phi hPhi
  · refine (sqrt_branch_deriv Phi U (by linarith)).congr_of_eventuallyEq ?_
    filter_upwards [gt_mem_nhds h] with u hu
    simp [mosfet.Sarg, le_of_lt hu]

/-- For `Upn > 0`, as long as the Taylor value is positive, the helper
`Sarg` has the constant derivative `-1 / (2 * sqrt Phi)`. -/
theorem Sarg_hasDerivAt_taylor (Phi U : ℝ) (hU : 0 < U)
    (hpos : 0 < Real.sqrt Phi - U / Real.sqrt Phi / 2) :
    HasDerivAt (mosfet.Sarg Real.sqrt Phi) (-(1 / (2 * Real.sqrt Phi))) U := by
  have h2 := taylor_branch_deriv Phi U
  refine h2.congr_of_eventuallyEq ?_
  filter_upwards [lt_mem_nhds hU, h2.continuousAt.eventually (lt_mem_nhds hpos)] with u hu hp
  simp [mosfet.Sarg, not_le.mpr hu, MAX, hp]

/-- The threshold voltage inherits the derivative of `Sarg`, times `Ga`. -/
theorem UonOf_hasDerivAt (Vto pol Ga Phi U d : ℝ)
    (h : HasDerivAt (mosfet.Sarg Real.sqrt Phi) d U) :
    HasDerivAt (fun u => mosfet.UonOf Real.sqrt Vto pol Ga Phi u) (Ga * d) U := by
  have h1 := ((h.sub_const (Real.sqrt Phi)).const_mul Ga).const_add (Vto * pol)
  exact h1

/-- For `Phi > 0` and `Upn <= 0` the factor `arg` of `calcDC` is minus the
derivative of the threshold voltage. -/
theorem UonOf_hasDerivAt_nonpos (Vto pol Ga Phi U : ℝ) (hPhi : 0 < Phi) (hU : U ≤ 0) :
    HasDerivAt (fun u => mosfet.UonOf Real.sqrt Vto pol Ga Phi u)
      (-(mosfet.argOf Ga (mosfet.Sarg Real.sqrt Phi U))) U := by
  have hs : 0 < Real.sqrt (Phi - U) := Real.sqrt_pos.mpr (by linarith)
  refine (UonOf_hasDerivAt Vto pol Ga Phi U _ (Sarg_hasDerivAt_nonpos Phi U hPhi hU)).congr_deriv ?_
  simp only [mosfet.argOf, mosfet.Sarg, if_pos hU, if_pos (ne_of_gt hs)]
  ring

end BodyEffect

/-- In every region `gmb` is `gm` times the factor `arg`. -/
theorem channel_gmb_eq {K : Type} [LinearOrderedField K] (beta l arg U V : K) :
    (mosfet.channel beta l arg U V).gmb = (mosfet.channel beta l arg U V).gm * arg := by
  unfold mosfet.channel
  split_ifs <;> simp

/-- C6 (as amended): outside cutoff `mosfet::calcDC` sets
`gmb = gm * arg` with `arg = Ga / Sarg / 2` (`0` when `Sarg = 0`), for every
`Upn`.  For `Phi > 0` and `Upn <= 0` this factor is minus the derivative of
`Uon = Vto * pol + Ga * (Sarg (Upn) - sqrt Phi)` with respect to `Upn`, so
that `gmb` is the derivative, with respect to the controlling bulk voltage,
of the channel current computed by the region classification. -/
theorem C6_body_effect_transconductance (lib : DeviceLib ℝ) (hs : lib.sqrt = Real.sqrt)
    (m : mosfet ℝ) (hPhi : 0 < m.Phi) (hU : 0 < mosfet.Utst lib (mosfet.calcDC lib m)) :
    let r := mosfet.calcDC lib m
    let arg := mosfet.argOf m.Ga (mosfet.Sarg Real.sqrt m.Phi (mosfet.Upn r))
    r.gmb = r.gm * arg ∧
    (mosfet.Upn r ≤ 0 →
      HasDerivAt (fun u => mosfet.UonOf Real.sqrt m.Vto m.pol m.Ga m.Phi u) (-arg)
        (mosfet.Upn r) ∧
      r.gmb = r.gm * (-(deriv (fun u => mosfet.UonOf Real.sqrt m.Vto m.pol m.Ga m.Phi u)
        (mosfet.Upn r))) ∧
      HasDerivAt (fun u => (mosfet.channel m.beta m.Lambda arg
          ((if mosfet.dirOf r.Uds > 0 then r.Ugs else r.Ugd) -
            mosfet.UonOf Real.sqrt m.Vto m.pol m.Ga m.Phi u) (r.Uds * r.MOSdir)).Ids)
        r.gmb (mosfet.Upn r)) := by
  intro r arg
  obtain ⟨-, h2, -, h4, -⟩ := mosfet.calcDC_channel_eq lib m
  rw [hs] at h2 h4
  have hgm : r.gm = (mosfet.channel m.beta m.Lambda arg (mosfet.Utst lib r)
    (r.Uds * r.MOSdir)).gm := h2
  have hgmb : r.gmb = r.gm * arg := by
    have h4b : r.gmb = (mosfet.channel m.beta m.Lambda arg (mosfet.Utst lib r)
      (r.Uds * r.MOSdir)).gmb := h4
    rw [h4b, hgm]
    exact channel_gmb_eq _ _ _ _ _
  refine ⟨hgmb, fun hUpn => ?_⟩
  have hd := UonOf_hasDerivAt_nonpos m.Vto m.pol m.Ga m.Phi (mosfet.Upn r) hPhi hUpn
  refine ⟨hd, ?_, ?_⟩
  · rw [hd.deriv, neg_neg]
    exact hgmb
  · have hg : HasDerivAt (fun u => (if mosfet.dirOf r.Uds > 0 then r.Ugs else r.Ugd) -
        mosfet.UonOf Real.sqrt m.Vto m.pol m.Ga m.Phi u) arg (mosfet.Upn r) := by
      simpa using hd.const_sub (if mosfet.dirOf r.Uds > 0 then r.Ugs else r.Ugd)
    have hpt : (if mosfet.dirOf r.Uds > 0 then r.Ugs else r.Ugd) -
        mosfet.UonOf Real.sqrt m.Vto m.pol m.Ga m.Phi (mosfet.Upn r) = mosfet.Utst lib r := by
      simp only [r, mosfet.Utst, hs, mosfet.calcDC_Vto, mosfet.calcDC_pol, mosfet.calcDC_Ga,
        mosfet.calcDC_Phi]
    have hc := channel_hasDerivAt_Utst m.beta m.Lambda arg (mosfet.Utst lib r)
      (r.Uds * r.MOSdir) hU
    rw [← hpt] at hc
    have hcomp := HasDerivAt.comp (mosfet.Upn r) hc hg
    rw [hpt, ← hgm, ← hgmb] at hcomp
    exact hcomp

/-- Witness of C6: the sample device with the gate at 3 V and the drain at
1 V has `Phi = 1`, `Utst = 2` and `Upn = 0`. -/
theorem C6_body_effect_transconductance_witness :
    (DeviceLib.unlimited Real.sqrt linearJunction).sqrt = Real.sqrt ∧
    (0 : ℝ) < (mosfet.sample 3 1 0 0 : mosfet ℝ).Phi ∧
    0 < mosfet.Utst (DeviceLib.unlimited Real.sqrt linearJunction)
      (mosfet.calcDC (DeviceLib.unlimited Real.sqrt linearJunction) (mosfet.sample 3 1 0 0)) ∧
    (mosfet.calcDC (DeviceLib.unlimited Real.sqrt linearJunction) (mosfet.sample 3 1 0 0)).gmb =
      (mosfet.calcDC (DeviceLib.unlimited Real.sqrt linearJunction) (mosfet.sample 3 1 0 0)).gm *
        mosfet.argOf (mosfet.sample 3 1 0 0 : mosfet ℝ).Ga
          (mosfet.Sarg Real.sqrt (mosfet.sample 3 1 0 0 : mosfet ℝ).Phi
            (mosfet.Upn (mosfet.calcDC (DeviceLib.unlimited Real.sqrt linearJunction)
              (mosfet.sample 3 1 0 0)))) :=
  have hPhi : (0 : ℝ) < (mosfet.sample 3 1 0 0 : mosfet ℝ).Phi := by
    norm_num [mosfet.sample]
  have h : 0 < mosfet.Utst (DeviceLib.unlimited Real.sqrt linearJunction)
      (mosfet.calcDC (DeviceLib.unlimited Real.sqrt linearJunction) (mosfet.sample 3 1 0 0)) := by
    rw [mosfet.sample_Utst_real]
    norm_num
  ⟨rfl, hPhi, h, (C6_body_effect_transconductance
    (DeviceLib.unlimited Real.sqrt linearJunction) rfl (mosfet.sample 3 1 0 0) hPhi h).1⟩

/-- C6 (counterexample to the claim as stated): the sample device
(`Vto = pol = Ga = Phi = 1`, `beta = 2`) with gate 3 V, drain 1 V, source
0 V and bulk 1 V is outside cutoff with `Upn = 1 > 0`; there `calcDC` sets
`gmb = gm = 2`, while the derivative of `Uon` with respect to `Upn` is
`-1/2`, so that `gm * (-dUon/dUpn) = 1`. -/
theorem C6_counterexample :
    0 < mosfet.Utst (DeviceLib.unlimited Real.sqrt linearJunction)
      (mosfet.calcDC (DeviceLib.unlimited Real.sqrt linearJunction) (mosfet.sample 3 1 0 1)) ∧
    mosfet.Upn (mosfet.calcDC (DeviceLib.unlimited Real.sqrt linearJunction)
      (mosfet.sample 3 1 0 1)) = 1 ∧
    (mosfet.calcDC (DeviceLib.unlimited Real.sqrt linearJunction) (mosfet.sample 3 1 0 1)).gm = 2 ∧
    (mosfet.calcDC (DeviceLib.unlimited Real.sqrt linearJunction) (mosfet.sample 3 1 0 1)).gmb = 2 ∧
    deriv (fun u => mosfet.UonOf Real.sqrt 1 1 1 1 u) 1 = -(1 / 2) ∧
    (mosfet.calcDC (DeviceLib.unlimited Real.sqrt linearJunction) (mosfet.sample 3 1 0 1)).gmb ≠
      (mosfet.calcDC (DeviceLib.unlimited Real.sqrt linearJunction) (mosfet.sample 3 1 0 1)).gm *
        (-(deriv (fun u => mosfet.UonOf Real.sqrt
            (mosfet.sample 3 1 0 1 : mosfet ℝ).Vto (mosfet.sample 3 1 0 1 : mosfet ℝ).pol
            (mosfet.sample 3 1 0 1 : mosfet ℝ).Ga (mosfet.sample 3 1 0 1 : mosfet ℝ).Phi u)
          (mosfet.Upn (mosfet.calcDC (DeviceLib.unlimited Real.sqrt linearJunction)
            (mosfet.sample 3 1 0 1))))) := by
  have hUtst : mosfet.Utst (DeviceLib.unlimited Real.sqrt linearJunction)
      (mosfet.calcDC (DeviceLib.unlimited Real.sqrt linearJunction) (mosfet.sample 3 1 0 1))
      = 5 / 2 := by
    rw [mosfet.Utst_calcDC]
    norm_num [mosfet.Utst, mosfet.Upn, mosfet.UonOf, mosfet.Sarg, mosfet.dirOf, MAX,
      mosfet.calcDC_diodes, mosfet.calcDC_limit, mosfet.sample, DeviceLib.unlimited,
      complex.real, NODE_G, NODE_D, NODE_S, NODE_B]
  have hUpn : mosfet.Upn (mosfet.calcDC (DeviceLib.unlimited Real.sqrt linearJunction)
      (mosfet.sample 3 1 0 1)) = 1 := by
    norm_num [mosfet.Upn, mosfet.dirOf, mosfet.calcDC, mosfet.calcDC_stamp,
      mosfet.calcDC_channel, mosfet.calcDC_diodes, mosfet.calcDC_limit, mosfet.sample,
      DeviceLib.unlimited, complex.real, NODE_G, NODE_D, NODE_S, NODE_B]
  have hgm : (mosfet.calcDC (DeviceLib.unlimited Real.sqrt linearJunction)
      (mosfet.sample 3 1 0 1)).gm = 2 := by
    norm_num [mosfet.calcDC, mosfet.calcDC_stamp, mosfet.calcDC_channel, mosfet.channel,
      mosfet.argOf, mosfet.UonOf, mosfet.Sarg, mosfet.dirOf, MAX,
      mosfet.calcDC_diodes, mosfet.calcDC_limit, mosfet.sample, DeviceLib.unlimited,
      complex.real, NODE_G, NODE_D, NODE_S, NODE_B]
  have hgmb : (mosfet.calcDC (DeviceLib.unlimited Real.sqrt linearJunction)
      (mosfet.sample 3 1 0 1)).gmb = 2 := by
    norm_num [mosfet.calcDC, mosfet.calcDC_stamp, mosfet.calcDC_channel, mosfet.channel,
      mosfet.argOf, mosfet.UonOf, mosfet.Sarg, mosfet.dirOf, MAX,
      mosfet.calcDC_diodes, mosfet.calcDC_limit, mosfet.sample, DeviceLib.unlimited,
      complex.real, NODE_G, NODE_D, NODE_S, NODE_B]
  have hS : HasDerivAt (mosfet.Sarg Real.sqrt 1) (-(1 / (2 * Real.sqrt 1))) 1 :=
    Sarg_hasDerivAt_taylor 1 1 one_pos (by norm_num)
  have hd : deriv (fun u => mosfet.UonOf Real.sqrt 1 1 1 1 u) 1 = -(1 / 2) := by
    rw [(UonOf_hasDerivAt 1 1 1 1 1 _ hS).deriv]
    norm_num
  refine ⟨by rw [hUtst]; norm_num, hUpn, hgm, hgmb, hd, ?_⟩
  rw [hUpn, hgm, hgmb]
  have e : (fun u => mosfet.UonOf Real.sqrt
      (mosfet.sample 3 1 0 1 : mosfet ℝ).Vto (mosfet.sample 3 1 0 1 : mosfet ℝ).pol
      (mosfet.sample 3 1 0 1 : mosfet ℝ).Ga (mosfet.sample 3 1 0 1 : mosfet ℝ).Phi u) =
      (fun u => mosfet.UonOf Real.sqrt 1 1 1 1 u) := rfl
  rw [e, hd]
  norm_num

/-! ## The admittance matrix for AC and SP analysis -/

/-- At frequency zero `calcMatrixY`, fed with the operating points of a
state, rebuilds the stamp that `calcDC_stamp` writes for that state. -/
theorem mosfet.calcMatrixY_zero_stamp {K : Type} [LinearOrderedField K] (pi : K)
    (X : mosfet K) (Cbd Cbs Cgs Cgd Cgb : K) :
    mosfet.calcMatrixY pi
      (mosfet.saveOperatingPointsDC (mosfet.calcDC_stamp X) Cbd Cbs Cgs Cgd Cgb)
      (mosfet.calcDC_stamp X) 0 = (mosfet.calcDC_stamp X).MatrixY := by
  funext a b
  fin_cases a <;> fin_cases b <;>
    simp +decide [mosfet.calcMatrixY, mosfet.calcDC_stamp, mosfet.saveOperatingPointsDC,
      circuit.setY, circuit.setI, circuit.setEntry, NODE_G, NODE_D, NODE_S, NODE_B,
      complex.ext_iff] <;>
    ring

/-- C7: with the operating points `gm`, `gmb`, `gds`, `gbd`, `gbs` taken
from a DC solve, and the `SourceControl` / `DrainControl` fields that solve
left, `mosfet::calcMatrixY` at frequency 0 equals entry by entry the
admittance stamp written by `mosfet::calcDC`, for every value of the cached
capacitances. -/
theorem C7_calcMatrixY_zero_frequency {K : Type} [LinearOrderedField K] (pi : K)
    (lib : DeviceLib K) (m : mosfet K) (Cbd Cbs Cgs Cgd Cgb : K) (a b : Fin 4) :
    mosfet.calcMatrixY pi
      (mosfet.saveOperatingPointsDC (mosfet.calcDC lib m) Cbd Cbs Cgs Cgd Cgb)
      (mosfet.calcDC lib m) 0 a b = (mosfet.calcDC lib m).MatrixY a b := by
  unfold mosfet.calcDC
  rw [mosfet.calcMatrixY_zero_stamp]

/-! ## The capacitor -/

section Capacitor

variable {K : Type} [LinearOrderedField K]

theorem one_add_sq_pos (w : K) : 0 < 1 + w * w := by nlinarith [mul_self_nonneg w]

theorem inv_one_add_j (w : K) :
    (1 : complex K) / (1 + complex.rect 0 w) = ⟨1 / (1 + w * w), -w / (1 + w * w)⟩ := by
  rw [complex.ext_iff]
  constructor <;> simp [complex.norm]

theorem j_div_one_add_j (w : K) :
    (complex.rect 0 w) / (1 + complex.rect 0 w) = ⟨w * w / (1 + w * w), w / (1 + w * w)⟩ := by
  rw [complex.ext_iff]
  constructor <;> simp [complex.norm]

/-- The local `y` of `calcSP` is purely imaginary. -/
theorem calcSP_y (pi z0 C f : K) :
    complex.ofReal 2 * complex.rect 0 (2 * pi * f * (C * z0)) =
      complex.rect 0 (2 * (2 * pi * f * C * z0)) := by
  rw [complex.ext_iff]
  exact ⟨by simp, by simp; ring⟩

/-- The four scattering entries written by `calcSP`, in terms of its local `y`. -/
theorem calcSP_entries (pi z0 : K) (x : capacitor K) (f : K) :
    let y := complex.ofReal 2 * complex.rect 0 (2 * pi * f * (x.C * z0))
    (capacitor.calcSP pi z0 x f).MatrixS NODE_1 NODE_1 = 1 / (1 + y) ∧
    (capacitor.calcSP pi z0 x f).MatrixS NODE_2 NODE_2 = 1 / (1 + y) ∧
    (capacitor.calcSP pi z0 x f).MatrixS NODE_1 NODE_2 = y / (1 + y) ∧
    (capacitor.calcSP pi z0 x f).MatrixS NODE_2 NODE_1 = y / (1 + y) := by
  simp +decide [capacitor.calcSP, circuit.setS, circuit.setEntry, NODE_1, NODE_2]

/-- The four admittance entries written by `calcAC`, in terms of its local `y`. -/
theorem calcAC_entries (pi : K) (x : capacitor K) (f : K) :
    let y := complex.rect 0 (2 * pi * f * x.C)
    (capacitor.calcAC pi x f).MatrixY NODE_1 NODE_1 = y ∧
    (capacitor.calcAC pi x f).MatrixY NODE_2 NODE_2 = y ∧
    (capacitor.calcAC pi x f).MatrixY NODE_1 NODE_2 = -y ∧
    (capacitor.calcAC pi x f).MatrixY NODE_2 NODE_1 = -y := by
  simp +decide [capacitor.calcAC, circuit.setY, circuit.setEntry, NODE_1, NODE_2]

/-- The determinant of `I + z0 * Y` for the admittance matrix of a
susceptance `v` between the two nodes. -/
theorem capB_det (z0 v : K) (Y : Fin 2 → Fin 2 → complex K)
    (h11 : Y 0 0 = complex.rect 0 v) (h22 : Y 1 1 = complex.rect 0 v)
    (h12 : Y 0 1 = -complex.rect 0 v) (h21 : Y 1 0 = -complex.rect 0 v) :
    det2 (fun a b => eye2 a b + complex.ofReal z0 * Y a b) = ⟨1, 2 * (z0 * v)⟩ := by
  rw [complex.ext_iff]
  simp [det2, eye2, h11, h22, h12, h21]
  ring

/-- The Y-to-S conversion of the admittance matrix of a susceptance `v`
between the two nodes. -/
theorem cap_ytos (z0 v : K) (Y : Fin 2 → Fin 2 → complex K)
    (h11 : Y 0 0 = complex.rect 0 v) (h22 : Y 1 1 = complex.rect 0 v)
    (h12 : Y 0 1 = -complex.rect 0 v) (h21 : Y 1 0 = -complex.rect 0 v) (a b : Fin 2) :
    ytosSpec z0 Y a b =
      if a = b then 1 / (1 + complex.rect 0 (2 * (z0 * v)))
      else complex.rect 0 (2 * (z0 * v)) / (1 + complex.rect 0 (2 * (z0 * v))) := by
  have hd := capB_det z0 v Y h11 h22 h12 h21
  have hp : (1 : K) + 2 * (z0 * v) * (2 * (z0 * v)) ≠ 0 := ne_of_gt (one_add_sq_pos _)
  unfold ytosSpec mul2 inv2
  rw [hd]
  rw [inv_one_add_j, j_div_one_add_j]
  fin_cases a <;> fin_cases b <;>
    simp [eye2, h11, h22, h12, h21, complex.ext_iff]
  all_goals (constructor <;> first | (field_simp; ring1) | (field_simp; left; ring1))

set_option maxHeartbeats 1000000 in
/-- The adjugate over the determinant is a two-sided inverse of `I + z0 * Y`. -/
theorem cap_inverse (z0 v : K) (Y : Fin 2 → Fin 2 → complex K)
    (h11 : Y 0 0 = complex.rect 0 v) (h22 : Y 1 1 = complex.rect 0 v)
    (h12 : Y 0 1 = -complex.rect 0 v) (h21 : Y 1 0 = -complex.rect 0 v) (a b : Fin 2) :
    mul2 (fun a b => eye2 a b + complex.ofReal z0 * Y a b)
      (inv2 (fun a b => eye2 a b + complex.ofReal z0 * Y a b)) a b = eye2 a b ∧
    mul2 (inv2 (fun a b => eye2 a b + complex.ofReal z0 * Y a b))
      (fun a b => eye2 a b + complex.ofReal z0 * Y a b) a b = eye2 a b := by
  have hd := capB_det z0 v Y h11 h22 h12 h21
  have hp : (1 : K) + 2 * (z0 * v) * (2 * (z0 * v)) ≠ 0 := ne_of_gt (one_add_sq_pos _)
  unfold mul2 inv2
  rw [hd]
  fin_cases a <;> fin_cases b <;>
    simp [eye2, h11, h22, h12, h21, complex.ext_iff]
  all_goals (refine ⟨⟨?_, ?_⟩, ?_, ?_⟩ <;> (field_simp; ring1))

end Capacitor

/-- C8: for every capacitance `C`, reference impedance `z0` and frequency
`f`, `capacitor::calcSP` sets `S11 = S22 = 1 / (1 + y)` and
`S12 = S21 = y / (1 + y)` where `y = 2 * j * 2 * pi * f * C * z0`. -/
theorem C8_capacitor_calcSP {K : Type} [LinearOrderedField K] (pi z0 : K)
    (x : capacitor K) (f : K) :
    (capacitor.calcSP pi z0 x f).MatrixS NODE_1 NODE_1 =
      1 / (1 + complex.ofReal 2 * complex.rect 0 1 * complex.ofReal (2 * pi * f * x.C * z0)) ∧
    (capacitor.calcSP pi z0 x f).MatrixS NODE_2 NODE_2 =
      1 / (1 + complex.ofReal 2 * complex.rect 0 1 * complex.ofReal (2 * pi * f * x.C * z0)) ∧
    (capacitor.calcSP pi z0 x f).MatrixS NODE_1 NODE_2 =
      complex.ofReal 2 * complex.rect 0 1 * complex.ofReal (2 * pi * f * x.C * z0) /
        (1 + complex.ofReal 2 * complex.rect 0 1 * complex.ofReal (2 * pi * f * x.C * z0)) ∧
    (capacitor.calcSP pi z0 x f).MatrixS NODE_2 NODE_1 =
      complex.ofReal 2 * complex.rect 0 1 * complex.ofReal (2 * pi * f * x.C * z0) /
        (1 + complex.ofReal 2 * complex.rect 0 1 * complex.ofReal (2 * pi * f * x.C * z0)) := by
  have hy : complex.ofReal 2 * complex.rect 0 1 * complex.ofReal (2 * pi * f * x.C * z0) =
      complex.ofReal 2 * complex.rect 0 (2 * pi * f * (x.C * z0)) := by
    rw [complex.ext_iff]
    exact ⟨by simp, by simp; ring⟩
  rw [hy]
  exact calcSP_entries pi z0 x f

/-- Witness of C8: for `C = 1 pF`, `z0 = 50 Ohm` and `f = 1 GHz` the entry
`S11` is `1 / (1 + j * pi / 5)` and `S21` is `(j * pi / 5) / (1 + j * pi / 5)`. -/
theorem C8_capacitor_calcSP_witness :
    (capacitor.calcSP Real.pi 50 (capacitor.sample (1 / 10 ^ 12)) (10 ^ 9)).MatrixS NODE_1 NODE_1 =
      1 / (1 + complex.rect 0 (Real.pi / 5)) ∧
    (capacitor.calcSP Real.pi 50 (capacitor.sample (1 / 10 ^ 12)) (10 ^ 9)).MatrixS NODE_2 NODE_1 =
      complex.rect 0 (Real.pi / 5) / (1 + complex.rect 0 (Real.pi / 5)) := by
  have h := C8_capacitor_calcSP Real.pi 50 (capacitor.sample (1 / 10 ^ 12)) (10 ^ 9)
  have hy : complex.ofReal 2 * complex.rect 0 1 * complex.ofReal
      (2 * Real.pi * 10 ^ 9 * (capacitor.sample (1 / 10 ^ 12) : capacitor ℝ).C * 50) =
      complex.rect 0 (Real.pi / 5) := by
    rw [complex.ext_iff]
    refine ⟨by simp, ?_⟩
    simp only [capacitor.sample, complex.mul_i, complex.mul_r, complex.ofReal_r, complex.ofReal_i,
      complex.rect_r, complex.rect_i]
    ring
  rw [hy] at h
  exact ⟨h.1, h.2.2.2⟩

/-- C9: for every real `C`, `z0` and `f`, the scattering entries written by
`capacitor::calcSP` satisfy the passivity bound
`|s11|^2 + |s21 * conj (s12)| <= 1`; the bound is attained. -/
theorem C9_capacitor_passive (pi z0 f : ℝ) (x : capacitor ℝ) :
    (complex.abs Real.sqrt ((capacitor.calcSP pi z0 x f).MatrixS NODE_1 NODE_1)) ^ 2 +
      complex.abs Real.sqrt ((capacitor.calcSP pi z0 x f).MatrixS NODE_2 NODE_1 *
        complex.conj ((capacitor.calcSP pi z0 x f).MatrixS NODE_1 NODE_2)) ≤ 1 ∧
    (complex.abs Real.sqrt ((capacitor.calcSP pi z0 x f).MatrixS NODE_1 NODE_1)) ^ 2 +
      complex.abs Real.sqrt ((capacitor.calcSP pi z0 x f).MatrixS NODE_2 NODE_1 *
        complex.conj ((capacitor.calcSP pi z0 x f).MatrixS NODE_1 NODE_2)) = 1 := by
  obtain ⟨h11, -, h12, h21⟩ := calcSP_entries pi z0 x f
  rw [h11, h12, h21, calcSP_y, inv_one_add_j, j_div_one_add_j]
  generalize 2 * (2 * pi * f * x.C * z0) = w
  have hd : 0 < 1 + w * w := one_add_sq_pos w
  have e1 : complex.norm (⟨1 / (1 + w * w), -w / (1 + w * w)⟩ : complex ℝ) = 1 / (1 + w * w) := by
    simp only [complex.norm]
    field_simp
  have e2 : complex.norm ((⟨w * w / (1 + w * w), w / (1 + w * w)⟩ : complex ℝ) *
      complex.conj ⟨w * w / (1 + w * w), w / (1 + w * w)⟩) =
      (w * w / (1 + w * w)) * (w * w / (1 + w * w)) := by
    simp only [complex.norm, complex.mul_r, complex.mul_i, complex.conj_r, complex.conj_i]
    field_simp
    ring
  unfold complex.abs
  rw [e1, e2, Real.sq_sqrt (div_nonneg zero_le_one hd.le),
    Real.sqrt_mul_self (div_nonneg (mul_self_nonneg w) hd.le)]
  have e : 1 / (1 + w * w) + w * w / (1 + w * w) = 1 := by
    field_simp
  exact ⟨le_of_eq e, e⟩

/-- C10: for every `C`, `f` and `z0`, the scattering matrix written by
`capacitor::calcSP` equals the Y-to-S conversion
`S = (I - z0 * Y) * (I + z0 * Y)^-1` of the 2x2 admittance matrix written by
`capacitor::calcAC` at the same frequency; the matrix `I + z0 * Y` is
invertible (its determinant is not zero and the inverse used is a two-sided
inverse). -/
theorem C10_capacitor_ytos {K : Type} [LinearOrderedField K] (pi z0 : K)
    (x : capacitor K) (f : K) :
    det2 (fun a b => eye2 a b + complex.ofReal z0 * (capacitor.calcAC pi x f).MatrixY a b) ≠ 0 ∧
    (∀ a b, mul2 (fun a b => eye2 a b + complex.ofReal z0 * (capacitor.calcAC pi x f).MatrixY a b)
      (inv2 (fun a b => eye2 a b + complex.ofReal z0 * (capacitor.calcAC pi x f).MatrixY a b))
        a b = eye2 a b) ∧
    (∀ a b, mul2 (inv2 (fun a b => eye2 a b +
        complex.ofReal z0 * (capacitor.calcAC pi x f).MatrixY a b))
      (fun a b => eye2 a b + complex.ofReal z0 * (capacitor.calcAC pi x f).MatrixY a b)
        a b = eye2 a b) ∧
    ∀ a b, (capacitor.calcSP pi z0 x f).MatrixS a b =
      ytosSpec z0 (capacitor.calcAC pi x f).MatrixY a b := by
  obtain ⟨h11, h22, h12, h21⟩ := calcAC_entries pi x f
  obtain ⟨s11, s22, s12, s21⟩ := calcSP_entries pi z0 x f
  have hw : 2 * (2 * pi * f * x.C * z0) = 2 * (z0 * (2 * pi * f * x.C)) := by ring
  refine ⟨?_, fun a b => (cap_inverse z0 _ _ h11 h22 h12 h21 a b).1,
    fun a b => (cap_inverse z0 _ _ h11 h22 h12 h21 a b).2, fun a b => ?_⟩
  · rw [capB_det z0 _ _ h11 h22 h12 h21]
    intro h
    have := congrArg complex.r h
    simp at this
  · rw [cap_ytos z0 _ _ h11 h22 h12 h21]
    fin_cases a <;> fin_cases b
    · simpa [calcSP_y, hw] using s11
    · simpa [calcSP_y, hw] using s12
    · simpa [calcSP_y, hw] using s21
    · simpa [calcSP_y, hw] using s22

/-! ## The capacitor in AC, DC and transient analysis -/

/-- C11: for every `C` and `f`, `capacitor::calcAC` writes
`Y11 = Y22 = +j * 2 * pi * f * C` and `Y12 = Y21 = -j * 2 * pi * f * C`, and
`capacitor::initDC` leaves every admittance entry and every current entry
zero (an open circuit at DC). -/
theorem C11_capacitor_calcAC_initDC {K : Type} [LinearOrderedField K] (pi : K)
    (x : capacitor K) (f : K) :
    (capacitor.calcAC pi x f).MatrixY NODE_1 NODE_1 =
      complex.rect 0 1 * complex.ofReal (2 * pi * f * x.C) ∧
    (capacitor.calcAC pi x f).MatrixY NODE_2 NODE_2 =
      complex.rect 0 1 * complex.ofReal (2 * pi * f * x.C) ∧
    (capacitor.calcAC pi x f).MatrixY NODE_1 NODE_2 =
      -(complex.rect 0 1 * complex.ofReal (2 * pi * f * x.C)) ∧
    (capacitor.calcAC pi x f).MatrixY NODE_2 NODE_1 =
      -(complex.rect 0 1 * complex.ofReal (2 * pi * f * x.C)) ∧
    (∀ a b, (capacitor.initDC x).MatrixY a b = 0) ∧
    (∀ a, (capacitor.initDC x).VectorI a = 0) := by
  have hy : complex.rect 0 1 * complex.ofReal (2 * pi * f * x.C) =
      complex.rect 0 (2 * pi * f * x.C) := by
    rw [complex.ext_iff]
    exact ⟨by simp, by simp⟩
  rw [hy]
  refine ⟨?_, ?_, ?_, ?_, fun a b => rfl, fun a => rfl⟩ <;>
    simp +decide [capacitor.calcAC, circuit.setY, circuit.setEntry, NODE_1, NODE_2]

/-- C12: if the capacitor has a property named `Controlled`,
`capacitor::calcTR` changes nothing: the object and its state slots, hence
every admittance entry, every current entry and the charge state, are the
same after the call as before it, for every `C`, every node voltage and
every integration helper. -/
theorem C12_capacitor_calcTR_controlled {K : Type} [LinearOrderedField K]
    (integrate : States K → Nat → K → States K × K × K) (x : capacitor K) (st : States K) :
    capacitor.calcTR integrate true x st = (x, st) ∧
    (∀ a b, (capacitor.calcTR integrate true x st).1.MatrixY a b = x.MatrixY a b) ∧
    (∀ a, (capacitor.calcTR integrate true x st).1.VectorI a = x.VectorI a) ∧
    (∀ n, getState (capacitor.calcTR integrate true x st).2 capacitor.qState n =
      getState st capacitor.qState n) := by
  have h : capacitor.calcTR integrate true x st = (x, st) := by
    simp [capacitor.calcTR]
  rw [h]
  exact ⟨rfl, fun _ _ => rfl, fun _ => rfl, fun _ => rfl⟩

/-! ## The isolator -/

section Isolator
variable {K : Type} [LinearOrderedField K]

/-- A division by a non-zero divisor succeeds. -/
theorem sdiv_of_ne (a b : K) (h : b ≠ 0) : sdiv a b = some (a / b) := by
  simp [sdiv, h]

/-- A division fails exactly on a zero divisor. -/
theorem sdiv_eq_none (a b : K) : sdiv a b = none ↔ b = 0 := by
  unfold sdiv
  split_ifs with h <;> simp [h]

/-- When both divisors are non-zero, `initSP` succeeds and writes these
four scattering entries. -/
theorem isolator.initSP_of_ne (sqrt : K → K) (z0 : K) (x : isolator K)
    (h1 : x.Z1 + z0 ≠ 0) (h2 : x.Z2 + z0 ≠ 0) :
    ∃ r, isolator.initSP sqrt z0 x = some r ∧
      r.MatrixS NODE_1 NODE_1 = complex.ofReal ((x.Z1 - z0) / (x.Z1 + z0)) ∧
      r.MatrixS NODE_2 NODE_2 = complex.ofReal ((x.Z2 - z0) / (x.Z2 + z0)) ∧
      r.MatrixS NODE_1 NODE_2 = complex.ofReal 0 ∧
      r.MatrixS NODE_2 NODE_1 = complex.ofReal
        (sqrt (1 - (x.Z1 - z0) / (x.Z1 + z0) * ((x.Z1 - z0) / (x.Z1 + z0))) *
          sqrt (1 - (x.Z2 - z0) / (x.Z2 + z0) * ((x.Z2 - z0) / (x.Z2 + z0)))) := by
  simp +decide [isolator.initSP, sdiv_of_ne _ _ h1, sdiv_of_ne _ _ h2, circuit.setS,
    circuit.setEntry, circuit.allocMatrixS, NODE_1, NODE_2]


theorem lower_det (z0 y11 y21 y22 : K) (Y : Fin 2 → Fin 2 → complex K)
    (h11 : Y 0 0 = complex.ofReal y11) (h12 : Y 0 1 = complex.ofReal 0)
    (h21 : Y 1 0 = complex.ofReal y21) (h22 : Y 1 1 = complex.ofReal y22) :
    det2 (fun a b => eye2 a b + complex.ofReal z0 * Y a b) =
      complex.ofReal ((1 + z0 * y11) * (1 + z0 * y22)) := by
  rw [complex.ext_iff]
  simp [det2, eye2, h11, h22, h12, h21]

theorem lower_ytos (z0 y11 y21 y22 : K) (Y : Fin 2 → Fin 2 → complex K)
    (h11 : Y 0 0 = complex.ofReal y11) (h12 : Y 0 1 = complex.ofReal 0)
    (h21 : Y 1 0 = complex.ofReal y21) (h22 : Y 1 1 = complex.ofReal y22)
    (hp1 : 1 + z0 * y11 ≠ 0) (hp2 : 1 + z0 * y22 ≠ 0) :
    ytosSpec z0 Y 0 0 = complex.ofReal ((1 - z0 * y11) / (1 + z0 * y11)) ∧
    ytosSpec z0 Y 0 1 = complex.ofReal 0 ∧
    ytosSpec z0 Y 1 0 =
      complex.ofReal (-(2 * z0 * y21) / ((1 + z0 * y11) * (1 + z0 * y22))) ∧
    ytosSpec z0 Y 1 1 = complex.ofReal ((1 - z0 * y22) / (1 + z0 * y22)) := by
  have hd := lower_det z0 y11 y21 y22 Y h11 h12 h21 h22
  unfold ytosSpec mul2 inv2
  rw [hd]
  refine ⟨?_, ?_, ?_, ?_⟩ <;>
    simp [eye2, h11, h22, h12, h21, complex.ext_iff] <;>
    (field_simp; ring1)


theorem lower_inverse (z0 y11 y21 y22 : K) (Y : Fin 2 → Fin 2 → complex K)
    (h11 : Y 0 0 = complex.ofReal y11) (h12 : Y 0 1 = complex.ofReal 0)
    (h21 : Y 1 0 = complex.ofReal y21) (h22 : Y 1 1 = complex.ofReal y22)
    (hp1 : 1 + z0 * y11 ≠ 0) (hp2 : 1 + z0 * y22 ≠ 0) (a b : Fin 2) :
    mul2 (fun a b => eye2 a b + complex.ofReal z0 * Y a b)
      (inv2 (fun a b => eye2 a b + complex.ofReal z0 * Y a b)) a b = eye2 a b ∧
    mul2 (inv2 (fun a b => eye2 a b + complex.ofReal z0 * Y a b))
      (fun a b => eye2 a b + complex.ofReal z0 * Y a b) a b = eye2 a b := by
  have hd := lower_det z0 y11 y21 y22 Y h11 h12 h21 h22
  unfold mul2 inv2
  rw [hd]
  fin_cases a <;> fin_cases b <;>
    simp [eye2, h11, h22, h12, h21, complex.ext_iff] <;>
    (try constructor) <;> (field_simp; try ring1)

end Isolator

/-- The transmission factor of one port in closed form. -/
theorem sqrt_one_sub_sq (Z z0 : ℝ) (hZ : 0 < Z) (h0 : 0 < z0) :
    Real.sqrt (1 - (Z - z0) / (Z + z0) * ((Z - z0) / (Z + z0))) =
      2 * Real.sqrt Z * Real.sqrt z0 / (Z + z0) := by
  have ha := Real.sqrt_pos.mpr hZ
  have hc := Real.sqrt_pos.mpr h0
  have hZ2 := Real.mul_self_sqrt hZ.le
  have h02 := Real.mul_self_sqrt h0.le
  have hsum : 0 < Z + z0 := by linarith
  have hy : 0 ≤ 2 * Real.sqrt Z * Real.sqrt z0 / (Z + z0) := by positivity
  have hZ3 : Real.sqrt Z ^ 2 = Z := Real.sq_sqrt hZ.le
  have h03 : Real.sqrt z0 ^ 2 = z0 := Real.sq_sqrt h0.le
  have he : 1 - (Z - z0) / (Z + z0) * ((Z - z0) / (Z + z0)) =
      2 * Real.sqrt Z * Real.sqrt z0 / (Z + z0) * (2 * Real.sqrt Z * Real.sqrt z0 / (Z + z0)) := by
    rw [div_mul_div_comm, div_mul_div_comm, eq_div_iff (by positivity)]
    have e : 2 * Real.sqrt Z * Real.sqrt z0 * (2 * Real.sqrt Z * Real.sqrt z0) = 4 * Z * z0 := by
      calc 2 * Real.sqrt Z * Real.sqrt z0 * (2 * Real.sqrt Z * Real.sqrt z0)
          = 4 * Real.sqrt Z ^ 2 * Real.sqrt z0 ^ 2 := by ring
        _ = 4 * Z * z0 := by rw [hZ3, h03]
    rw [e]
    field_simp
    ring
  rw [he]
  exact Real.sqrt_mul_self hy


theorem isolator_s21_real (Z1 Z2 z0 : ℝ) (h1 : 0 < Z1) (h2 : 0 < Z2) (h0 : 0 < z0) :
    -(2 * z0 * (-2 / Real.sqrt (Z1 * Z2))) / ((1 + z0 * (1 / Z1)) * (1 + z0 * (1 / Z2))) =
      Real.sqrt (1 - (Z1 - z0) / (Z1 + z0) * ((Z1 - z0) / (Z1 + z0))) *
        Real.sqrt (1 - (Z2 - z0) / (Z2 + z0) * ((Z2 - z0) / (Z2 + z0))) := by
  rw [sqrt_one_sub_sq Z1 z0 h1 h0, sqrt_one_sub_sq Z2 z0 h2 h0, Real.sqrt_mul h1.le]
  have ha := Real.sqrt_pos.mpr h1
  have hb := Real.sqrt_pos.mpr h2
  have hc := Real.sqrt_pos.mpr h0
  have e1 := Real.mul_self_sqrt h1.le
  have e2 := Real.mul_self_sqrt h2.le
  have e0 := Real.mul_self_sqrt h0.le
  generalize Real.sqrt Z1 = a at *
  generalize Real.sqrt Z2 = b at *
  generalize Real.sqrt z0 = c at *
  subst e1 e2 e0
  field_simp
  ring


section IsolatorDC
variable {K : Type} [LinearOrderedField K]

theorem isolator.initDC_reduced_of_ne (sqrt : K → K) (x : isolator K)
    (h1 : x.Z1 ≠ 0) (hq : sqrt (x.Z1 * x.Z2) ≠ 0) (h2 : x.Z2 ≠ 0) :
    ∃ r, isolator.initDC false sqrt x = some r ∧ r.vsources = 0 ∧
      r.MatrixY NODE_1 NODE_1 = complex.ofReal (1 / x.Z1) ∧
      r.MatrixY NODE_1 NODE_2 = complex.ofReal 0 ∧
      r.MatrixY NODE_2 NODE_1 = complex.ofReal (-2 / sqrt (x.Z1 * x.Z2)) ∧
      r.MatrixY NODE_2 NODE_2 = complex.ofReal (1 / x.Z2) := by
  simp +decide [isolator.initDC, sdiv_of_ne _ _ h1, sdiv_of_ne _ _ h2, sdiv_of_ne _ _ hq,
    circuit.setY, circuit.setEntry, isolator.allocMatrixMNA, circuit.allocMatrixMNA,
    isolator.setVoltageSources, NODE_1, NODE_2]

theorem isolator.initDC_augmented (sqrt : K → K) (x : isolator K) :
    ∃ r, isolator.initDC true sqrt x = some r ∧ r.vsources = 2 ∧
      (∀ a b, r.MatrixY a b = 0) ∧
      (∀ a b, r.MatrixB a b = eye2 a b) ∧
      (∀ a b, r.MatrixC a b = -eye2 a b) ∧
      r.MatrixD VSRC_1 VSRC_1 = complex.ofReal x.Z1 ∧
      r.MatrixD VSRC_1 VSRC_2 = complex.ofReal 0 ∧
      r.MatrixD VSRC_2 VSRC_1 = complex.ofReal (2 * sqrt (x.Z1 * x.Z2)) ∧
      r.MatrixD VSRC_2 VSRC_2 = complex.ofReal x.Z2 ∧
      (∀ a, r.VectorE a = 0) := by
  refine ⟨_, rfl, rfl, fun a b => rfl, fun a b => ?_, fun a b => ?_, ?_, ?_, ?_, ?_, fun a => ?_⟩
  · fin_cases a <;> fin_cases b <;>
      simp +decide [isolator.setB, isolator.setC, isolator.setD, isolator.setE,
        circuit.setEntry, isolator.allocMatrixMNA, isolator.setVoltageSources, eye2,
        NODE_1, NODE_2, VSRC_1, VSRC_2, complex.ext_iff]
  · fin_cases a <;> fin_cases b <;>
      simp +decide [isolator.setB, isolator.setC, isolator.setD, isolator.setE,
        circuit.setEntry, isolator.allocMatrixMNA, isolator.setVoltageSources, eye2,
        NODE_1, NODE_2, VSRC_1, VSRC_2, complex.ext_iff]
  · simp +decide [isolator.setD, isolator.setE, circuit.setEntry, VSRC_1, VSRC_2]
  · simp +decide [isolator.setD, isolator.setE, circuit.setEntry, VSRC_1, VSRC_2]
  · simp +decide [isolator.setD, isolator.setE, circuit.setEntry, VSRC_1, VSRC_2]
  · simp +decide [isolator.setD, isolator.setE, circuit.setEntry, VSRC_1, VSRC_2]
  · fin_cases a <;>
      simp +decide [isolator.setE, VSRC_1, VSRC_2, complex.ext_iff]

end IsolatorDC


/-- C13: for every reference impedance `z0 > 0`, an isolator with
`Z1 = Z2 = z0` gets from `isolator::initSP` the scattering matrix
`S11 = S22 = 0`, `S12 = 0` and `S21 = 1`; no division by zero is evaluated.
The square root is any function with `sqrt 1 = 1`. -/
theorem C13_isolator_matched {K : Type} [LinearOrderedField K] (sqrt : K → K)
    (hs : sqrt 1 = 1) (z0 : K) (hz : 0 < z0) (x : isolator K)
    (h1 : x.Z1 = z0) (h2 : x.Z2 = z0) :
    ∃ r, isolator.initSP sqrt z0 x = some r ∧
      r.MatrixS NODE_1 NODE_1 = 0 ∧ r.MatrixS NODE_2 NODE_2 = 0 ∧
      r.MatrixS NODE_1 NODE_2 = 0 ∧ r.MatrixS NODE_2 NODE_1 = 1 := by
  have hne : z0 + z0 ≠ 0 := by positivity
  obtain ⟨r, hr, s11, s22, s12, s21⟩ :=
    isolator.initSP_of_ne sqrt z0 x (by rw [h1]; exact hne) (by rw [h2]; exact hne)
  refine ⟨r, hr, ?_, ?_, ?_, ?_⟩
  · rw [s11, h1]; simp [complex.ext_iff]
  · rw [s22, h2]; simp [complex.ext_iff]
  · rw [s12]; simp [complex.ext_iff]
  · rw [s21, h1, h2]; simp [complex.ext_iff, hs]

/-- Witness of C13: `Z1 = Z2 = z0 = 50`. -/
theorem C13_isolator_matched_witness :
    sqrtQ 1 = 1 ∧ (0 : ℚ) < 50 ∧
    ∃ r, isolator.initSP sqrtQ 50 (isolator.sample 50 50) = some r ∧
      r.MatrixS NODE_1 NODE_1 = 0 ∧ r.MatrixS NODE_2 NODE_2 = 0 ∧
      r.MatrixS NODE_1 NODE_2 = 0 ∧ r.MatrixS NODE_2 NODE_1 = 1 :=
  have hs : sqrtQ 1 = 1 := by simp [sqrtQ]
  ⟨hs, by norm_num,
    C13_isolator_matched sqrtQ hs 50 (by norm_num) (isolator.sample 50 50) rfl rfl⟩

/-- C14: for all positive `Z1`, `Z2` and `z0`, the reduced `isolator::initDC`
writes `Y11 = 1 / Z1`, `Y12 = 0`, `Y21 = -2 / sqrt (Z1 * Z2)`, `Y22 = 1 / Z2`,
the matrix `I + z0 * Y` is invertible, and the conversion
`S = (I - z0 * Y) * (I + z0 * Y)^-1` gives exactly the scattering matrix
written by `isolator::initSP`: `S11 = (Z1 - z0) / (Z1 + z0)`,
`S22 = (Z2 - z0) / (Z2 + z0)`, `S12 = 0`,
`S21 = sqrt (1 - S11^2) * sqrt (1 - S22^2)`. -/
theorem C14_isolator_ytos (z0 : ℝ) (x : isolator ℝ) (h1 : 0 < x.Z1) (h2 : 0 < x.Z2)
    (h0 : 0 < z0) :
    ∃ d s, isolator.initDC false Real.sqrt x = some d ∧
      isolator.initSP Real.sqrt z0 x = some s ∧
      d.MatrixY NODE_1 NODE_1 = complex.ofReal (1 / x.Z1) ∧
      d.MatrixY NODE_1 NODE_2 = complex.ofReal 0 ∧
      d.MatrixY NODE_2 NODE_1 = complex.ofReal (-2 / Real.sqrt (x.Z1 * x.Z2)) ∧
      d.MatrixY NODE_2 NODE_2 = complex.ofReal (1 / x.Z2) ∧
      s.MatrixS NODE_1 NODE_1 = complex.ofReal ((x.Z1 - z0) / (x.Z1 + z0)) ∧
      s.MatrixS NODE_2 NODE_2 = complex.ofReal ((x.Z2 - z0) / (x.Z2 + z0)) ∧
      s.MatrixS NODE_1 NODE_2 = complex.ofReal 0 ∧
      s.MatrixS NODE_2 NODE_1 = complex.ofReal
        (Real.sqrt (1 - (x.Z1 - z0) / (x.Z1 + z0) * ((x.Z1 - z0) / (x.Z1 + z0))) *
          Real.sqrt (1 - (x.Z2 - z0) / (x.Z2 + z0) * ((x.Z2 - z0) / (x.Z2 + z0)))) ∧
      det2 (fun a b => eye2 a b + complex.ofReal z0 * d.MatrixY a b) ≠ 0 ∧
      (∀ a b, mul2 (fun a b => eye2 a b + complex.ofReal z0 * d.MatrixY a b)
        (inv2 (fun a b => eye2 a b + complex.ofReal z0 * d.MatrixY a b)) a b = eye2 a b) ∧
      (∀ a b, mul2 (inv2 (fun a b => eye2 a b + complex.ofReal z0 * d.MatrixY a b))
        (fun a b => eye2 a b + complex.ofReal z0 * d.MatrixY a b) a b = eye2 a b) ∧
      ∀ a b, ytosSpec z0 d.MatrixY a b = s.MatrixS a b := by
  have hq : Real.sqrt (x.Z1 * x.Z2) ≠ 0 := ne_of_gt (Real.sqrt_pos.mpr (mul_pos h1 h2))
  obtain ⟨d, hd, -, y11, y12, y21, y22⟩ :=
    isolator.initDC_reduced_of_ne Real.sqrt x (ne_of_gt h1) hq (ne_of_gt h2)
  obtain ⟨s, hs, s11, s22, s12, s21⟩ :=
    isolator.initSP_of_ne Real.sqrt z0 x (by positivity) (by positivity)
  have hp1 : 1 + z0 * (1 / x.Z1) ≠ 0 := by positivity
  have hp2 : 1 + z0 * (1 / x.Z2) ≠ 0 := by positivity
  obtain ⟨t11, t12, t21, t22⟩ := lower_ytos z0 _ _ _ d.MatrixY y11 y12 y21 y22 hp1 hp2
  refine ⟨d, s, hd, hs, y11, y12, y21, y22, s11, s22, s12, s21, ?_,
    fun a b => (lower_inverse z0 _ _ _ d.MatrixY y11 y12 y21 y22 hp1 hp2 a b).1,
    fun a b => (lower_inverse z0 _ _ _ d.MatrixY y11 y12 y21 y22 hp1 hp2 a b).2,
    fun a b => ?_⟩
  · rw [lower_det z0 _ _ _ d.MatrixY y11 y12 y21 y22]
    intro h
    have h3 := congrArg complex.r h
    simp only [complex.ofReal_r, complex.zero_r] at h3
    exact (mul_ne_zero hp1 hp2) h3
  · fin_cases a <;> fin_cases b
    · show ytosSpec z0 d.MatrixY 0 0 = s.MatrixS NODE_1 NODE_1
      rw [t11, s11]
      congr 1
      field_simp
    · show ytosSpec z0 d.MatrixY 0 1 = s.MatrixS NODE_1 NODE_2
      rw [t12, s12]
    · show ytosSpec z0 d.MatrixY 1 0 = s.MatrixS NODE_2 NODE_1
      rw [t21, s21, isolator_s21_real x.Z1 x.Z2 z0 h1 h2 h0]
    · show ytosSpec z0 d.MatrixY 1 1 = s.MatrixS NODE_2 NODE_2
      rw [t22, s22]
      congr 1
      field_simp

/-- Witness of C14: `Z1 = Z2 = z0 = 50`. -/
theorem C14_isolator_ytos_witness :
    (0 : ℝ) < (isolator.sample 50 50 : isolator ℝ).Z1 ∧
    (0 : ℝ) < (isolator.sample 50 50 : isolator ℝ).Z2 ∧ (0 : ℝ) < 50 ∧
    ∃ d s, isolator.initDC false Real.sqrt (isolator.sample 50 50 : isolator ℝ) = some d ∧
      isolator.initSP Real.sqrt 50 (isolator.sample 50 50 : isolator ℝ) = some s ∧
      ∀ a b, ytosSpec 50 d.MatrixY a b = s.MatrixS a b :=
  have h1 : (0 : ℝ) < (isolator.sample 50 50 : isolator ℝ).Z1 := by norm_num [isolator.sample]
  have h2 : (0 : ℝ) < (isolator.sample 50 50 : isolator ℝ).Z2 := by norm_num [isolator.sample]
  have h0 : (0 : ℝ) < 50 := by norm_num
  ⟨h1, h2, h0, by
    obtain ⟨d, s, hd, hs, -, -, -, -, -, -, -, -, -, -, -, h⟩ :=
      C14_isolator_ytos 50 (isolator.sample 50 50) h1 h2 h0
    exact ⟨d, s, hd, hs, h⟩⟩

/-- C15: the two isolator formulations are equivalent.  For all positive
`Z1` and `Z2` the augmented `isolator::initDC` declares 2 extra unknowns and
leaves `Y = 0`, the reduced one declares 0; the block `D` is invertible, and
eliminating the two auxiliary unknowns gives the node admittance
`-B * D^-1 * C` equal to the `Y` matrix of the reduced stamp and the
equivalent source `B * D^-1 * E = 0`. -/
theorem C15_isolator_formulations (x : isolator ℝ) (h1 : 0 < x.Z1) (h2 : 0 < x.Z2) :
    ∃ a r, isolator.initDC true Real.sqrt x = some a ∧
      isolator.initDC false Real.sqrt x = some r ∧
      a.vsources = 2 ∧ r.vsources = 0 ∧
      (∀ i j, a.MatrixY i j = 0) ∧
      det2 a.MatrixD ≠ 0 ∧
      (∀ i j, mul2 a.MatrixD (inv2 a.MatrixD) i j = eye2 i j ∧
        mul2 (inv2 a.MatrixD) a.MatrixD i j = eye2 i j) ∧
      (∀ i j, mul2 (mul2 (fun i j => -a.MatrixB i j) (inv2 a.MatrixD)) a.MatrixC i j =
        r.MatrixY i j) ∧
      (∀ i, mul2 a.MatrixB (inv2 a.MatrixD) i 0 * a.VectorE 0 +
        mul2 a.MatrixB (inv2 a.MatrixD) i 1 * a.VectorE 1 = 0) := by
  have hqpos : 0 < Real.sqrt (x.Z1 * x.Z2) := Real.sqrt_pos.mpr (mul_pos h1 h2)
  have hq : Real.sqrt (x.Z1 * x.Z2) ≠ 0 := ne_of_gt hqpos
  have hqq : Real.sqrt (x.Z1 * x.Z2) * Real.sqrt (x.Z1 * x.Z2) = x.Z1 * x.Z2 :=
    Real.mul_self_sqrt (mul_pos h1 h2).le
  obtain ⟨r, hr, hv0, y11, y12, y21, y22⟩ :=
    isolator.initDC_reduced_of_ne Real.sqrt x (ne_of_gt h1) hq (ne_of_gt h2)
  obtain ⟨a, ha, hv2, hY, hB, hC, d11, d12, d21, d22, hE⟩ :=
    isolator.initDC_augmented Real.sqrt x
  have hz1 : x.Z1 ≠ 0 := ne_of_gt h1
  have hz2 : x.Z2 ≠ 0 := ne_of_gt h2
  have d11' : a.MatrixD 0 0 = complex.ofReal x.Z1 := d11
  have d12' : a.MatrixD 0 1 = complex.ofReal 0 := d12
  have d21' : a.MatrixD 1 0 = complex.ofReal (2 * Real.sqrt (x.Z1 * x.Z2)) := d21
  have d22' : a.MatrixD 1 1 = complex.ofReal x.Z2 := d22
  have y11' : r.MatrixY 0 0 = complex.ofReal (1 / x.Z1) := y11
  have y12' : r.MatrixY 0 1 = complex.ofReal 0 := y12
  have y21' : r.MatrixY 1 0 = complex.ofReal (-2 / Real.sqrt (x.Z1 * x.Z2)) := y21
  have y22' : r.MatrixY 1 1 = complex.ofReal (1 / x.Z2) := y22
  have hdet : det2 a.MatrixD = complex.ofReal (x.Z1 * x.Z2) := by
    rw [complex.ext_iff]
    simp [det2, d11', d12', d21', d22']
  refine ⟨a, r, ha, hr, hv2, hv0, hY, ?_, fun i j => ?_, fun i j => ?_, fun i => ?_⟩
  · rw [hdet]
    intro h
    have h3 := congrArg complex.r h
    simp only [complex.ofReal_r, complex.zero_r] at h3
    exact (mul_ne_zero hz1 hz2) h3
  · unfold mul2 inv2
    rw [hdet]
    generalize Real.sqrt (x.Z1 * x.Z2) = q at *
    fin_cases i <;> fin_cases j <;>
      simp [eye2, d11', d12', d21', d22', complex.ext_iff] <;>
      (try constructor) <;> (field_simp; try ring1)
  · unfold mul2 inv2
    rw [hdet]
    generalize Real.sqrt (x.Z1 * x.Z2) = q at *
    fin_cases i <;> fin_cases j <;>
      simp [eye2, hB, hC, d11', d12', d21', d22', y11', y12', y21', y22', complex.ext_iff]
    · field_simp
      ring
    · rw [div_eq_div_iff (mul_ne_zero (mul_ne_zero hz1 hz2) (mul_ne_zero hz1 hz2)) hq]
      linear_combination (-2 * x.Z1 * x.Z2) * hqq
    · field_simp
      ring
  · rw [hE, hE]
    simp [complex.ext_iff]

/-- Witness of C15: `Z1 = Z2 = 50`. -/
theorem C15_isolator_formulations_witness :
    (0 : ℝ) < (isolator.sample 50 50 : isolator ℝ).Z1 ∧
    (0 : ℝ) < (isolator.sample 50 50 : isolator ℝ).Z2 ∧
    ∃ a r, isolator.initDC true Real.sqrt (isolator.sample 50 50 : isolator ℝ) = some a ∧
      isolator.initDC false Real.sqrt (isolator.sample 50 50 : isolator ℝ) = some r ∧
      a.vsources = 2 ∧ r.vsources = 0 :=
  have h1 : (0 : ℝ) < (isolator.sample 50 50 : isolator ℝ).Z1 := by norm_num [isolator.sample]
  have h2 : (0 : ℝ) < (isolator.sample 50 50 : isolator ℝ).Z2 := by norm_num [isolator.sample]
  ⟨h1, h2, by
    obtain ⟨a, r, ha, hr, hv2, hv0, -⟩ :=
      C15_isolator_formulations (isolator.sample 50 50) h1 h2
    exact ⟨a, r, ha, hr, hv2, hv0⟩⟩

/-- C16: for every `Z1`, `Z2` and every starting state, in either
formulation, `isolator::initAC` and `isolator::initTR` leave the device
exactly as `isolator::initDC` does: the same declared number of extra
unknowns and the same matrix entries. -/
theorem C16_isolator_initAC_initTR {K : Type} [LinearOrderedField K] (AUGMENTED : Bool)
    (sqrt : K → K) (x : isolator K) :
    isolator.initAC AUGMENTED sqrt x = isolator.initDC AUGMENTED sqrt x ∧
    isolator.initTR AUGMENTED sqrt x = isolator.initDC AUGMENTED sqrt x :=
  ⟨rfl, rfl⟩

/-! ## The ideal AC current source -/

/-- C17: for every amplitude `I` and phase `Phase` (in degrees),
`iac::initAC` sets the current at terminal 1 to the phasor
`I * exp (j * Phase * pi / 180)` and the current at terminal 2 to its
negative, so the two injections sum to zero; for `I = 1` and `Phase = 0`
they are exactly `+1` and `-1`. -/
theorem C17_iac_initAC (x : iac ℝ) (f : ℝ) :
    (iac.initAC Real.pi Real.cos Real.sin x).VectorI NODE_1 =
      ⟨x.I * Real.cos (x.Phase * Real.pi / 180), x.I * Real.sin (x.Phase * Real.pi / 180)⟩ ∧
    complex.toC ((iac.initAC Real.pi Real.cos Real.sin x).VectorI NODE_1) =
      (x.I : ℂ) * Complex.exp (Complex.I * ((x.Phase * Real.pi / 180 : ℝ) : ℂ)) ∧
    (iac.initAC Real.pi Real.cos Real.sin x).VectorI NODE_2 =
      -(iac.initAC Real.pi Real.cos Real.sin x).VectorI NODE_1 ∧
    (iac.initAC Real.pi Real.cos Real.sin x).VectorI NODE_1 +
      (iac.initAC Real.pi Real.cos Real.sin x).VectorI NODE_2 = 0 ∧
    (iac.initAC Real.pi Real.cos Real.sin (iac.sample 1 0 f)).VectorI NODE_1 = 1 ∧
    (iac.initAC Real.pi Real.cos Real.sin (iac.sample 1 0 f)).VectorI NODE_2 = -1 := by
  have e1 : (iac.initAC Real.pi Real.cos Real.sin x).VectorI NODE_1 =
      ⟨x.I * Real.cos (x.Phase * Real.pi / 180), x.I * Real.sin (x.Phase * Real.pi / 180)⟩ := by
    simp +decide [iac.initAC, circuit.setI, circuit.allocMatrixMNA, complex.polar, rad,
      NODE_1, NODE_2]
  have e2 : (iac.initAC Real.pi Real.cos Real.sin x).VectorI NODE_2 =
      -(iac.initAC Real.pi Real.cos Real.sin x).VectorI NODE_1 := by
    simp +decide [iac.initAC, circuit.setI, circuit.allocMatrixMNA, complex.polar, rad,
      NODE_1, NODE_2]
  refine ⟨e1, ?_, e2, ?_, ?_, ?_⟩
  · rw [e1]
    apply Complex.ext
    · simp [complex.toC, Complex.exp_re, Complex.exp_im, mul_comm]
    · simp [complex.toC, Complex.exp_re, Complex.exp_im, mul_comm]
  · rw [e2, complex.ext_iff]
    simp
  · simp +decide [iac.initAC, iac.sample, circuit.setI, circuit.allocMatrixMNA, complex.polar,
      rad, NODE_1, NODE_2, complex.ext_iff]
  · simp +decide [iac.initAC, iac.sample, circuit.setI, circuit.allocMatrixMNA, complex.polar,
      rad, NODE_1, NODE_2, complex.ext_iff]

/-- C18: for every `I`, `f`, `Phase` and time `t`, `iac::calcTR` sets the
terminal-1 current to `I * sin (2 * pi * f * t + Phase * pi / 180)` and the
terminal-2 current to its negative; at `t = 0` with `Phase = 0` both are 0
for every `f` and `I`; and `iac::initSP` sets the scattering matrix to the
2x2 identity. -/
theorem C18_iac_calcTR_initSP (x : iac ℝ) (t I f : ℝ) :
    (iac.calcTR Real.pi Real.sin x t).VectorI NODE_1 =
      complex.ofReal (x.I * Real.sin (2 * Real.pi * x.f * t + x.Phase * Real.pi / 180)) ∧
    (iac.calcTR Real.pi Real.sin x t).VectorI NODE_2 =
      complex.ofReal (-(x.I * Real.sin (2 * Real.pi * x.f * t + x.Phase * Real.pi / 180))) ∧
    (iac.calcTR Real.pi Real.sin (iac.sample I 0 f) 0).VectorI NODE_1 = 0 ∧
    (iac.calcTR Real.pi Real.sin (iac.sample I 0 f) 0).VectorI NODE_2 = 0 ∧
    (∀ a b, (iac.initSP x).MatrixS a b = eye2 a b) := by
  refine ⟨?_, ?_, ?_, ?_, ?_⟩
  · simp +decide [iac.calcTR, circuit.setI, rad, NODE_1, NODE_2]
  · simp +decide [iac.calcTR, circuit.setI, rad, NODE_1, NODE_2]
  · simp +decide [iac.calcTR, iac.sample, circuit.setI, rad, NODE_1, NODE_2, complex.ext_iff]
  · simp +decide [iac.calcTR, iac.sample, circuit.setI, rad, NODE_1, NODE_2, complex.ext_iff]
  · intro a b
    fin_cases a <;> fin_cases b <;>
      simp +decide [iac.initSP, circuit.setS, circuit.setEntry, circuit.allocMatrixS, eye2,
        NODE_1, NODE_2, complex.ext_iff]

/-! ## The surface potential left by `initModel` -/

section SurfacePotential

/-- On the boundary `Nsub * 1e6 = NiSi` the doping formula gives `Phi = 0`. -/
theorem mosfet.initModel_Phi_boundary {K : Type} [LinearOrderedField K] (log : K → K)
    (hlog : log 1 = 0) (pnPotential_T : K → K → K → K) (T0 kBoverQ NiSi T1 T2 P Nsub : K)
    (hP : pnPotential_T T1 T2 P ≤ 0) (hN : 0 < NiSi) (hb : Nsub * 1e6 = NiSi) :
    mosfet.initModel_Phi log pnPotential_T T0 kBoverQ NiSi T1 T2 P Nsub = 0 := by
  have hpos : 0 < Nsub := by
    by_contra h
    have h' : Nsub ≤ 0 := not_lt.mp h
    have : Nsub * 1e6 ≤ 0 := mul_nonpos_of_nonpos_of_nonneg h' (by norm_num)
    rw [hb] at this
    exact absurd hN (not_lt.mpr this)
  simp only [mosfet.initModel_Phi, if_pos hP, gt_iff_lt, if_pos hpos, ge_iff_le, hb, le_refl,
    if_true, div_self (ne_of_gt hN), hlog, mul_zero]

/-- Away from that boundary the surface potential left by `initModel` is
strictly positive. -/
theorem mosfet.initModel_Phi_pos (pnPotential_T : ℝ → ℝ → ℝ → ℝ)
    (T0 kBoverQ NiSi T1 T2 P Nsub : ℝ) (hUt : 0 < T0 * kBoverQ) (hN : 0 < NiSi)
    (hb : Nsub * 1e6 ≠ NiSi) :
    0 < mosfet.initModel_Phi Real.log pnPotential_T T0 kBoverQ NiSi T1 T2 P Nsub := by
  unfold mosfet.initModel_Phi
  simp only
  split_ifs with h1 h2 h3
  · have hlt : NiSi < Nsub * 1e6 := lt_of_le_of_ne h3 (Ne.symm hb)
    have : 1 < Nsub * 1e6 / NiSi := by rwa [lt_div_iff₀ hN, one_mul]
    have := Real.log_pos this
    positivity
  · norm_num
  · norm_num
  · exact not_le.mp h1

end SurfacePotential

/-- C19 (evaluation at the failing input): with the property `Phi = 0`
(scaled value not positive, here at `Temp = Tnom`) and the substrate doping
`Nsub = 1.45e10 = NiSi / 1e6`, the doping branch of `mosfet::initModel`
leaves `Phi = 2 * Ut * log 1 = 0`, so `sqrt (Phi) = 0`; a device with this
`Phi` whose bulk is 1 V above the source has `Upn = 1 > 0`, takes the Taylor
branch of `calcDC` and divides `Upn` by `sqrt (Phi) = 0`. -/
theorem C19_surface_potential_zero :
    mosfet.initModel_Phi Real.log (fun _ _ Vj => Vj) 290
      (1.380650524e-23 / 1.6021765314e-19) 1.45e16 300.15 300.15 0 1.45e10 = 0 ∧
    Real.sqrt (mosfet.initModel_Phi Real.log (fun _ _ Vj => Vj) 290
      (1.380650524e-23 / 1.6021765314e-19) 1.45e16 300.15 300.15 0 1.45e10) = 0 ∧
    mosfet.Upn (mosfet.calcDC (DeviceLib.unlimited Real.sqrt linearJunction)
      { (mosfet.sample 3 1 0 1 : mosfet ℝ) with
        Phi := mosfet.initModel_Phi Real.log (fun _ _ Vj => Vj) 290
          (1.380650524e-23 / 1.6021765314e-19) 1.45e16 300.15 300.15 0 1.45e10 }) = 1 ∧
    (DeviceLib.unlimited Real.sqrt linearJunction).sqrt
      (mosfet.calcDC (DeviceLib.unlimited Real.sqrt linearJunction)
        { (mosfet.sample 3 1 0 1 : mosfet ℝ) with
          Phi := mosfet.initModel_Phi Real.log (fun _ _ Vj => Vj) 290
            (1.380650524e-23 / 1.6021765314e-19) 1.45e16 300.15 300.15 0 1.45e10 }).Phi = 0 := by
  have h : mosfet.initModel_Phi Real.log (fun _ _ Vj => Vj) 290
      (1.380650524e-23 / 1.6021765314e-19) 1.45e16 300.15 300.15 0 1.45e10 = 0 :=
    mosfet.initModel_Phi_boundary Real.log Real.log_one _ _ _ _ _ _ _ _ (le_refl 0)
      (by norm_num) (by norm_num)
  rw [h]
  refine ⟨rfl, Real.sqrt_zero, ?_, ?_⟩
  · norm_num [mosfet.Upn, mosfet.dirOf, mosfet.calcDC, mosfet.calcDC_stamp,
      mosfet.calcDC_channel, mosfet.calcDC_diodes, mosfet.calcDC_limit, mosfet.sample,
      DeviceLib.unlimited, complex.real, NODE_G, NODE_D, NODE_S, NODE_B]
  · rw [mosfet.calcDC_Phi]
    exact Real.sqrt_zero

/-! ## Divisions in the isolator model -/

/-- C20 (as amended): the isolator model has no sign or positivity check
before any division.  `isolator::initSP` evaluates a division by zero
exactly when `Z1 = -z0` or `Z2 = -z0`; the reduced `isolator::initDC` and
`isolator::calcNoiseAC` exactly when `Z1 = 0`, `sqrt (Z1 * Z2) = 0` or
`Z2 = 0`; `isolator::calcNoiseSP` exactly when `z0 + Z2 = 0` or
`sqr (Z1 + z0) = 0`; the augmented `isolator::initDC` never divides. -/
theorem C20_isolator_divisions {K : Type} [LinearOrderedField K] (sqrt kelvin : K → K)
    (T0 z0 : K) (x : isolator K) :
    (isolator.initSP sqrt z0 x = none ↔ x.Z1 + z0 = 0 ∨ x.Z2 + z0 = 0) ∧
    (isolator.initDC false sqrt x = none ↔
      x.Z1 = 0 ∨ sqrt (x.Z1 * x.Z2) = 0 ∨ x.Z2 = 0) ∧
    isolator.initDC true sqrt x ≠ none ∧
    (isolator.calcNoiseAC sqrt kelvin T0 x = none ↔
      x.Z1 = 0 ∨ sqrt (x.Z1 * x.Z2) = 0 ∨ x.Z2 = 0) ∧
    (isolator.calcNoiseSP sqrt kelvin T0 z0 x = none ↔
      z0 + x.Z2 = 0 ∨ sqr (x.Z1 + z0) = 0) := by
  refine ⟨?_, ?_, ?_, ?_, ?_⟩
  · by_cases h1 : x.Z1 + z0 = 0 <;> by_cases h2 : x.Z2 + z0 = 0 <;>
      simp [isolator.initSP, sdiv, h1, h2]
  · by_cases h1 : x.Z1 = 0 <;> by_cases hq : sqrt (x.Z1 * x.Z2) = 0 <;>
      by_cases h2 : x.Z2 = 0 <;>
      simp [isolator.initDC, sdiv, h1, h2, hq]
  · simp [isolator.initDC]
  · by_cases h1 : x.Z1 = 0 <;> by_cases hq : sqrt (x.Z1 * x.Z2) = 0 <;>
      by_cases h2 : x.Z2 = 0 <;>
      simp [isolator.calcNoiseAC, sdiv, h1, h2, hq]
  · by_cases h1 : z0 + x.Z2 = 0 <;> by_cases h2 : sqr (x.Z1 + z0) = 0 <;>
      simp [isolator.calcNoiseSP, sdiv, h1, h2]

/-- C20 (counterexample to the claim as stated): with `z0 = 50`, the
property values `Z1 = -50` in `initSP`, `Z1 = 0` in the reduced `initDC` and
in `calcNoiseAC`, and `Z2 = -50` in `calcNoiseSP` each lead to a division by
zero being evaluated. -/
theorem C20_counterexample :
    isolator.initSP sqrtQ 50 (isolator.sample (-50) 50) = none ∧
    isolator.initDC false sqrtQ (isolator.sample 0 50) = none ∧
    isolator.calcNoiseAC sqrtQ (fun T => T + 273.15) 290 (isolator.sample 0 50) = none ∧
    isolator.calcNoiseSP sqrtQ (fun T => T + 273.15) 290 50 (isolator.sample 50 (-50)) = none := by
  refine ⟨?_, ?_, ?_, ?_⟩
  · simp [isolator.initSP, sdiv, isolator.sample]
  · simp [isolator.initDC, sdiv, isolator.sample]
  · simp [isolator.calcNoiseAC, sdiv, isolator.sample]
  · simp [isolator.calcNoiseSP, sdiv, isolator.sample]

/-! ## Model initialisation: channel length and transconductance coefficient -/

/-- C21: `mosfet::initModel` sets the effective channel length to
`L - 2 * Ld` when that value is positive and to the mask length `L`
otherwise; for every `L > 0` and every `Ld` the result is strictly
positive. -/
theorem C21_effective_channel_length {K : Type} [LinearOrderedField K] (L Ld : K)
    (hL : 0 < L) :
    mosfet.initModel_Leff L Ld = (if 0 < L - 2 * Ld then L - 2 * Ld else L) ∧
    0 < mosfet.initModel_Leff L Ld := by
  unfold mosfet.initModel_Leff
  simp only
  by_cases h : L - 2 * Ld ≤ 0
  · rw [if_pos h, if_neg (not_lt.mpr h)]
    exact ⟨rfl, hL⟩
  · rw [if_neg h, if_pos (not_le.mp h)]
    exact ⟨rfl, not_le.mp h⟩

/-- C21 at `L = 1`, `Ld = 2`, where the subtraction gives `-3` and the
fallback to the mask length applies. -/
theorem C21_effective_channel_length_witness :
    (0 : ℚ) < 1 ∧ mosfet.initModel_Leff (1 : ℚ) 2 = (if (0 : ℚ) < 1 - 2 * 2 then 1 - 2 * 2 else 1) ∧
    0 < mosfet.initModel_Leff (1 : ℚ) 2 :=
  ⟨by norm_num, C21_effective_channel_length (1 : ℚ) 2 (by norm_num)⟩

/-- C22: with the temperature factor `exp (1.5 * log (T1 / T2))`, which is
`(T1 / T2) ^ 1.5` for positive temperatures, `mosfet::initModel` sets
`beta = Kp * F1 * W / Leff` when the scaled `Kp * F1` is positive, otherwise
`Uo * F1 * 1e-4 * Cox * W / Leff` when `Cox > 0` and the scaled mobility
`Uo * F1` is positive, otherwise the default `2e-5 * W / Leff`; for `W > 0`
and `Leff > 0` the resulting `beta` is strictly positive. -/
theorem C22_transconductance_coefficient (T1 T2 Kp Uo W Cox Leff : ℝ) (hT1 : 0 < T1)
    (hT2 : 0 < T2) (hW : 0 < W) (hL : 0 < Leff) :
    mosfet.initModel_F1 Real.exp Real.log T1 T2 = (T1 / T2) ^ (1.5 : ℝ) ∧
    mosfet.initModel_beta Real.exp Real.log T1 T2 Kp Uo W Cox Leff =
      (if 0 < Kp * (T1 / T2) ^ (1.5 : ℝ) then Kp * (T1 / T2) ^ (1.5 : ℝ) * W / Leff
       else if 0 < Cox ∧ 0 < Uo * (T1 / T2) ^ (1.5 : ℝ) then
         Uo * (T1 / T2) ^ (1.5 : ℝ) * 1e-4 * Cox * W / Leff
       else 2e-5 * W / Leff) ∧
    0 < mosfet.initModel_beta Real.exp Real.log T1 T2 Kp Uo W Cox Leff := by
  have hF : mosfet.initModel_F1 Real.exp Real.log T1 T2 = (T1 / T2) ^ (1.5 : ℝ) := by
    unfold mosfet.initModel_F1
    rw [Real.rpow_def_of_pos (div_pos hT1 hT2), mul_comm]
  refine ⟨hF, ?_, ?_⟩
  · simp only [mosfet.initModel_beta, hF, gt_iff_lt]
  · simp only [mosfet.initModel_beta, gt_iff_lt]
    split_ifs with h1 h2
    · positivity
    · obtain ⟨hc, hu⟩ := h2
      positivity
    · positivity

/-- C22 at `T1 = T2 = 300`, `Kp = 0`, `Uo = 0`, `Cox = 0`, `W = Leff = 1`,
where neither path yields a value and the default applies. -/
theorem C22_transconductance_coefficient_witness :
    (0 : ℝ) < 300 ∧ (0 : ℝ) < 300 ∧ (0 : ℝ) < 1 ∧ (0 : ℝ) < 1 ∧
    0 < mosfet.initModel_beta Real.exp Real.log 300 300 0 0 1 0 1 :=
  ⟨by norm_num, by norm_num, by norm_num, by norm_num,
    (C22_transconductance_coefficient 300 300 0 0 1 0 1 (by norm_num) (by norm_num)
      (by norm_num) (by norm_num)).2.2⟩

/-! ## Charge integration of the MOSFET capacitances -/

/-- C23: for every history `st`, `mosfet::transientChargeSR` replaces the
capacitance by `(cap + 4 * cap1 + cap2) / 6 + ccap`, with `cap1` and `cap2`
the values of slot `qstate + 3` one and two steps back, returns
`newcap * (v - v1) + q1` and writes the slots `qstate + 3` and `qstate + 2`
only.  On a history `sc` with constant capacitance (`cap1 = cap2 = cap`)
both `transientChargeSR` and `transientChargeTR` leave the capacitance
`cap + ccap`, return the same charge and the same state slots, and the
charge increment over the step is exactly `(cap + ccap) * (v - v1)`. -/
theorem C23_simpson_constant_history {K : Type} [LinearOrderedField K] (st sc : States K)
    (qstate : Nat) (cap v ccap : K) (h1 : getState sc (qstate + 3) 1 = cap)
    (h2 : getState sc (qstate + 3) 2 = cap) :
    ((mosfet.transientChargeSR st qstate cap v ccap).2.1 =
        (cap + 4 * getState st (qstate + 3) 1 + getState st (qstate + 3) 2) / 6 + ccap ∧
      (mosfet.transientChargeSR st qstate cap v ccap).2.2 =
        ((cap + 4 * getState st (qstate + 3) 1 + getState st (qstate + 3) 2) / 6 + ccap) *
          (v - getState st (qstate + 2) 1) + getState st qstate 1 ∧
      (mosfet.transientChargeSR st qstate cap v ccap).1 =
        setState (setState st (qstate + 3) cap) (qstate + 2) v) ∧
    (mosfet.transientChargeSR sc qstate cap v ccap).2.1 =
      (cap + 4 * getState sc (qstate + 3) 1 + getState sc (qstate + 3) 2) / 6 + ccap ∧
    (mosfet.transientChargeSR sc qstate cap v ccap).2.1 = cap + ccap ∧
    (mosfet.transientChargeTR sc qstate cap v ccap).2.1 = cap + ccap ∧
    (mosfet.transientChargeSR sc qstate cap v ccap).2.2 =
      (mosfet.transientChargeTR sc qstate cap v ccap).2.2 ∧
    (mosfet.transientChargeSR sc qstate cap v ccap).1 =
      (mosfet.transientChargeTR sc qstate cap v ccap).1 ∧
    (mosfet.transientChargeSR sc qstate cap v ccap).2.2 - getState sc qstate 1 =
      (cap + ccap) * (v - getState sc (qstate + 2) 1) := by
  have g1 : ∀ s : States K, (mosfet.transientChargeSR s qstate cap v ccap).2.1 =
      (cap + 4 * getState s (qstate + 3) 1 + getState s (qstate + 3) 2) / 6 + ccap := by
    intro s
    simp [mosfet.transientChargeSR, getState, setState]
  have g3 : ∀ s : States K, (mosfet.transientChargeSR s qstate cap v ccap).2.2 =
      (mosfet.transientChargeSR s qstate cap v ccap).2.1 * (v - getState s (qstate + 2) 1) +
        getState s qstate 1 := by
    intro s
    simp [mosfet.transientChargeSR, getState, setState]
  have e2 : (mosfet.transientChargeTR sc qstate cap v ccap).2.1 =
      (cap + getState sc (qstate + 3) 1) / 2 + ccap := by
    simp [mosfet.transientChargeTR, getState, setState]
  have e4 : (mosfet.transientChargeTR sc qstate cap v ccap).2.2 =
      (mosfet.transientChargeTR sc qstate cap v ccap).2.1 * (v - getState sc (qstate + 2) 1) +
        getState sc qstate 1 := by
    simp [mosfet.transientChargeTR, getState, setState]
  have s1 : (mosfet.transientChargeSR sc qstate cap v ccap).2.1 = cap + ccap := by
    rw [g1 sc, h1, h2]; ring
  have s2 : (mosfet.transientChargeTR sc qstate cap v ccap).2.1 = cap + ccap := by
    rw [e2, h1]; ring
  refine ⟨⟨g1 st, ?_, rfl⟩, g1 sc, s1, s2, ?_, rfl, ?_⟩
  · rw [g3 st, g1 st]
  · rw [g3 sc, e4, s1, s2]
  · rw [g3 sc, s1]; ring

/-- C23 with `cap = 2`, `v = 5`, `ccap = 1`: on the history that holds the
offset `n` in every slot (`cap1 = 1`, `cap2 = 2`) the Simpson capacitance is
`(2 + 4 * 1 + 2) / 6 + 1`; on the history that holds `2` everywhere the
capacitance left is `3` and the charge increment is `3 * (5 - 2)`. -/
theorem C23_simpson_constant_history_witness :
    getState (fun _ _ => (2 : ℚ)) (0 + 3) 1 = 2 ∧ getState (fun _ _ => (2 : ℚ)) (0 + 3) 2 = 2 ∧
    (mosfet.transientChargeSR (fun _ n => (n : ℚ)) 0 2 5 1).2.1 = (2 + 4 * 1 + 2) / 6 + 1 ∧
    (mosfet.transientChargeSR (fun _ _ => (2 : ℚ)) 0 2 5 1).2.1 = 2 + 1 ∧
    (mosfet.transientChargeSR (fun _ _ => (2 : ℚ)) 0 2 5 1).2.2 -
      getState (fun _ _ => (2 : ℚ)) 0 1 = (2 + 1) * (5 - getState (fun _ _ => (2 : ℚ)) (0 + 2) 1) :=
  ⟨rfl, rfl,
    by
      have h := (C23_simpson_constant_history (fun _ n => (n : ℚ)) (fun _ _ => (2 : ℚ))
        0 2 5 1 rfl rfl).1.1
      simpa [getState] using h,
    (C23_simpson_constant_history (fun _ n => (n : ℚ)) (fun _ _ => (2 : ℚ))
      0 2 5 1 rfl rfl).2.2.1,
    (C23_simpson_constant_history (fun _ n => (n : ℚ)) (fun _ _ => (2 : ℚ))
      0 2 5 1 rfl rfl).2.2.2.2.2.2⟩

/-! ## Series resistances inserted by `mosfet::initDC` -/

section Series

variable {K : Type} [LinearOrderedField K]

/-- With a non-zero resistance the slot a terminal block leaves does not
depend on the resistor the pointer held before: all three properties are
overwritten before `resistor::initDC` runs. -/
theorem mosfetSeries.seriesBlock_of_ne (f : resistor K → resistor K) (name : String)
    (T R : K) (slot : SeriesSlot K) (h : R ≠ 0) :
    mosfetSeries.seriesBlock f name T R slot =
      { res := some (f { Temp := some T, R := some R, Controlled := some name }),
        inserted := true } := by
  simp [mosfetSeries.seriesBlock, h, splitResistor, SeriesSlot.call]

/-- With a zero resistance the terminal block keeps the pointer and leaves
the resistor disabled. -/
theorem mosfetSeries.seriesBlock_of_eq (f : resistor K → resistor K) (name : String)
    (T R : K) (slot : SeriesSlot K) (h : R = 0) :
    mosfetSeries.seriesBlock f name T R slot = { res := slot.res, inserted := false } := by
  simp [mosfetSeries.seriesBlock, h, disableResistor]

/-- Running a terminal block twice with the same parameters leaves what one
run leaves. -/
theorem mosfetSeries.seriesBlock_idem (f : resistor K → resistor K) (name : String)
    (T R : K) (slot : SeriesSlot K) :
    mosfetSeries.seriesBlock f name T R (mosfetSeries.seriesBlock f name T R slot) =
      mosfetSeries.seriesBlock f name T R slot := by
  by_cases h : R = 0
  · rw [mosfetSeries.seriesBlock_of_eq f name T R _ h,
      mosfetSeries.seriesBlock_of_eq f name T R _ h]
  · rw [mosfetSeries.seriesBlock_of_ne f name T R _ h,
      mosfetSeries.seriesBlock_of_ne f name T R _ h]

end Series

/-- C24: `mosfet::initDC` derives `Rs` and `Rd` from the properties plus the
sheet contributions `Rsh * Nrs` and `Rsh * Nrd`; the series resistor at the
source, gate and drain is inserted exactly when `Rs`, `Rg`, `Rd` is non-zero,
then carrying the properties `Temp`, `R` and `Controlled`, and is disabled
otherwise; calling `initDC` twice with unchanged parameters leaves the same
auxiliary resistors with the same properties as calling it once. -/
theorem C24_series_resistors {K : Type} [LinearOrderedField K]
    (resistorInitDC : resistor K → resistor K) (m : mosfetSeries K) :
    (mosfetSeries.initDC resistorInitDC m).Rs =
      (if 0 < m.Rsh ∧ 0 < m.Nrs then m.Rs_property + m.Rsh * m.Nrs else m.Rs_property) ∧
    (mosfetSeries.initDC resistorInitDC m).Rd =
      (if 0 < m.Rsh ∧ 0 < m.Nrd then m.Rd_property + m.Rsh * m.Nrd else m.Rd_property) ∧
    ((mosfetSeries.initDC resistorInitDC m).rs.inserted = true ↔
      (mosfetSeries.initDC resistorInitDC m).Rs ≠ 0) ∧
    ((mosfetSeries.initDC resistorInitDC m).rg.inserted = true ↔ m.Rg ≠ 0) ∧
    ((mosfetSeries.initDC resistorInitDC m).rd.inserted = true ↔
      (mosfetSeries.initDC resistorInitDC m).Rd ≠ 0) ∧
    (mosfetSeries.initDC resistorInitDC m).rs =
      (if (mosfetSeries.initDC resistorInitDC m).Rs ≠ 0 then
        { res := some (resistorInitDC
            { Temp := some m.Temp, R := some (mosfetSeries.initDC resistorInitDC m).Rs,
              Controlled := some m.name }),
          inserted := true }
      else disableResistor m.rs) ∧
    (mosfetSeries.initDC resistorInitDC m).rg =
      (if m.Rg ≠ 0 then
        { res := some (resistorInitDC
            { Temp := some m.Temp, R := some m.Rg, Controlled := some m.name }),
          inserted := true }
      else disableResistor m.rg) ∧
    (mosfetSeries.initDC resistorInitDC m).rd =
      (if (mosfetSeries.initDC resistorInitDC m).Rd ≠ 0 then
        { res := some (resistorInitDC
            { Temp := some m.Temp, R := some (mosfetSeries.initDC resistorInitDC m).Rd,
              Controlled := some m.name }),
          inserted := true }
      else disableResistor m.rd) ∧
    mosfetSeries.initDC resistorInitDC (mosfetSeries.initDC resistorInitDC m) =
      mosfetSeries.initDC resistorInitDC m := by
  have hRs : (mosfetSeries.initDC resistorInitDC m).Rs =
      (if 0 < m.Rsh ∧ 0 < m.Nrs then m.Rs_property + m.Rsh * m.Nrs else m.Rs_property) := by
    simp only [mosfetSeries.initDC, mosfetSeries.initModel_R, gt_iff_lt]
    split_ifs <;> simp_all
  have hRd : (mosfetSeries.initDC resistorInitDC m).Rd =
      (if 0 < m.Rsh ∧ 0 < m.Nrd then m.Rd_property + m.Rsh * m.Nrd else m.Rd_property) := by
    simp only [mosfetSeries.initDC, mosfetSeries.initModel_R, gt_iff_lt]
    split_ifs <;> simp_all
  have hrs : (mosfetSeries.initDC resistorInitDC m).rs =
      mosfetSeries.seriesBlock resistorInitDC m.name m.Temp
        (mosfetSeries.initDC resistorInitDC m).Rs m.rs := rfl
  have hrg : (mosfetSeries.initDC resistorInitDC m).rg =
      mosfetSeries.seriesBlock resistorInitDC m.name m.Temp m.Rg m.rg := rfl
  have hrd : (mosfetSeries.initDC resistorInitDC m).rd =
      mosfetSeries.seriesBlock resistorInitDC m.name m.Temp
        (mosfetSeries.initDC resistorInitDC m).Rd m.rd := rfl
  refine ⟨hRs, hRd, ?_, ?_, ?_, ?_, ?_, ?_, ?_⟩
  · rw [hrs]
    by_cases h : (mosfetSeries.initDC resistorInitDC m).Rs = 0
    · rw [mosfetSeries.seriesBlock_of_eq _ _ _ _ _ h]; simp [h]
    · rw [mosfetSeries.seriesBlock_of_ne _ _ _ _ _ h]; simp [h]
  · rw [hrg]
    by_cases h : m.Rg = 0
    · rw [mosfetSeries.seriesBlock_of_eq _ _ _ _ _ h]; simp [h]
    · rw [mosfetSeries.seriesBlock_of_ne _ _ _ _ _ h]; simp [h]
  · rw [hrd]
    by_cases h : (mosfetSeries.initDC resistorInitDC m).Rd = 0
    · rw [mosfetSeries.seriesBlock_of_eq _ _ _ _ _ h]; simp [h]
    · rw [mosfetSeries.seriesBlock_of_ne _ _ _ _ _ h]; simp [h]
  · rw [hrs]
    by_cases h : (mosfetSeries.initDC resistorInitDC m).Rs = 0
    · rw [mosfetSeries.seriesBlock_of_eq _ _ _ _ _ h]; simp [h, disableResistor]
    · rw [mosfetSeries.seriesBlock_of_ne _ _ _ _ _ h]; simp [h]
  · rw [hrg]
    by_cases h : m.Rg = 0
    · rw [mosfetSeries.seriesBlock_of_eq _ _ _ _ _ h]; simp [h, disableResistor]
    · rw [mosfetSeries.seriesBlock_of_ne _ _ _ _ _ h]; simp [h]
  · rw [hrd]
    by_cases h : (mosfetSeries.initDC resistorInitDC m).Rd = 0
    · rw [mosfetSeries.seriesBlock_of_eq _ _ _ _ _ h]; simp [h, disableResistor]
    · rw [mosfetSeries.seriesBlock_of_ne _ _ _ _ _ h]; simp [h]
  · simp only [mosfetSeries.initDC, mosfetSeries.initModel_R, mosfetSeries.seriesBlock_idem]

/-! ## The noise current correlation matrix of the MOSFET -/

/-- The entries written by `mosfet::calcMatrixCy`: `+i` at (D,D) and (S,S),
`-i` at (D,S) and (S,D), zero elsewhere, for any power function. -/
theorem mosfet.calcMatrixCy_entries {K : Type} [LinearOrderedField K] (pow : K → K → K)
    (kelvin : K → K) (T0 kB Kf Af Ffe T : K) (op : mosfet.OperatingPoints K) (f : K)
    (a b : Fin 4) :
    mosfet.calcMatrixCy pow kelvin T0 kB Kf Af Ffe T op f a b =
      if (a = NODE_D ∧ b = NODE_D) ∨ (a = NODE_S ∧ b = NODE_S) then
        complex.ofReal (mosfet.noiseDensity pow kelvin T0 kB Kf Af Ffe T op f)
      else if (a = NODE_D ∧ b = NODE_S) ∨ (a = NODE_S ∧ b = NODE_D) then
        complex.ofReal (-mosfet.noiseDensity pow kelvin T0 kB Kf Af Ffe T op f)
      else 0 := by
  fin_cases a <;> fin_cases b <;>
    simp +decide [mosfet.calcMatrixCy, mosfet.noiseDensity, circuit.setEntry,
      NODE_D, NODE_S]

/-- C25: with the real power function and positive constants `T0` and `kB`,
`mosfet::calcMatrixCy` returns the matrix whose entries are `+i` at (D,D) and
(S,S), `-i` at (D,S) and (S,D) and zero elsewhere, with
`i = 8 * kelvin T / T0 * |gm| / 3 + Kf * |Id| ^ Af / f ^ Ffe / kB / T0`; the
matrix is symmetric, real, has zero row and column sums, and for `f > 0`,
`Kf ≥ 0` and `kelvin T ≥ 0` the density `i` is non-negative and the matrix is
positive semidefinite. -/
theorem C25_noise_correlation (kelvin : ℝ → ℝ) (T0 kB Kf Af Ffe T : ℝ)
    (op : mosfet.OperatingPoints ℝ) (f : ℝ) (hT0 : 0 < T0) (hkB : 0 < kB) (hKf : 0 ≤ Kf)
    (hT : 0 ≤ kelvin T) (hf : 0 < f) :
    mosfet.noiseDensity (fun x y => x ^ y) kelvin T0 kB Kf Af Ffe T op f =
      8 * kelvin T / T0 * |op.gm| / 3 + Kf * |op.Id| ^ Af / f ^ Ffe / kB / T0 ∧
    (∀ a b, mosfet.calcMatrixCy (fun x y => x ^ y) kelvin T0 kB Kf Af Ffe T op f a b =
      if (a = NODE_D ∧ b = NODE_D) ∨ (a = NODE_S ∧ b = NODE_S) then
        complex.ofReal (mosfet.noiseDensity (fun x y => x ^ y) kelvin T0 kB Kf Af Ffe T op f)
      else if (a = NODE_D ∧ b = NODE_S) ∨ (a = NODE_S ∧ b = NODE_D) then
        complex.ofReal (-mosfet.noiseDensity (fun x y => x ^ y) kelvin T0 kB Kf Af Ffe T op f)
      else 0) ∧
    (∀ a b, mosfet.calcMatrixCy (fun x y => x ^ y) kelvin T0 kB Kf Af Ffe T op f a b =
      mosfet.calcMatrixCy (fun x y => x ^ y) kelvin T0 kB Kf Af Ffe T op f b a) ∧
    (∀ a, mosfet.calcMatrixCy (fun x y => x ^ y) kelvin T0 kB Kf Af Ffe T op f a 0 +
      mosfet.calcMatrixCy (fun x y => x ^ y) kelvin T0 kB Kf Af Ffe T op f a 1 +
      mosfet.calcMatrixCy (fun x y => x ^ y) kelvin T0 kB Kf Af Ffe T op f a 2 +
      mosfet.calcMatrixCy (fun x y => x ^ y) kelvin T0 kB Kf Af Ffe T op f a 3 = 0) ∧
    (∀ b, mosfet.calcMatrixCy (fun x y => x ^ y) kelvin T0 kB Kf Af Ffe T op f 0 b +
      mosfet.calcMatrixCy (fun x y => x ^ y) kelvin T0 kB Kf Af Ffe T op f 1 b +
      mosfet.calcMatrixCy (fun x y => x ^ y) kelvin T0 kB Kf Af Ffe T op f 2 b +
      mosfet.calcMatrixCy (fun x y => x ^ y) kelvin T0 kB Kf Af Ffe T op f 3 b = 0) ∧
    0 ≤ mosfet.noiseDensity (fun x y => x ^ y) kelvin T0 kB Kf Af Ffe T op f ∧
    (∀ a b, (mosfet.calcMatrixCy (fun x y => x ^ y) kelvin T0 kB Kf Af Ffe T op f a b).i = 0) ∧
    (∀ x : Fin 4 → ℝ, 0 ≤ ∑ a, ∑ b,
      x a * (mosfet.calcMatrixCy (fun x y => x ^ y) kelvin T0 kB Kf Af Ffe T op f a b).r * x b)
    := by
  have hi : 0 ≤ mosfet.noiseDensity (fun x y => x ^ y) kelvin T0 kB Kf Af Ffe T op f := by
    unfold mosfet.noiseDensity
    have h1 : 0 ≤ |op.Id| ^ Af := Real.rpow_nonneg (abs_nonneg _) _
    have h2 : 0 < f ^ Ffe := Real.rpow_pos_of_pos hf _
    have h3 : 0 ≤ |op.gm| := abs_nonneg _
    positivity
  have he := mosfet.calcMatrixCy_entries (fun x y => x ^ y) kelvin T0 kB Kf Af Ffe T op f
  refine ⟨rfl, he, ?_, ?_, ?_, hi, ?_, ?_⟩
  · intro a b
    rw [he, he]
    fin_cases a <;> fin_cases b <;> simp +decide [NODE_D, NODE_S]
  · intro a
    simp only [he]
    fin_cases a <;> simp +decide [NODE_D, NODE_S, complex.ext_iff]
  · intro b
    simp only [he]
    fin_cases b <;> simp +decide [NODE_D, NODE_S, complex.ext_iff]
  · intro a b
    rw [he]
    fin_cases a <;> fin_cases b <;> simp +decide [NODE_D, NODE_S]
  · intro x
    simp only [he]
    generalize mosfet.noiseDensity (fun x y => x ^ y) kelvin T0 kB Kf Af Ffe T op f = i at hi
    simp +decide [Fin.sum_univ_four, NODE_D, NODE_S]
    nlinarith [mul_nonneg hi (sq_nonneg (x 1 - x 2))]

/-- C25 for a device at 27 degrees Celsius with `gm = -2`, `Id = -3`,
`Kf = 1`, `Af = 1`, `Ffe = 1` at `f = 1`, with `T0 = 290` and `kB = 1`: the
density is non-negative and the (D,S) entry is real. -/
theorem C25_noise_correlation_witness :
    (0 : ℝ) < 290 ∧ (0 : ℝ) < 1 ∧ (0 : ℝ) ≤ 1 ∧ (0 : ℝ) ≤ 27 + 273.15 ∧ (0 : ℝ) < 1 ∧
    0 ≤ mosfet.noiseDensity (fun x y : ℝ => x ^ y) (fun T : ℝ => T + 273.15) 290 1 1 1 1 27
      { Id := -3, gm := -2, gmb := 0, gds := 0, Vth := 0, Vdsat := 0, gbs := 0, gbd := 0,
        Cbd := 0, Cbs := 0, Cgs := 0, Cgd := 0, Cgb := 0 } (1 : ℝ) :=
  ⟨by norm_num, by norm_num, by norm_num, by norm_num, by norm_num,
    (C25_noise_correlation (fun T : ℝ => T + 273.15) 290 1 1 1 1 27
      { Id := -3, gm := -2, gmb := 0, gds := 0, Vth := 0, Vdsat := 0, gbs := 0, gbd := 0,
        Cbd := 0, Cbs := 0, Cgs := 0, Cgd := 0, Cgb := 0 } 1
      (by norm_num) (by norm_num) (by norm_num) (by norm_num) (by norm_num)).2.2.2.2.2.1⟩

/-! ## The equation evaluator -/

/-- C27 fails on the code: at `d = -1` the function `evaluate::abs_d`
returns its argument `-1` unchanged, which is negative and differs both from
the absolute value `|-1| = 1` and from the value `1` that `evaluate::abs_c`
returns on the complex number `-1 + 0j`. -/
theorem C27_abs_d_negative :
    evaluate.abs_d (-1 : ℝ) = constant.TAG_DOUBLE (-1) ∧
    evaluate.abs_c Real.sqrt (complex.ofReal (-1 : ℝ)) = constant.TAG_DOUBLE 1 ∧
    evaluate.abs_d (-1 : ℝ) ≠ constant.TAG_DOUBLE |(-1 : ℝ)| ∧
    evaluate.abs_d (-1 : ℝ) ≠ evaluate.abs_c Real.sqrt (complex.ofReal (-1 : ℝ)) := by
  have h2 : evaluate.abs_c Real.sqrt (complex.ofReal (-1 : ℝ)) = constant.TAG_DOUBLE 1 := by
    simp [evaluate.abs_c, complex.abs, complex.norm]
  refine ⟨rfl, h2, ?_, ?_⟩
  · simp [evaluate.abs_d]
    norm_num
  · rw [h2]
    simp [evaluate.abs_d]
    norm_num

/-- C28: for every real `d`, `evaluate::sqrt_d` returns a complex constant
`c` with `c * c = d`: `sqrt d + 0j` when `d ≥ 0` and `0 + j * sqrt (-d)` when
`d < 0`, so its real and imaginary parts are non-negative. -/
theorem C28_sqrt_d (d : ℝ) :
    ∃ c, evaluate.sqrt_d Real.sqrt d = constant.TAG_COMPLEX c ∧
      c = (if d < 0 then ⟨0, Real.sqrt (-d)⟩ else ⟨Real.sqrt d, 0⟩) ∧
      c * c = complex.ofReal d ∧ 0 ≤ c.r ∧ 0 ≤ c.i := by
  by_cases h : d < 0
  · refine ⟨⟨0, Real.sqrt (-d)⟩, by simp [evaluate.sqrt_d, h], by simp [h], ?_, le_refl 0,
      Real.sqrt_nonneg _⟩
    rw [complex.ext_iff]
    have := Real.mul_self_sqrt (show 0 ≤ -d by linarith)
    constructor
    · simp only [complex.mul_r, complex.ofReal_r]
      linarith
    · simp
  · refine ⟨⟨Real.sqrt d, 0⟩, by simp [evaluate.sqrt_d, h, complex.ofReal], by simp [h], ?_,
      Real.sqrt_nonneg _, le_refl 0⟩
    rw [complex.ext_iff]
    have := Real.mul_self_sqrt (not_lt.mp h)
    constructor
    · simp only [complex.mul_r, complex.ofReal_r]
      linarith
    · simp

/-! ## Trapezoidal charge integration -/

/-- C29: `mosfet::transientChargeTR` stores `cap` in slot `qstate + 3` and
`v` in slot `qstate + 2` and writes no other slot, replaces `cap` by
`(cap + cap1) / 2 + ccap` with `cap1` the previous-step value of slot
`qstate + 3`, and returns `newcap * (v - v1) + q1` with `v1` and `q1` the
previous-step values of slots `qstate + 2` and `qstate`. -/
theorem C29_transientChargeTR {K : Type} [LinearOrderedField K] (st : States K)
    (qstate : Nat) (cap v ccap : K) :
    (mosfet.transientChargeTR st qstate cap v ccap).1 =
      setState (setState st (qstate + 3) cap) (qstate + 2) v ∧
    (∀ q n, (mosfet.transientChargeTR st qstate cap v ccap).1 q n =
      if q = qstate + 2 ∧ n = 0 then v
      else if q = qstate + 3 ∧ n = 0 then cap else st q n) ∧
    (mosfet.transientChargeTR st qstate cap v ccap).2.1 =
      (cap + getState st (qstate + 3) 1) / 2 + ccap ∧
    (mosfet.transientChargeTR st qstate cap v ccap).2.2 =
      ((cap + getState st (qstate + 3) 1) / 2 + ccap) * (v - getState st (qstate + 2) 1) +
        getState st qstate 1 := by
  refine ⟨rfl, fun q n => rfl, ?_, ?_⟩
  · simp [mosfet.transientChargeTR, getState, setState]
  · simp [mosfet.transientChargeTR, getState, setState]

/-! ## The floor conductance of the body diodes -/

section BodyDiodes

variable {K : Type} [LinearOrderedField K]

/-- The bulk-source conductance left by `calcDC` is the junction conductance
plus the saturation current. -/
theorem mosfet.calcDC_gbs (lib : DeviceLib K) (m : mosfet K) :
    (mosfet.calcDC lib m).gbs =
      (lib.pnJunctionMOS (mosfet.calcDC lib m).Ubs m.Iss (mosfet.Ut lib m * m.N)).2 + m.Iss := by
  simp only [mosfet.calcDC, mosfet.calcDC_stamp, mosfet.calcDC_channel, mosfet.calcDC_diodes,
    mosfet.Ut, mosfet.calcDC_limit_Iss, mosfet.calcDC_limit_N, mosfet.calcDC_limit_Temp]

/-- The bulk-source current left by `calcDC`. -/
theorem mosfet.calcDC_Ibs (lib : DeviceLib K) (m : mosfet K) :
    (mosfet.calcDC lib m).Ibs =
      (lib.pnJunctionMOS (mosfet.calcDC lib m).Ubs m.Iss (mosfet.Ut lib m * m.N)).1 +
        m.Iss * (mosfet.calcDC lib m).Ubs := by
  simp only [mosfet.calcDC, mosfet.calcDC_stamp, mosfet.calcDC_channel, mosfet.calcDC_diodes,
    mosfet.Ut, mosfet.calcDC_limit_Iss, mosfet.calcDC_limit_N, mosfet.calcDC_limit_Temp]

/-- The bulk-drain conductance left by `calcDC`. -/
theorem mosfet.calcDC_gbd (lib : DeviceLib K) (m : mosfet K) :
    (mosfet.calcDC lib m).gbd =
      (lib.pnJunctionMOS (mosfet.calcDC lib m).Ubd m.Isd (mosfet.Ut lib m * m.N)).2 + m.Isd := by
  simp only [mosfet.calcDC, mosfet.calcDC_stamp, mosfet.calcDC_channel, mosfet.calcDC_diodes,
    mosfet.Ut, mosfet.calcDC_limit_Isd, mosfet.calcDC_limit_N, mosfet.calcDC_limit_Temp]

/-- The bulk-drain current left by `calcDC`. -/
theorem mosfet.calcDC_Ibd (lib : DeviceLib K) (m : mosfet K) :
    (mosfet.calcDC lib m).Ibd =
      (lib.pnJunctionMOS (mosfet.calcDC lib m).Ubd m.Isd (mosfet.Ut lib m * m.N)).1 +
        m.Isd * (mosfet.calcDC lib m).Ubd := by
  simp only [mosfet.calcDC, mosfet.calcDC_stamp, mosfet.calcDC_channel, mosfet.calcDC_diodes,
    mosfet.Ut, mosfet.calcDC_limit_Isd, mosfet.calcDC_limit_N, mosfet.calcDC_limit_Temp]

/-- The bulk entry of the current vector written by `calcDC`:
`(-IeqBD - IeqBS) * pol`. -/
theorem mosfet.calcDC_VectorI_B (lib : DeviceLib K) (m : mosfet K) :
    (mosfet.calcDC lib m).VectorI NODE_B =
      complex.ofReal ((-((mosfet.calcDC lib m).Ibd - (mosfet.calcDC lib m).gbd *
        (mosfet.calcDC lib m).Ubd) - ((mosfet.calcDC lib m).Ibs - (mosfet.calcDC lib m).gbs *
        (mosfet.calcDC lib m).Ubs)) * m.pol) := by
  simp +decide only [mosfet.calcDC, mosfet.calcDC_stamp, mosfet.calcDC_channel,
    mosfet.calcDC_diodes, circuit.setI, circuit.setY, circuit.setEntry, NODE_B,
    mosfet.calcDC_limit_pol, if_true]

end BodyDiodes

/-- C30: after `mosfet::calcDC`, with `(IJ, gJ)` the `pnJunctionMOS` result
at the limited `Ubs` and `(IJd, gJd)` the one at `Ubd`: `gbs = gJ + Iss`,
`Ibs = IJ + Iss * Ubs`, `gbd = gJd + Isd`, `Ibd = IJd + Isd * Ubd`; when
`gJ ≥ 0` and `Iss > 0` then `gbs ≥ Iss` and `gbs > 0`; the equivalent
currents `Ibs - gbs * Ubs` and `Ibd - gbd * Ubd` equal `IJ - gJ * Ubs` and
`IJd - gJd * Ubd`, independent of the floor, and so does the bulk entry of
the current vector built from them. -/
theorem C30_body_diode_floor {K : Type} [LinearOrderedField K] (lib : DeviceLib K)
    (m : mosfet K)
    (hg : 0 ≤ (lib.pnJunctionMOS (mosfet.calcDC lib m).Ubs m.Iss (mosfet.Ut lib m * m.N)).2)
    (hI : 0 < m.Iss) :
    (mosfet.calcDC lib m).gbs =
      (lib.pnJunctionMOS (mosfet.calcDC lib m).Ubs m.Iss (mosfet.Ut lib m * m.N)).2 + m.Iss ∧
    (mosfet.calcDC lib m).Ibs =
      (lib.pnJunctionMOS (mosfet.calcDC lib m).Ubs m.Iss (mosfet.Ut lib m * m.N)).1 +
        m.Iss * (mosfet.calcDC lib m).Ubs ∧
    (mosfet.calcDC lib m).gbd =
      (lib.pnJunctionMOS (mosfet.calcDC lib m).Ubd m.Isd (mosfet.Ut lib m * m.N)).2 + m.Isd ∧
    (mosfet.calcDC lib m).Ibd =
      (lib.pnJunctionMOS (mosfet.calcDC lib m).Ubd m.Isd (mosfet.Ut lib m * m.N)).1 +
        m.Isd * (mosfet.calcDC lib m).Ubd ∧
    m.Iss ≤ (mosfet.calcDC lib m).gbs ∧ 0 < (mosfet.calcDC lib m).gbs ∧
    (mosfet.calcDC lib m).Ibs - (mosfet.calcDC lib m).gbs * (mosfet.calcDC lib m).Ubs =
      (lib.pnJunctionMOS (mosfet.calcDC lib m).Ubs m.Iss (mosfet.Ut lib m * m.N)).1 -
      (lib.pnJunctionMOS (mosfet.calcDC lib m).Ubs m.Iss (mosfet.Ut lib m * m.N)).2 *
        (mosfet.calcDC lib m).Ubs ∧
    (mosfet.calcDC lib m).Ibd - (mosfet.calcDC lib m).gbd * (mosfet.calcDC lib m).Ubd =
      (lib.pnJunctionMOS (mosfet.calcDC lib m).Ubd m.Isd (mosfet.Ut lib m * m.N)).1 -
      (lib.pnJunctionMOS (mosfet.calcDC lib m).Ubd m.Isd (mosfet.Ut lib m * m.N)).2 *
        (mosfet.calcDC lib m).Ubd ∧
    (mosfet.calcDC lib m).VectorI NODE_B =
      complex.ofReal ((-((lib.pnJunctionMOS (mosfet.calcDC lib m).Ubd m.Isd
          (mosfet.Ut lib m * m.N)).1 -
        (lib.pnJunctionMOS (mosfet.calcDC lib m).Ubd m.Isd (mosfet.Ut lib m * m.N)).2 *
          (mosfet.calcDC lib m).Ubd) -
        ((lib.pnJunctionMOS (mosfet.calcDC lib m).Ubs m.Iss (mosfet.Ut lib m * m.N)).1 -
        (lib.pnJunctionMOS (mosfet.calcDC lib m).Ubs m.Iss (mosfet.Ut lib m * m.N)).2 *
          (mosfet.calcDC lib m).Ubs)) * m.pol) := by
  have e1 := mosfet.calcDC_gbs lib m
  have e2 := mosfet.calcDC_Ibs lib m
  have e3 := mosfet.calcDC_gbd lib m
  have e4 := mosfet.calcDC_Ibd lib m
  have e5 := mosfet.calcDC_VectorI_B lib m
  refine ⟨e1, e2, e3, e4, ?_, ?_, ?_, ?_, ?_⟩
  · rw [e1]; linarith
  · rw [e1]; linarith
  · rw [e1, e2]; ring
  · rw [e3, e4]; ring
  · rw [e5, e1, e2, e3, e4]
    congr 1
    ring

/-- C30 on the sample device with gate at 3 V and drain at 1 V, with the
junction linearised at zero bias: the junction conductance is non-negative,
the saturation current is `1`, and the bulk-source conductance is at least
that floor. -/
theorem C30_body_diode_floor_witness :
    0 ≤ (testLib.pnJunctionMOS (mosfet.calcDC testLib (mosfet.sample 3 1 0 0)).Ubs
      (mosfet.sample (3 : ℚ) 1 0 0).Iss
      (mosfet.Ut testLib (mosfet.sample 3 1 0 0) * (mosfet.sample (3 : ℚ) 1 0 0).N)).2 ∧
    (0 : ℚ) < (mosfet.sample (3 : ℚ) 1 0 0).Iss ∧
    (mosfet.sample (3 : ℚ) 1 0 0).Iss ≤ (mosfet.calcDC testLib (mosfet.sample 3 1 0 0)).gbs ∧
    0 < (mosfet.calcDC testLib (mosfet.sample 3 1 0 0)).gbs := by
  have hI : (0 : ℚ) < (mosfet.sample (3 : ℚ) 1 0 0).Iss := by
    simp [mosfet.sample]
  have hg : 0 ≤ (testLib.pnJunctionMOS (mosfet.calcDC testLib (mosfet.sample 3 1 0 0)).Ubs
      (mosfet.sample (3 : ℚ) 1 0 0).Iss
      (mosfet.Ut testLib (mosfet.sample 3 1 0 0) * (mosfet.sample (3 : ℚ) 1 0 0).N)).2 := by
    simp only [testLib, DeviceLib.unlimited, linearJunction, mosfet.Ut, mosfet.sample]
    norm_num
  have h := C30_body_diode_floor testLib (mosfet.sample 3 1 0 0) hg hI
  exact ⟨hg, hI, h.2.2.2.2.1, h.2.2.2.2.2.1⟩

/-! ## Kirchhoff sums of the MOSFET stamps -/

section Kirchhoff

variable {K : Type} [LinearOrderedField K]

/-- The conduction direction is `+1` or `-1`. -/
theorem mosfet.dirOf_cases (Uds : K) : mosfet.dirOf Uds = 1 ∨ mosfet.dirOf Uds = -1 := by
  unfold mosfet.dirOf
  split_ifs
  · exact Or.inl rfl
  · exact Or.inr rfl

/-- The direction left by `calcDC` is `+1` or `-1`. -/
theorem mosfet.calcDC_MOSdir_cases (lib : DeviceLib K) (m : mosfet K) :
    (mosfet.calcDC lib m).MOSdir = 1 ∨ (mosfet.calcDC lib m).MOSdir = -1 :=
  mosfet.dirOf_cases (mosfet.calcDC_limit lib m).Uds

/-- The control terms the stamp of `calcDC` leaves. -/
theorem mosfet.calcDC_stamp_controls (X : mosfet K) :
    (mosfet.calcDC_stamp X).SourceControl = (if X.MOSdir > 0 then X.gm + X.gmb else 0) ∧
    (mosfet.calcDC_stamp X).DrainControl = (if X.MOSdir < 0 then X.gm + X.gmb else 0) :=
  ⟨rfl, rfl⟩

/-- With a direction of `+1` or `-1` exactly one control term carries
`gm + gmb`. -/
theorem mosfet.calcDC_stamp_controls_sum (X : mosfet K)
    (h : X.MOSdir = 1 ∨ X.MOSdir = -1) :
    (mosfet.calcDC_stamp X).SourceControl + (mosfet.calcDC_stamp X).DrainControl =
      X.gm + X.gmb := by
  rw [(mosfet.calcDC_stamp_controls X).1, (mosfet.calcDC_stamp_controls X).2]
  rcases h with h | h <;> rw [h] <;> norm_num

/-- The current entries written by the stamp of `calcDC`, entry by entry. -/
theorem mosfet.calcDC_stamp_VectorI (X : mosfet K) :
    (mosfet.calcDC_stamp X).VectorI NODE_G = complex.ofReal 0 ∧
    (mosfet.calcDC_stamp X).VectorI NODE_D = complex.ofReal
      (((X.Ibd - X.gbd * X.Ubd) - (if X.MOSdir > 0
        then X.Ids - X.gm * X.Ugs - X.gmb * X.Ubs - X.gds * X.Uds
        else X.Ids - X.gm * X.Ugd - X.gmb * X.Ubd - X.gds * X.Uds)) * X.pol) ∧
    (mosfet.calcDC_stamp X).VectorI NODE_S = complex.ofReal
      (((X.Ibs - X.gbs * X.Ubs) + (if X.MOSdir > 0
        then X.Ids - X.gm * X.Ugs - X.gmb * X.Ubs - X.gds * X.Uds
        else X.Ids - X.gm * X.Ugd - X.gmb * X.Ubd - X.gds * X.Uds)) * X.pol) ∧
    (mosfet.calcDC_stamp X).VectorI NODE_B = complex.ofReal
      ((-(X.Ibd - X.gbd * X.Ubd) - (X.Ibs - X.gbs * X.Ubs)) * X.pol) := by
  simp +decide [mosfet.calcDC_stamp, circuit.setY, circuit.setI, circuit.setEntry,
    NODE_G, NODE_D, NODE_S, NODE_B]

/-- Column sums of the stamp of `calcDC` vanish for all values. -/
theorem mosfet.calcDC_stamp_columns (X : mosfet K) (b : Fin 4) :
    (mosfet.calcDC_stamp X).MatrixY 0 b + (mosfet.calcDC_stamp X).MatrixY 1 b +
      (mosfet.calcDC_stamp X).MatrixY 2 b + (mosfet.calcDC_stamp X).MatrixY 3 b = 0 := by
  obtain ⟨⟨g1, g2, g3, g4⟩, ⟨d1, d2, d3, d4⟩, ⟨s1, s2, s3, s4⟩, ⟨b1, b2, b3, b4⟩⟩ :=
    mosfet.calcDC_stamp_MatrixY X
  simp only [NODE_G, NODE_D, NODE_S, NODE_B] at g1 g2 g3 g4 d1 d2 d3 d4 s1 s2 s3 s4 b1 b2 b3 b4
  fin_cases b <;>
    simp only [Fin.zero_eta, Fin.mk_one, Fin.reduceFinMk, g1, g2, g3, g4, d1, d2, d3, d4, s1, s2,
      s3, s4, b1, b2, b3, b4, complex.ext_iff, complex.add_r, complex.add_i, complex.ofReal_r,
      complex.ofReal_i, complex.zero_r, complex.zero_i] <;>
    constructor <;> ring

/-- Row sums of the stamp of `calcDC` vanish when the control terms add up
to `gm + gmb`. -/
theorem mosfet.calcDC_stamp_rows (X : mosfet K)
    (h : (mosfet.calcDC_stamp X).SourceControl + (mosfet.calcDC_stamp X).DrainControl =
      X.gm + X.gmb) (a : Fin 4) :
    (mosfet.calcDC_stamp X).MatrixY a 0 + (mosfet.calcDC_stamp X).MatrixY a 1 +
      (mosfet.calcDC_stamp X).MatrixY a 2 + (mosfet.calcDC_stamp X).MatrixY a 3 = 0 := by
  obtain ⟨⟨g1, g2, g3, g4⟩, ⟨d1, d2, d3, d4⟩, ⟨s1, s2, s3, s4⟩, ⟨b1, b2, b3, b4⟩⟩ :=
    mosfet.calcDC_stamp_MatrixY X
  rw [(mosfet.calcDC_stamp_controls X).1, (mosfet.calcDC_stamp_controls X).2] at h
  simp only [NODE_G, NODE_D, NODE_S, NODE_B] at g1 g2 g3 g4 d1 d2 d3 d4 s1 s2 s3 s4 b1 b2 b3 b4
  fin_cases a <;>
    simp only [Fin.zero_eta, Fin.mk_one, Fin.reduceFinMk, g1, g2, g3, g4, d1, d2, d3, d4, s1, s2,
      s3, s4, b1, b2, b3, b4, complex.ext_iff, complex.add_r, complex.add_i, complex.ofReal_r,
      complex.ofReal_i, complex.zero_r, complex.zero_i] <;>
    constructor <;> linarith

/-- The four current entries written by the stamp of `calcDC` add up to
zero. -/
theorem mosfet.calcDC_stamp_currents (X : mosfet K) :
    (mosfet.calcDC_stamp X).VectorI 0 + (mosfet.calcDC_stamp X).VectorI 1 +
      (mosfet.calcDC_stamp X).VectorI 2 + (mosfet.calcDC_stamp X).VectorI 3 = 0 := by
  obtain ⟨i1, i2, i3, i4⟩ := mosfet.calcDC_stamp_VectorI X
  simp only [NODE_G, NODE_D, NODE_S, NODE_B] at i1 i2 i3 i4
  simp only [i1, i2, i3, i4, complex.ext_iff, complex.add_r, complex.add_i, complex.ofReal_r,
    complex.ofReal_i, complex.zero_r, complex.zero_i]
  constructor <;> ring

end Kirchhoff

section KirchhoffAC

variable {K : Type} [LinearOrderedField K]

/-- Column sums of the matrix returned by `calcMatrixY` vanish for all
values. -/
theorem mosfet.calcMatrixY_columns (pi : K) (op : mosfet.OperatingPoints K) (x : mosfet K)
    (f : K) (b : Fin 4) :
    mosfet.calcMatrixY pi op x f 0 b + mosfet.calcMatrixY pi op x f 1 b +
      mosfet.calcMatrixY pi op x f 2 b + mosfet.calcMatrixY pi op x f 3 b = 0 := by
  fin_cases b <;>
    simp +decide [mosfet.calcMatrixY, circuit.setEntry, NODE_G, NODE_D, NODE_S, NODE_B,
      complex.ext_iff] <;>
    (try constructor) <;> ring1

/-- Row sums of the matrix returned by `calcMatrixY` vanish when the control
terms add up to `gm + gmb`. -/
theorem mosfet.calcMatrixY_rows (pi : K) (op : mosfet.OperatingPoints K) (x : mosfet K)
    (f : K) (h : x.SourceControl + x.DrainControl = op.gm + op.gmb) (a : Fin 4) :
    mosfet.calcMatrixY pi op x f a 0 + mosfet.calcMatrixY pi op x f a 1 +
      mosfet.calcMatrixY pi op x f a 2 + mosfet.calcMatrixY pi op x f a 3 = 0 := by
  fin_cases a <;>
    simp +decide [mosfet.calcMatrixY, circuit.setEntry, NODE_G, NODE_D, NODE_S, NODE_B,
      complex.ext_iff] <;>
    (try constructor) <;> linarith

end KirchhoffAC

/-- C31: for all values, every column of the admittance stamp written by
`mosfet::calcDC` and of the matrix returned by `mosfet::calcMatrixY` sums to
zero; every row sums to zero whenever `SourceControl + DrainControl = gm + gmb`;
`calcDC` always establishes that equation, so the rows of its own stamp sum
to zero for every input; and the four DC current entries sum to zero.  `X` is
the state on which the stamping block of `calcDC` runs, `m` an input of
`calcDC`, and `x`, `op` the object and the operating points read by
`calcMatrixY`. -/
theorem C31_kirchhoff_sums {K : Type} [LinearOrderedField K] (lib : DeviceLib K)
    (m X x : mosfet K) (pi f : K) (op : mosfet.OperatingPoints K)
    (hX : (mosfet.calcDC_stamp X).SourceControl + (mosfet.calcDC_stamp X).DrainControl =
      X.gm + X.gmb)
    (hx : x.SourceControl + x.DrainControl = op.gm + op.gmb) :
    (∀ b, (mosfet.calcDC_stamp X).MatrixY 0 b + (mosfet.calcDC_stamp X).MatrixY 1 b +
      (mosfet.calcDC_stamp X).MatrixY 2 b + (mosfet.calcDC_stamp X).MatrixY 3 b = 0) ∧
    (∀ a, (mosfet.calcDC_stamp X).MatrixY a 0 + (mosfet.calcDC_stamp X).MatrixY a 1 +
      (mosfet.calcDC_stamp X).MatrixY a 2 + (mosfet.calcDC_stamp X).MatrixY a 3 = 0) ∧
    (mosfet.calcDC_stamp X).VectorI 0 + (mosfet.calcDC_stamp X).VectorI 1 +
      (mosfet.calcDC_stamp X).VectorI 2 + (mosfet.calcDC_stamp X).VectorI 3 = 0 ∧
    (mosfet.calcDC lib m).SourceControl + (mosfet.calcDC lib m).DrainControl =
      (mosfet.calcDC lib m).gm + (mosfet.calcDC lib m).gmb ∧
    (∀ b, (mosfet.calcDC lib m).MatrixY 0 b + (mosfet.calcDC lib m).MatrixY 1 b +
      (mosfet.calcDC lib m).MatrixY 2 b + (mosfet.calcDC lib m).MatrixY 3 b = 0) ∧
    (∀ a, (mosfet.calcDC lib m).MatrixY a 0 + (mosfet.calcDC lib m).MatrixY a 1 +
      (mosfet.calcDC lib m).MatrixY a 2 + (mosfet.calcDC lib m).MatrixY a 3 = 0) ∧
    (mosfet.calcDC lib m).VectorI 0 + (mosfet.calcDC lib m).VectorI 1 +
      (mosfet.calcDC lib m).VectorI 2 + (mosfet.calcDC lib m).VectorI 3 = 0 ∧
    (∀ b, mosfet.calcMatrixY pi op x f 0 b + mosfet.calcMatrixY pi op x f 1 b +
      mosfet.calcMatrixY pi op x f 2 b + mosfet.calcMatrixY pi op x f 3 b = 0) ∧
    (∀ a, mosfet.calcMatrixY pi op x f a 0 + mosfet.calcMatrixY pi op x f a 1 +
      mosfet.calcMatrixY pi op x f a 2 + mosfet.calcMatrixY pi op x f a 3 = 0) := by
  have hd := mosfet.calcDC_stamp_controls_sum
    (mosfet.calcDC_channel lib (mosfet.calcDC_diodes lib (mosfet.calcDC_limit lib m)))
    (mosfet.dirOf_cases (mosfet.calcDC_limit lib m).Uds)
  exact ⟨mosfet.calcDC_stamp_columns X, mosfet.calcDC_stamp_rows X hX,
    mosfet.calcDC_stamp_currents X, hd, mosfet.calcDC_stamp_columns _,
    mosfet.calcDC_stamp_rows _ hd, mosfet.calcDC_stamp_currents _,
    mosfet.calcMatrixY_columns pi op x f, mosfet.calcMatrixY_rows pi op x f hx⟩

/-- C31 on the state left by a forward solve of the sample device (gate 3 V,
drain 1 V), stamped again and read by `calcMatrixY` with the operating points
saved from it: both hypotheses hold and the drain rows sum to zero. -/
theorem C31_kirchhoff_sums_witness :
    (mosfet.calcDC_stamp (mosfet.calcDC testLib (mosfet.sample 3 1 0 0))).SourceControl +
      (mosfet.calcDC_stamp (mosfet.calcDC testLib (mosfet.sample 3 1 0 0))).DrainControl =
      (mosfet.calcDC testLib (mosfet.sample 3 1 0 0)).gm +
        (mosfet.calcDC testLib (mosfet.sample 3 1 0 0)).gmb ∧
    (mosfet.calcDC testLib (mosfet.sample 3 1 0 0)).SourceControl +
      (mosfet.calcDC testLib (mosfet.sample 3 1 0 0)).DrainControl =
      (mosfet.saveOperatingPointsDC (mosfet.calcDC testLib (mosfet.sample 3 1 0 0))
        0 0 0 0 0).gm +
      (mosfet.saveOperatingPointsDC (mosfet.calcDC testLib (mosfet.sample 3 1 0 0))
        0 0 0 0 0).gmb ∧
    (mosfet.calcDC_stamp (mosfet.calcDC testLib (mosfet.sample 3 1 0 0))).MatrixY 1 0 +
      (mosfet.calcDC_stamp (mosfet.calcDC testLib (mosfet.sample 3 1 0 0))).MatrixY 1 1 +
      (mosfet.calcDC_stamp (mosfet.calcDC testLib (mosfet.sample 3 1 0 0))).MatrixY 1 2 +
      (mosfet.calcDC_stamp (mosfet.calcDC testLib (mosfet.sample 3 1 0 0))).MatrixY 1 3 = 0 ∧
    mosfet.calcMatrixY 3 (mosfet.saveOperatingPointsDC
        (mosfet.calcDC testLib (mosfet.sample 3 1 0 0)) 0 0 0 0 0)
        (mosfet.calcDC testLib (mosfet.sample 3 1 0 0)) 1 1 0 +
      mosfet.calcMatrixY 3 (mosfet.saveOperatingPointsDC
        (mosfet.calcDC testLib (mosfet.sample 3 1 0 0)) 0 0 0 0 0)
        (mosfet.calcDC testLib (mosfet.sample 3 1 0 0)) 1 1 1 +
      mosfet.calcMatrixY 3 (mosfet.saveOperatingPointsDC
        (mosfet.calcDC testLib (mosfet.sample 3 1 0 0)) 0 0 0 0 0)
        (mosfet.calcDC testLib (mosfet.sample 3 1 0 0)) 1 1 2 +
      mosfet.calcMatrixY 3 (mosfet.saveOperatingPointsDC
        (mosfet.calcDC testLib (mosfet.sample 3 1 0 0)) 0 0 0 0 0)
        (mosfet.calcDC testLib (mosfet.sample 3 1 0 0)) 1 1 3 = 0 := by
  have hX := mosfet.calcDC_stamp_controls_sum (mosfet.calcDC testLib (mosfet.sample 3 1 0 0))
    (mosfet.calcDC_MOSdir_cases testLib (mosfet.sample 3 1 0 0))
  have hx := mosfet.calcDC_stamp_controls_sum
    (mosfet.calcDC_channel testLib (mosfet.calcDC_diodes testLib
      (mosfet.calcDC_limit testLib (mosfet.sample 3 1 0 0))))
    (mosfet.dirOf_cases (mosfet.calcDC_limit testLib (mosfet.sample 3 1 0 0)).Uds)
  have h := C31_kirchhoff_sums testLib (mosfet.sample 3 1 0 0)
    (mosfet.calcDC testLib (mosfet.sample 3 1 0 0))
    (mosfet.calcDC testLib (mosfet.sample 3 1 0 0)) 3 1
    (mosfet.saveOperatingPointsDC (mosfet.calcDC testLib (mosfet.sample 3 1 0 0)) 0 0 0 0 0)
    hX hx
  exact ⟨hX, hx, h.2.1 1, h.2.2.2.2.2.2.2.2 1⟩

/-! ## Companion-model consistency of the DC stamp -/

section Companion

variable {K : Type} [LinearOrderedField K]

/-- The stamp of `calcDC` reproduces the terminal currents at the node
voltages from which the controlling voltages were taken, for either direction
and either polarity. -/
theorem mosfet.calcDC_stamp_companion (X : mosfet K) (hpol : X.pol = 1 ∨ X.pol = -1)
    (hdir : X.MOSdir = 1 ∨ X.MOSdir = -1)
    (hgs : X.Ugs = complex.real (X.VectorV NODE_G - X.VectorV NODE_S) * X.pol)
    (hgd : X.Ugd = complex.real (X.VectorV NODE_G - X.VectorV NODE_D) * X.pol)
    (hbs : X.Ubs = complex.real (X.VectorV NODE_B - X.VectorV NODE_S) * X.pol)
    (hds : X.Uds = X.Ugs - X.Ugd) (hbd : X.Uds = X.Ubs - X.Ubd) :
    ((mosfet.calcDC_stamp X).MatrixY NODE_G NODE_G).r * (X.VectorV NODE_G).r +
      ((mosfet.calcDC_stamp X).MatrixY NODE_G NODE_D).r * (X.VectorV NODE_D).r +
      ((mosfet.calcDC_stamp X).MatrixY NODE_G NODE_S).r * (X.VectorV NODE_S).r +
      ((mosfet.calcDC_stamp X).MatrixY NODE_G NODE_B).r * (X.VectorV NODE_B).r -
      ((mosfet.calcDC_stamp X).VectorI NODE_G).r = 0 ∧
    ((mosfet.calcDC_stamp X).MatrixY NODE_D NODE_G).r * (X.VectorV NODE_G).r +
      ((mosfet.calcDC_stamp X).MatrixY NODE_D NODE_D).r * (X.VectorV NODE_D).r +
      ((mosfet.calcDC_stamp X).MatrixY NODE_D NODE_S).r * (X.VectorV NODE_S).r +
      ((mosfet.calcDC_stamp X).MatrixY NODE_D NODE_B).r * (X.VectorV NODE_B).r -
      ((mosfet.calcDC_stamp X).VectorI NODE_D).r = X.pol * (X.Ids - X.Ibd) ∧
    ((mosfet.calcDC_stamp X).MatrixY NODE_S NODE_G).r * (X.VectorV NODE_G).r +
      ((mosfet.calcDC_stamp X).MatrixY NODE_S NODE_D).r * (X.VectorV NODE_D).r +
      ((mosfet.calcDC_stamp X).MatrixY NODE_S NODE_S).r * (X.VectorV NODE_S).r +
      ((mosfet.calcDC_stamp X).MatrixY NODE_S NODE_B).r * (X.VectorV NODE_B).r -
      ((mosfet.calcDC_stamp X).VectorI NODE_S).r = X.pol * (-X.Ids - X.Ibs) ∧
    ((mosfet.calcDC_stamp X).MatrixY NODE_B NODE_G).r * (X.VectorV NODE_G).r +
      ((mosfet.calcDC_stamp X).MatrixY NODE_B NODE_D).r * (X.VectorV NODE_D).r +
      ((mosfet.calcDC_stamp X).MatrixY NODE_B NODE_S).r * (X.VectorV NODE_S).r +
      ((mosfet.calcDC_stamp X).MatrixY NODE_B NODE_B).r * (X.VectorV NODE_B).r -
      ((mosfet.calcDC_stamp X).VectorI NODE_B).r = X.pol * (X.Ibd + X.Ibs) := by
  obtain ⟨⟨g1, g2, g3, g4⟩, ⟨d1, d2, d3, d4⟩, ⟨s1, s2, s3, s4⟩, ⟨b1, b2, b3, b4⟩⟩ :=
    mosfet.calcDC_stamp_MatrixY X
  obtain ⟨i1, i2, i3, i4⟩ := mosfet.calcDC_stamp_VectorI X
  have hUbd : X.Ubd = X.Ubs - X.Ugs + X.Ugd := by linarith
  simp only [complex.real, complex.sub_r] at hgs hgd hbs
  rw [g1, g2, g3, g4, d1, d2, d3, d4, s1, s2, s3, s4, b1, b2, b3, b4, i1, i2, i3, i4]
  simp only [complex.ofReal_r]
  rw [hUbd, hds, hgs, hgd, hbs]
  rcases hpol with hp | hp <;> rcases hdir with hd | hd <;> rw [hp, hd] <;>
    norm_num <;> refine ⟨?_, ?_, ?_⟩ <;> ring

/-- The limited voltages left by `calcDC` are loop-consistent. -/
theorem mosfet.calcDC_loops (lib : DeviceLib K) (m : mosfet K) :
    (mosfet.calcDC lib m).Uds = (mosfet.calcDC lib m).Ugs - (mosfet.calcDC lib m).Ugd ∧
    (mosfet.calcDC lib m).Uds = (mosfet.calcDC lib m).Ubs - (mosfet.calcDC lib m).Ubd := by
  simp only [mosfet.calcDC, mosfet.calcDC_stamp, mosfet.calcDC_channel, mosfet.calcDC_diodes,
    mosfet.calcDC_limit]
  constructor
  · split_ifs <;> ring
  · split_ifs <;> ring

/-- The stamping block of `calcDC` writes the current vector, the admittance
matrix and the two control terms only. -/
theorem mosfet.calcDC_stamp_frame (X : mosfet K) :
    (mosfet.calcDC_stamp X).pol = X.pol ∧ (mosfet.calcDC_stamp X).Ugs = X.Ugs ∧
    (mosfet.calcDC_stamp X).Ugd = X.Ugd ∧ (mosfet.calcDC_stamp X).Ubs = X.Ubs ∧
    (mosfet.calcDC_stamp X).Ubd = X.Ubd ∧ (mosfet.calcDC_stamp X).Uds = X.Uds ∧
    (mosfet.calcDC_stamp X).MOSdir = X.MOSdir ∧ (mosfet.calcDC_stamp X).Ids = X.Ids ∧
    (mosfet.calcDC_stamp X).Ibd = X.Ibd ∧ (mosfet.calcDC_stamp X).Ibs = X.Ibs ∧
    (mosfet.calcDC_stamp X).VectorV = X.VectorV := by
  simp only [mosfet.calcDC_stamp, circuit.setI, circuit.setY, and_self]

end Companion

/-- C32: when limiting leaves the voltages unchanged (the limited `Ugs`,
`Ugd`, `Ubs` are `pol` times the present node-voltage differences), then for
`pol = +1` and `pol = -1` and in forward and reverse mode the stamp of
`mosfet::calcDC` reproduces the nonlinear terminal currents at the present
node voltages `V` (the real parts that `calcDC` reads): the sum over `j` of
`Y (i, j) * V j` minus `I (i)` is `0` at the gate, `pol * (Ids - Ibd)` at the
drain, `pol * (-Ids - Ibs)` at the source and `pol * (Ibd + Ibs)` at the
bulk. -/
theorem C32_companion_consistency {K : Type} [LinearOrderedField K] (lib : DeviceLib K)
    (m : mosfet K) (hpol : m.pol = 1 ∨ m.pol = -1)
    (hgs : (mosfet.calcDC lib m).Ugs =
      complex.real (m.VectorV NODE_G - m.VectorV NODE_S) * m.pol)
    (hgd : (mosfet.calcDC lib m).Ugd =
      complex.real (m.VectorV NODE_G - m.VectorV NODE_D) * m.pol)
    (hbs : (mosfet.calcDC lib m).Ubs =
      complex.real (m.VectorV NODE_B - m.VectorV NODE_S) * m.pol) :
    ((mosfet.calcDC lib m).MatrixY NODE_G NODE_G).r * (m.VectorV NODE_G).r +
      ((mosfet.calcDC lib m).MatrixY NODE_G NODE_D).r * (m.VectorV NODE_D).r +
      ((mosfet.calcDC lib m).MatrixY NODE_G NODE_S).r * (m.VectorV NODE_S).r +
      ((mosfet.calcDC lib m).MatrixY NODE_G NODE_B).r * (m.VectorV NODE_B).r -
      ((mosfet.calcDC lib m).VectorI NODE_G).r = 0 ∧
    ((mosfet.calcDC lib m).MatrixY NODE_D NODE_G).r * (m.VectorV NODE_G).r +
      ((mosfet.calcDC lib m).MatrixY NODE_D NODE_D).r * (m.VectorV NODE_D).r +
      ((mosfet.calcDC lib m).MatrixY NODE_D NODE_S).r * (m.VectorV NODE_S).r +
      ((mosfet.calcDC lib m).MatrixY NODE_D NODE_B).r * (m.VectorV NODE_B).r -
      ((mosfet.calcDC lib m).VectorI NODE_D).r =
        m.pol * ((mosfet.calcDC lib m).Ids - (mosfet.calcDC lib m).Ibd) ∧
    ((mosfet.calcDC lib m).MatrixY NODE_S NODE_G).r * (m.VectorV NODE_G).r +
      ((mosfet.calcDC lib m).MatrixY NODE_S NODE_D).r * (m.VectorV NODE_D).r +
      ((mosfet.calcDC lib m).MatrixY NODE_S NODE_S).r * (m.VectorV NODE_S).r +
      ((mosfet.calcDC lib m).MatrixY NODE_S NODE_B).r * (m.VectorV NODE_B).r -
      ((mosfet.calcDC lib m).VectorI NODE_S).r =
        m.pol * (-(mosfet.calcDC lib m).Ids - (mosfet.calcDC lib m).Ibs) ∧
    ((mosfet.calcDC lib m).MatrixY NODE_B NODE_G).r * (m.VectorV NODE_G).r +
      ((mosfet.calcDC lib m).MatrixY NODE_B NODE_D).r * (m.VectorV NODE_D).r +
      ((mosfet.calcDC lib m).MatrixY NODE_B NODE_S).r * (m.VectorV NODE_S).r +
      ((mosfet.calcDC lib m).MatrixY NODE_B NODE_B).r * (m.VectorV NODE_B).r -
      ((mosfet.calcDC lib m).VectorI NODE_B).r =
        m.pol * ((mosfet.calcDC lib m).Ibd + (mosfet.calcDC lib m).Ibs) ∧
    (∀ a b, ((mosfet.calcDC lib m).MatrixY a b).i = 0) ∧
    (∀ a, ((mosfet.calcDC lib m).VectorI a).i = 0) ∧
    (mosfet.calcDC lib m).VectorV = m.VectorV ∧
    ((mosfet.calcDC lib m).MOSdir = 1 ∨ (mosfet.calcDC lib m).MOSdir = -1) := by
  have hp : (mosfet.calcDC lib m).pol = m.pol := mosfet.calcDC_pol lib m
  have hV : (mosfet.calcDC lib m).VectorV = m.VectorV := by
    simp only [mosfet.calcDC, mosfet.calcDC_stamp, mosfet.calcDC_channel, mosfet.calcDC_diodes,
      mosfet.calcDC_limit, circuit.setI, circuit.setY]
  have hl := mosfet.calcDC_loops lib m
  have hdir := mosfet.calcDC_MOSdir_cases lib m
  rw [← hp] at hpol hgs hgd hbs ⊢
  rw [← hV] at hgs hgd hbs ⊢
  unfold mosfet.calcDC at hpol hgs hgd hbs hl hdir ⊢
  generalize mosfet.calcDC_channel lib (mosfet.calcDC_diodes lib (mosfet.calcDC_limit lib m)) = X
    at hpol hgs hgd hbs hl hdir ⊢
  obtain ⟨f1, f2, f3, f4, f5, f6, f7, f8, f9, f10, f11⟩ := mosfet.calcDC_stamp_frame X
  rw [f1] at hpol hgs hgd hbs
  rw [f11] at hgs hgd hbs
  rw [f2] at hgs
  rw [f3] at hgd
  rw [f4] at hbs
  rw [f2, f3, f4, f5, f6] at hl
  rw [f7] at hdir
  have key := mosfet.calcDC_stamp_companion X hpol hdir hgs hgd hbs hl.1 hl.2
  rw [f1, f7, f8, f9, f10, f11]
  obtain ⟨⟨g1, g2, g3, g4⟩, ⟨d1, d2, d3, d4⟩, ⟨s1, s2, s3, s4⟩, ⟨b1, b2, b3, b4⟩⟩ :=
    mosfet.calcDC_stamp_MatrixY X
  obtain ⟨i1, i2, i3, i4⟩ := mosfet.calcDC_stamp_VectorI X
  simp only [NODE_G, NODE_D, NODE_S, NODE_B] at g1 g2 g3 g4 d1 d2 d3 d4 s1 s2 s3 s4 b1 b2 b3 b4
  simp only [NODE_G, NODE_D, NODE_S, NODE_B] at i1 i2 i3 i4
  refine ⟨key.1, key.2.1, key.2.2.1, key.2.2.2, ?_, ?_, rfl, hdir⟩
  · intro a b
    fin_cases a <;> fin_cases b <;>
      simp only [Fin.zero_eta, Fin.mk_one, Fin.reduceFinMk, g1, g2, g3, g4, d1,
        d2, d3, d4, s1, s2, s3, s4, b1, b2, b3, b4, complex.ofReal_i]
  · intro a
    fin_cases a <;>
      simp only [Fin.zero_eta, Fin.mk_one, Fin.reduceFinMk, i1, i2, i3, i4,
        complex.ofReal_i]

/-- C32 on the sample n-channel device with gate 3 V and drain 1 V and
inactive limiters: the hypotheses hold and the drain equation reads
`pol * (Ids - Ibd)`. -/
theorem C32_companion_consistency_witness :
    ((mosfet.sample (3 : ℚ) 1 0 0).pol = 1 ∨ (mosfet.sample (3 : ℚ) 1 0 0).pol = -1) ∧
    (mosfet.calcDC testLib (mosfet.sample 3 1 0 0)).Ugs =
      complex.real ((mosfet.sample (3 : ℚ) 1 0 0).VectorV NODE_G -
        (mosfet.sample (3 : ℚ) 1 0 0).VectorV NODE_S) * (mosfet.sample (3 : ℚ) 1 0 0).pol ∧
    (mosfet.calcDC testLib (mosfet.sample 3 1 0 0)).Ugd =
      complex.real ((mosfet.sample (3 : ℚ) 1 0 0).VectorV NODE_G -
        (mosfet.sample (3 : ℚ) 1 0 0).VectorV NODE_D) * (mosfet.sample (3 : ℚ) 1 0 0).pol ∧
    (mosfet.calcDC testLib (mosfet.sample 3 1 0 0)).Ubs =
      complex.real ((mosfet.sample (3 : ℚ) 1 0 0).VectorV NODE_B -
        (mosfet.sample (3 : ℚ) 1 0 0).VectorV NODE_S) * (mosfet.sample (3 : ℚ) 1 0 0).pol ∧
    ((mosfet.calcDC testLib (mosfet.sample 3 1 0 0)).MatrixY NODE_D NODE_G).r *
        ((mosfet.sample (3 : ℚ) 1 0 0).VectorV NODE_G).r +
      ((mosfet.calcDC testLib (mosfet.sample 3 1 0 0)).MatrixY NODE_D NODE_D).r *
        ((mosfet.sample (3 : ℚ) 1 0 0).VectorV NODE_D).r +
      ((mosfet.calcDC testLib (mosfet.sample 3 1 0 0)).MatrixY NODE_D NODE_S).r *
        ((mosfet.sample (3 : ℚ) 1 0 0).VectorV NODE_S).r +
      ((mosfet.calcDC testLib (mosfet.sample 3 1 0 0)).MatrixY NODE_D NODE_B).r *
        ((mosfet.sample (3 : ℚ) 1 0 0).VectorV NODE_B).r -
      ((mosfet.calcDC testLib (mosfet.sample 3 1 0 0)).VectorI NODE_D).r =
        (mosfet.sample (3 : ℚ) 1 0 0).pol *
          ((mosfet.calcDC testLib (mosfet.sample 3 1 0 0)).Ids -
            (mosfet.calcDC testLib (mosfet.sample 3 1 0 0)).Ibd) := by
  have hpol : (mosfet.sample (3 : ℚ) 1 0 0).pol = 1 ∨ (mosfet.sample (3 : ℚ) 1 0 0).pol = -1 :=
    Or.inl rfl
  have hgs : (mosfet.calcDC testLib (mosfet.sample 3 1 0 0)).Ugs =
      complex.real ((mosfet.sample (3 : ℚ) 1 0 0).VectorV NODE_G -
        (mosfet.sample (3 : ℚ) 1 0 0).VectorV NODE_S) * (mosfet.sample (3 : ℚ) 1 0 0).pol := by
    rw [mosfet.calcDC_Ugs]
    norm_num [mosfet.calcDC_limit, mosfet.sample, testLib, DeviceLib.unlimited, complex.real,
      complex.ofReal, NODE_G, NODE_D, NODE_S, NODE_B]
  have hgd : (mosfet.calcDC testLib (mosfet.sample 3 1 0 0)).Ugd =
      complex.real ((mosfet.sample (3 : ℚ) 1 0 0).VectorV NODE_G -
        (mosfet.sample (3 : ℚ) 1 0 0).VectorV NODE_D) * (mosfet.sample (3 : ℚ) 1 0 0).pol := by
    rw [mosfet.calcDC_Ugd]
    norm_num [mosfet.calcDC_limit, mosfet.sample, testLib, DeviceLib.unlimited, complex.real,
      complex.ofReal, NODE_G, NODE_D, NODE_S, NODE_B]
  have hbs : (mosfet.calcDC testLib (mosfet.sample 3 1 0 0)).Ubs =
      complex.real ((mosfet.sample (3 : ℚ) 1 0 0).VectorV NODE_B -
        (mosfet.sample (3 : ℚ) 1 0 0).VectorV NODE_S) * (mosfet.sample (3 : ℚ) 1 0 0).pol := by
    rw [mosfet.calcDC_Ubs]
    norm_num [mosfet.calcDC_limit, mosfet.sample, testLib, DeviceLib.unlimited, complex.real,
      complex.ofReal, NODE_G, NODE_D, NODE_S, NODE_B]
  exact ⟨hpol, hgs, hgd, hbs,
    (C32_companion_consistency testLib (mosfet.sample 3 1 0 0) hpol hgs hgd hbs).2.1⟩

/-! ## Polarity symmetry of the DC solve -/

section Polarity

variable {K : Type} [LinearOrderedField K]

/-- Negating both node voltages under `pol = +1` gives the controlling
voltage that `pol = -1` gives. -/
theorem mosfet.real_neg_sub (a b : complex K) :
    complex.real (-a - -b) * 1 = complex.real (a - b) * -1 := by
  simp only [complex.real, complex.sub_r, complex.neg_r]
  ring

/-- The threshold term `Vto * pol` of both devices is the same. -/
theorem mosfet.neg_mul_one_eq (v : K) : -v * 1 = v * -1 := by ring

/-- The state before the stamping block agrees for both devices in all
fields the stamp reads, except the polarity. -/
theorem mosfet.polarity_channel (lib : DeviceLib K) (m : mosfet K) :
    ((mosfet.calcDC_channel lib (mosfet.calcDC_diodes lib
        (mosfet.calcDC_limit lib (mosfet.nMirror m)))).gm =
      (mosfet.calcDC_channel lib (mosfet.calcDC_diodes lib
        (mosfet.calcDC_limit lib (mosfet.pType m)))).gm ∧
    (mosfet.calcDC_channel lib (mosfet.calcDC_diodes lib
        (mosfet.calcDC_limit lib (mosfet.nMirror m)))).gds =
      (mosfet.calcDC_channel lib (mosfet.calcDC_diodes lib
        (mosfet.calcDC_limit lib (mosfet.pType m)))).gds ∧
    (mosfet.calcDC_channel lib (mosfet.calcDC_diodes lib
        (mosfet.calcDC_limit lib (mosfet.nMirror m)))).gmb =
      (mosfet.calcDC_channel lib (mosfet.calcDC_diodes lib
        (mosfet.calcDC_limit lib (mosfet.pType m)))).gmb ∧
    (mosfet.calcDC_channel lib (mosfet.calcDC_diodes lib
        (mosfet.calcDC_limit lib (mosfet.nMirror m)))).gbd =
      (mosfet.calcDC_channel lib (mosfet.calcDC_diodes lib
        (mosfet.calcDC_limit lib (mosfet.pType m)))).gbd ∧
    (mosfet.calcDC_channel lib (mosfet.calcDC_diodes lib
        (mosfet.calcDC_limit lib (mosfet.nMirror m)))).gbs =
      (mosfet.calcDC_channel lib (mosfet.calcDC_diodes lib
        (mosfet.calcDC_limit lib (mosfet.pType m)))).gbs ∧
    (mosfet.calcDC_channel lib (mosfet.calcDC_diodes lib
        (mosfet.calcDC_limit lib (mosfet.nMirror m)))).MOSdir =
      (mosfet.calcDC_channel lib (mosfet.calcDC_diodes lib
        (mosfet.calcDC_limit lib (mosfet.pType m)))).MOSdir ∧
    (mosfet.calcDC_channel lib (mosfet.calcDC_diodes lib
        (mosfet.calcDC_limit lib (mosfet.nMirror m)))).Ids =
      (mosfet.calcDC_channel lib (mosfet.calcDC_diodes lib
        (mosfet.calcDC_limit lib (mosfet.pType m)))).Ids) ∧
    ((mosfet.calcDC_channel lib (mosfet.calcDC_diodes lib
        (mosfet.calcDC_limit lib (mosfet.nMirror m)))).Ibd =
      (mosfet.calcDC_channel lib (mosfet.calcDC_diodes lib
        (mosfet.calcDC_limit lib (mosfet.pType m)))).Ibd ∧
    (mosfet.calcDC_channel lib (mosfet.calcDC_diodes lib
        (mosfet.calcDC_limit lib (mosfet.nMirror m)))).Ibs =
      (mosfet.calcDC_channel lib (mosfet.calcDC_diodes lib
        (mosfet.calcDC_limit lib (mosfet.pType m)))).Ibs ∧
    (mosfet.calcDC_channel lib (mosfet.calcDC_diodes lib
        (mosfet.calcDC_limit lib (mosfet.nMirror m)))).Ugs =
      (mosfet.calcDC_channel lib (mosfet.calcDC_diodes lib
        (mosfet.calcDC_limit lib (mosfet.pType m)))).Ugs ∧
    (mosfet.calcDC_channel lib (mosfet.calcDC_diodes lib
        (mosfet.calcDC_limit lib (mosfet.nMirror m)))).Ugd =
      (mosfet.calcDC_channel lib (mosfet.calcDC_diodes lib
        (mosfet.calcDC_limit lib (mosfet.pType m)))).Ugd ∧
    (mosfet.calcDC_channel lib (mosfet.calcDC_diodes lib
        (mosfet.calcDC_limit lib (mosfet.nMirror m)))).Ubs =
      (mosfet.calcDC_channel lib (mosfet.calcDC_diodes lib
        (mosfet.calcDC_limit lib (mosfet.pType m)))).Ubs ∧
    (mosfet.calcDC_channel lib (mosfet.calcDC_diodes lib
        (mosfet.calcDC_limit lib (mosfet.nMirror m)))).Ubd =
      (mosfet.calcDC_channel lib (mosfet.calcDC_diodes lib
        (mosfet.calcDC_limit lib (mosfet.pType m)))).Ubd ∧
    (mosfet.calcDC_channel lib (mosfet.calcDC_diodes lib
        (mosfet.calcDC_limit lib (mosfet.nMirror m)))).Uds =
      (mosfet.calcDC_channel lib (mosfet.calcDC_diodes lib
        (mosfet.calcDC_limit lib (mosfet.pType m)))).Uds) ∧
    (mosfet.calcDC_channel lib (mosfet.calcDC_diodes lib
        (mosfet.calcDC_limit lib (mosfet.nMirror m)))).pol = 1 ∧
    (mosfet.calcDC_channel lib (mosfet.calcDC_diodes lib
        (mosfet.calcDC_limit lib (mosfet.pType m)))).pol = -1 := by
  simp only [mosfet.calcDC_channel, mosfet.calcDC_diodes, mosfet.calcDC_limit, mosfet.nMirror,
    mosfet.pType, mosfet.Ut, mosfet.real_neg_sub, mosfet.neg_mul_one_eq, mosfet.UonOf,
    and_self]

/-- Two states that agree in the conductances and the direction get the
same admittance stamp. -/
theorem mosfet.calcDC_stamp_MatrixY_congr (X1 X2 : mosfet K) (h1 : X1.gm = X2.gm)
    (h2 : X1.gds = X2.gds) (h3 : X1.gmb = X2.gmb) (h4 : X1.gbd = X2.gbd)
    (h5 : X1.gbs = X2.gbs) (h6 : X1.MOSdir = X2.MOSdir) :
    (mosfet.calcDC_stamp X1).MatrixY = (mosfet.calcDC_stamp X2).MatrixY := by
  funext a b
  fin_cases a <;> fin_cases b <;>
    simp +decide [mosfet.calcDC_stamp, circuit.setY, circuit.setI, circuit.setEntry,
      NODE_G, NODE_D, NODE_S, NODE_B, h1, h2, h3, h4, h5, h6]

/-- Two states that agree in all the stamp reads but have polarity `+1` and
`-1` get opposite current entries. -/
theorem mosfet.calcDC_stamp_VectorI_neg (X1 X2 : mosfet K) (h1 : X1.gm = X2.gm)
    (h2 : X1.gds = X2.gds) (h3 : X1.gmb = X2.gmb) (h4 : X1.gbd = X2.gbd)
    (h5 : X1.gbs = X2.gbs) (h6 : X1.MOSdir = X2.MOSdir) (h7 : X1.Ids = X2.Ids)
    (h8 : X1.Ibd = X2.Ibd) (h9 : X1.Ibs = X2.Ibs) (h10 : X1.Ugs = X2.Ugs)
    (h11 : X1.Ugd = X2.Ugd) (h12 : X1.Ubs = X2.Ubs) (h13 : X1.Ubd = X2.Ubd)
    (h14 : X1.Uds = X2.Uds) (hp1 : X1.pol = 1) (hp2 : X2.pol = -1) (a : Fin 4) :
    (mosfet.calcDC_stamp X1).VectorI a = -(mosfet.calcDC_stamp X2).VectorI a := by
  obtain ⟨i1, i2, i3, i4⟩ := mosfet.calcDC_stamp_VectorI X1
  obtain ⟨j1, j2, j3, j4⟩ := mosfet.calcDC_stamp_VectorI X2
  simp only [NODE_G, NODE_D, NODE_S, NODE_B] at i1 i2 i3 i4 j1 j2 j3 j4
  fin_cases a <;>
    simp only [Fin.zero_eta, Fin.mk_one, Fin.reduceFinMk, i1, i2, i3, i4, j1, j2, j3, j4, h1, h2,
      h3, h4, h5, h6, h7, h8, h9, h10, h11, h12, h13, h14, hp1, hp2, complex.ext_iff,
      complex.neg_r, complex.neg_i, complex.ofReal_r, complex.ofReal_i] <;>
    constructor <;> ring

end Polarity

/-- C33: with the same previous-iterate fields and the same remaining
parameters, `mosfet::calcDC` on the p-type device (`pol = -1`, threshold
`Vto`, node voltages `V`) and on the n-type device with threshold `-Vto` at
node voltages `-V` leaves the same admittance stamp, the same `gm`, `gds`,
`gmb`, control terms, direction and drain current, and the current entries of
the one are the negatives of those of the other. -/
theorem C33_polarity_symmetry {K : Type} [LinearOrderedField K] (lib : DeviceLib K)
    (m : mosfet K) :
    (mosfet.calcDC lib (mosfet.nMirror m)).MatrixY =
      (mosfet.calcDC lib (mosfet.pType m)).MatrixY ∧
    (mosfet.calcDC lib (mosfet.nMirror m)).gm = (mosfet.calcDC lib (mosfet.pType m)).gm ∧
    (mosfet.calcDC lib (mosfet.nMirror m)).gds = (mosfet.calcDC lib (mosfet.pType m)).gds ∧
    (mosfet.calcDC lib (mosfet.nMirror m)).gmb = (mosfet.calcDC lib (mosfet.pType m)).gmb ∧
    (∀ a, (mosfet.calcDC lib (mosfet.nMirror m)).VectorI a =
      -(mosfet.calcDC lib (mosfet.pType m)).VectorI a) ∧
    (mosfet.calcDC lib (mosfet.nMirror m)).Ids = (mosfet.calcDC lib (mosfet.pType m)).Ids ∧
    (mosfet.calcDC lib (mosfet.nMirror m)).MOSdir =
      (mosfet.calcDC lib (mosfet.pType m)).MOSdir ∧
    (mosfet.pType m).pol = -1 ∧ (mosfet.nMirror m).pol = 1 ∧
    (mosfet.nMirror m).Vto = -(mosfet.pType m).Vto ∧
    (∀ a, (mosfet.nMirror m).VectorV a = -(mosfet.pType m).VectorV a) := by
  obtain ⟨⟨h1, h2, h3, h4, h5, h6, h7⟩, ⟨h8, h9, h10, h11, h12, h13, h14⟩, hp1, hp2⟩ :=
    mosfet.polarity_channel lib m
  exact ⟨mosfet.calcDC_stamp_MatrixY_congr _ _ h1 h2 h3 h4 h5 h6, h1, h2, h3,
    mosfet.calcDC_stamp_VectorI_neg _ _ h1 h2 h3 h4 h5 h6 h7 h8 h9 h10 h11 h12 h13 h14 hp1 hp2,
    h7, h6, rfl, rfl, rfl, fun _ => rfl⟩

/-! ## Noise and passivity of the isolator -/

section IsolatorNoise

variable {K : Type} [LinearOrderedField K]

/-- When both divisors are non-zero, `calcNoiseSP` succeeds and writes these
four noise entries. -/
theorem isolator.calcNoiseSP_of_ne (sqrt kelvin : K → K) (T0 z0 : K) (x : isolator K)
    (h1 : z0 + x.Z2 ≠ 0) (h2 : sqr (x.Z1 + z0) ≠ 0) :
    ∃ n, isolator.calcNoiseSP sqrt kelvin T0 z0 x = some n ∧
      n.MatrixN NODE_1 NODE_1 = complex.ofReal
        (4 * z0 / sqr (x.Z1 + z0) * kelvin x.Temp / T0 * x.Z1) ∧
      n.MatrixN NODE_1 NODE_2 = complex.ofReal
        (4 * z0 / sqr (x.Z1 + z0) * kelvin x.Temp / T0 * sqrt (x.Z1 * x.Z2) *
          ((z0 - x.Z1) / (z0 + x.Z2))) ∧
      n.MatrixN NODE_2 NODE_1 = complex.ofReal
        (4 * z0 / sqr (x.Z1 + z0) * kelvin x.Temp / T0 * sqrt (x.Z1 * x.Z2) *
          ((z0 - x.Z1) / (z0 + x.Z2))) ∧
      n.MatrixN NODE_2 NODE_2 = complex.ofReal
        (4 * z0 / sqr (x.Z1 + z0) * kelvin x.Temp / T0 * x.Z2 *
          ((z0 - x.Z1) / (z0 + x.Z2)) * ((z0 - x.Z1) / (z0 + x.Z2))) := by
  simp +decide [isolator.calcNoiseSP, sdiv_of_ne _ _ h1, sdiv_of_ne _ _ h2, isolator.setN,
    circuit.setEntry, NODE_1, NODE_2]

end IsolatorNoise

/-- The noise entries of the isolator in terms of the port reflection
factors: the real identities behind the thermal-noise law. -/
theorem isolator_noise_real (Z1 Z2 z0 k : ℝ) (h1 : 0 < Z1) (h2 : 0 < Z2) (h0 : 0 < z0) :
    4 * z0 / sqr (Z1 + z0) * k * Z1 =
      k * (1 - (Z1 - z0) / (Z1 + z0) * ((Z1 - z0) / (Z1 + z0))) ∧
    4 * z0 / sqr (Z1 + z0) * k * Real.sqrt (Z1 * Z2) * ((z0 - Z1) / (z0 + Z2)) =
      k * -((Z1 - z0) / (Z1 + z0) *
        (Real.sqrt (1 - (Z1 - z0) / (Z1 + z0) * ((Z1 - z0) / (Z1 + z0))) *
          Real.sqrt (1 - (Z2 - z0) / (Z2 + z0) * ((Z2 - z0) / (Z2 + z0))))) ∧
    4 * z0 / sqr (Z1 + z0) * k * Z2 * ((z0 - Z1) / (z0 + Z2)) * ((z0 - Z1) / (z0 + Z2)) =
      k * (1 - (Real.sqrt (1 - (Z1 - z0) / (Z1 + z0) * ((Z1 - z0) / (Z1 + z0))) *
          Real.sqrt (1 - (Z2 - z0) / (Z2 + z0) * ((Z2 - z0) / (Z2 + z0))) *
        (Real.sqrt (1 - (Z1 - z0) / (Z1 + z0) * ((Z1 - z0) / (Z1 + z0))) *
          Real.sqrt (1 - (Z2 - z0) / (Z2 + z0) * ((Z2 - z0) / (Z2 + z0)))) +
        (Z2 - z0) / (Z2 + z0) * ((Z2 - z0) / (Z2 + z0)))) := by
  rw [sqrt_one_sub_sq Z1 z0 h1 h0, sqrt_one_sub_sq Z2 z0 h2 h0, Real.sqrt_mul h1.le]
  have ha := Real.sqrt_pos.mpr h1
  have hb := Real.sqrt_pos.mpr h2
  have hc := Real.sqrt_pos.mpr h0
  have e1 := Real.mul_self_sqrt h1.le
  have e2 := Real.mul_self_sqrt h2.le
  have e0 := Real.mul_self_sqrt h0.le
  generalize Real.sqrt Z1 = a at *
  generalize Real.sqrt Z2 = b at *
  generalize Real.sqrt z0 = c at *
  subst e1 e2 e0
  unfold sqr
  refine ⟨?_, ?_, ?_⟩
  · field_simp
    ring
  · field_simp
    ring
  · field_simp
    ring


/-- With both port impedances equal to the reference impedance the noise
matrix has the single entry `kelvin T / T0` at the first port. -/
theorem isolator_noise_matched (kelvin : ℝ → ℝ) (T0 z0 : ℝ) (x : isolator ℝ)
    (hZ1 : x.Z1 = z0) (hZ2 : x.Z2 = z0) (h0 : 0 < z0) :
    ∃ n, isolator.calcNoiseSP Real.sqrt kelvin T0 z0 x = some n ∧
      n.MatrixN NODE_1 NODE_1 = complex.ofReal (kelvin x.Temp / T0) ∧
      n.MatrixN NODE_1 NODE_2 = 0 ∧ n.MatrixN NODE_2 NODE_1 = 0 ∧
      n.MatrixN NODE_2 NODE_2 = 0 := by
  have hz : z0 + x.Z2 ≠ 0 := by rw [hZ2]; positivity
  obtain ⟨n, hn, n11, n12, n21, n22⟩ :=
    isolator.calcNoiseSP_of_ne Real.sqrt kelvin T0 z0 x hz
      (by rw [hZ1]; unfold sqr; positivity)
  refine ⟨n, hn, ?_, ?_, ?_, ?_⟩
  · rw [n11, hZ1]
    congr 1
    have e : 4 * z0 / sqr (z0 + z0) * z0 = 1 := by
      unfold sqr
      field_simp
      ring
    calc 4 * z0 / sqr (z0 + z0) * kelvin x.Temp / T0 * z0
        = 4 * z0 / sqr (z0 + z0) * z0 * (kelvin x.Temp / T0) := by ring
      _ = kelvin x.Temp / T0 := by rw [e, one_mul]
  · rw [n12, hZ1]
    simp [complex.ext_iff]
  · rw [n21, hZ1]
    simp [complex.ext_iff]
  · rw [n22, hZ1]
    simp [complex.ext_iff]

/-- C34: for all positive `Z1`, `Z2`, `z0` and every temperature, the
noise-wave correlation matrix written by `isolator::calcNoiseSP` equals
`(kelvin T / T0) * (I - S * S^T)` with `S` the scattering matrix written by
`isolator::initSP`; for `Z1 = Z2 = z0` only the entry at the first port is
non-zero and equals `kelvin T / T0`. -/
theorem C34_isolator_noise (kelvin : ℝ → ℝ) (T0 z0 : ℝ) (x : isolator ℝ) (h1 : 0 < x.Z1)
    (h2 : 0 < x.Z2) (h0 : 0 < z0) :
    (∃ n s, isolator.calcNoiseSP Real.sqrt kelvin T0 z0 x = some n ∧
      isolator.initSP Real.sqrt z0 x = some s ∧
      ∀ a b, n.MatrixN a b = complex.ofReal (kelvin x.Temp / T0) *
        (eye2 a b - mul2 s.MatrixS (transpose2 s.MatrixS) a b)) ∧
    (∃ n, isolator.calcNoiseSP Real.sqrt kelvin T0 z0 { x with Z1 := z0, Z2 := z0 } = some n ∧
      n.MatrixN NODE_1 NODE_1 = complex.ofReal (kelvin x.Temp / T0) ∧
      n.MatrixN NODE_1 NODE_2 = 0 ∧ n.MatrixN NODE_2 NODE_1 = 0 ∧
      n.MatrixN NODE_2 NODE_2 = 0) := by
  constructor
  · obtain ⟨n, hn, n11, n12, n21, n22⟩ :=
      isolator.calcNoiseSP_of_ne Real.sqrt kelvin T0 z0 x (by positivity)
        (by unfold sqr; positivity)
    obtain ⟨s, hs, s11, s22, s12, s21⟩ :=
      isolator.initSP_of_ne Real.sqrt z0 x (by positivity) (by positivity)
    obtain ⟨r11, r12, r22⟩ := isolator_noise_real x.Z1 x.Z2 z0 (kelvin x.Temp / T0) h1 h2 h0
    simp only [NODE_1, NODE_2] at n11 n12 n21 n22 s11 s22 s12 s21
    refine ⟨n, s, hn, hs, fun a b => ?_⟩
    fin_cases a <;> fin_cases b <;>
      simp +decide only [Fin.zero_eta, Fin.mk_one, mul2, transpose2, eye2, n11, n12, n21, n22,
        s11, s22, s12, s21, complex.ext_iff, complex.mul_r, complex.mul_i, complex.sub_r,
        complex.sub_i, complex.add_r, complex.add_i, complex.ofReal_r, complex.ofReal_i,
        complex.one_r, complex.one_i, complex.zero_r, complex.zero_i, if_true, if_false] <;>
      constructor
    · linear_combination r11
    · ring
    · linear_combination r12
    · ring
    · linear_combination r12
    · ring
    · linear_combination r22
    · ring
  · obtain ⟨n, hn, e11, e12, e21, e22⟩ := isolator_noise_matched kelvin T0 z0
      { x with Z1 := z0, Z2 := z0 } rfl rfl h0
    exact ⟨n, hn, e11, e12, e21, e22⟩

/-- C34 at `Z1 = 50`, `Z2 = 75`, `z0 = 50`, `T0 = 290` and the sample
temperature of 27 degrees Celsius. -/
theorem C34_isolator_noise_witness :
    (0 : ℝ) < (isolator.sample 50 75 : isolator ℝ).Z1 ∧
    (0 : ℝ) < (isolator.sample 50 75 : isolator ℝ).Z2 ∧ (0 : ℝ) < 50 ∧
    ∃ n s, isolator.calcNoiseSP Real.sqrt (fun T : ℝ => T + 273.15) 290 50
        (isolator.sample 50 75 : isolator ℝ) = some n ∧
      isolator.initSP Real.sqrt 50 (isolator.sample 50 75 : isolator ℝ) = some s ∧
      ∀ a b, n.MatrixN a b =
        complex.ofReal (((isolator.sample 50 75 : isolator ℝ).Temp + 273.15) / 290) *
          (eye2 a b - mul2 s.MatrixS (transpose2 s.MatrixS) a b) :=
  have h1 : (0 : ℝ) < (isolator.sample 50 75 : isolator ℝ).Z1 := by norm_num [isolator.sample]
  have h2 : (0 : ℝ) < (isolator.sample 50 75 : isolator ℝ).Z2 := by norm_num [isolator.sample]
  have h0 : (0 : ℝ) < 50 := by norm_num
  ⟨h1, h2, h0,
    (C34_isolator_noise (fun T : ℝ => T + 273.15) 290 50 (isolator.sample 50 75) h1 h2 h0).1⟩

/-- The reflection factor of a port with positive impedances lies strictly
between `-1` and `1`, and vanishes exactly for a matched port. -/
theorem isolator_reflection_bounds (Z z0 : ℝ) (hZ : 0 < Z) (h0 : 0 < z0) :
    |(Z - z0) / (Z + z0)| < 1 ∧
    0 < 1 - (Z - z0) / (Z + z0) * ((Z - z0) / (Z + z0)) ∧
    1 - (Z - z0) / (Z + z0) * ((Z - z0) / (Z + z0)) ≤ 1 ∧
    ((Z - z0) / (Z + z0) = 0 ↔ Z = z0) := by
  have hs : 0 < Z + z0 := by linarith
  have hlt : |(Z - z0) / (Z + z0)| < 1 := by
    rw [abs_lt]
    constructor
    · rw [lt_div_iff₀ hs]; linarith
    · rw [div_lt_one hs]; linarith
  have hsq : (Z - z0) / (Z + z0) * ((Z - z0) / (Z + z0)) < 1 := by
    have := abs_lt.mp hlt
    nlinarith [this.1, this.2]
  refine ⟨hlt, by linarith, by nlinarith [mul_self_nonneg ((Z - z0) / (Z + z0))], ?_⟩
  rw [div_eq_zero_iff]
  constructor
  · rintro (h | h)
    · linarith
    · linarith
  · intro h
    left
    linarith

/-- A square root of a number in `(0, 1]` lies in `(0, 1]` and equals `1`
only at `1`. -/
theorem sqrt_unit_interval (t : ℝ) (h0 : 0 < t) (h1 : t ≤ 1) :
    0 < Real.sqrt t ∧ Real.sqrt t ≤ 1 ∧ Real.sqrt t * Real.sqrt t = t := by
  refine ⟨Real.sqrt_pos.mpr h0, ?_, Real.mul_self_sqrt h0.le⟩
  have h := Real.sqrt_le_sqrt h1
  rwa [Real.sqrt_one] at h

/-- Two factors in `(0, 1]` with product `1` are both `1`. -/
theorem unit_prod_eq_one (u v : ℝ) (hu0 : 0 < u) (hu1 : u ≤ 1) (hv1 : v ≤ 1)
    (h : u * v = 1) : u = 1 ∧ v = 1 := by
  constructor <;> nlinarith

/-- Passivity in terms of the two port factors. -/
theorem unit_prod_bounds (a u v : ℝ) (hu0 : 0 < u) (hv0 : 0 < v) (hv1 : v ≤ 1)
    (hu : u * u = 1 - a * a) : u * v ≤ 1 ∧ a ^ 2 + (u * v) ^ 2 ≤ 1 := by
  have hvv : v * v ≤ 1 := by nlinarith
  have huu : 0 ≤ u * u := mul_self_nonneg u
  constructor
  · nlinarith [mul_self_nonneg a]
  · have e : a ^ 2 + (u * v) ^ 2 = 1 - (u * u) * (1 - v * v) := by
      have : a * a = 1 - u * u := by linarith
      calc a ^ 2 + (u * v) ^ 2 = a * a + (u * u) * (v * v) := by ring
        _ = 1 - u * u + (u * u) * (v * v) := by rw [this]
        _ = 1 - (u * u) * (1 - v * v) := by ring
    rw [e]
    nlinarith [mul_nonneg huu (sub_nonneg.mpr hvv)]

/-- C35: for all positive `Z1`, `Z2` and `z0` the scattering matrix written
by `isolator::initSP` is real and passive: `|S11| < 1`, `|S22| < 1`,
`0 < S21 <= 1`, `S12 = 0`, `S11^2 + S21^2 <= 1`, `S12^2 + S22^2 <= 1`, and
`S21 = 1` holds exactly when `Z1 = Z2 = z0`. -/
theorem C35_isolator_passive (z0 : ℝ) (x : isolator ℝ) (h1 : 0 < x.Z1) (h2 : 0 < x.Z2)
    (h0 : 0 < z0) :
    ∃ s, isolator.initSP Real.sqrt z0 x = some s ∧
      (∀ a b, (s.MatrixS a b).i = 0) ∧
      |(s.MatrixS NODE_1 NODE_1).r| < 1 ∧ |(s.MatrixS NODE_2 NODE_2).r| < 1 ∧
      0 < (s.MatrixS NODE_2 NODE_1).r ∧ (s.MatrixS NODE_2 NODE_1).r ≤ 1 ∧
      (s.MatrixS NODE_1 NODE_2).r = 0 ∧
      (s.MatrixS NODE_1 NODE_1).r ^ 2 + (s.MatrixS NODE_2 NODE_1).r ^ 2 ≤ 1 ∧
      (s.MatrixS NODE_1 NODE_2).r ^ 2 + (s.MatrixS NODE_2 NODE_2).r ^ 2 ≤ 1 ∧
      ((s.MatrixS NODE_2 NODE_1).r = 1 ↔ x.Z1 = z0 ∧ x.Z2 = z0) := by
  obtain ⟨s, hs, s11, s22, s12, s21⟩ :=
    isolator.initSP_of_ne Real.sqrt z0 x (by positivity) (by positivity)
  obtain ⟨a1, a2, a3, a4⟩ := isolator_reflection_bounds x.Z1 z0 h1 h0
  obtain ⟨b1, b2, b3, b4⟩ := isolator_reflection_bounds x.Z2 z0 h2 h0
  obtain ⟨u1, u2, u3⟩ := sqrt_unit_interval _ a2 a3
  obtain ⟨v1, v2, v3⟩ := sqrt_unit_interval _ b2 b3
  refine ⟨s, hs, ?_, ?_, ?_, ?_, ?_, ?_, ?_, ?_, ?_⟩
  · intro a b
    simp only [NODE_1, NODE_2] at s11 s22 s12 s21
    fin_cases a <;> fin_cases b <;>
      simp only [Fin.zero_eta, Fin.mk_one, s11, s22, s12, s21, complex.ofReal_i]
  · rw [s11]; exact a1
  · rw [s22]; exact b1
  · rw [s21]; exact mul_pos u1 v1
  · rw [s21]; exact (unit_prod_bounds _ _ _ u1 v1 v2 u3).1
  · rw [s12]; rfl
  · rw [s11, s21]
    exact (unit_prod_bounds _ _ _ u1 v1 v2 u3).2
  · rw [s12, s22]
    simp only [complex.ofReal_r]
    have := abs_lt.mp b1
    nlinarith [this.1, this.2]
  · rw [s21]
    simp only [complex.ofReal_r]
    constructor
    · intro h
      obtain ⟨hu, hv⟩ := unit_prod_eq_one _ _ u1 u2 v2 h
      rw [hu] at u3
      rw [hv] at v3
      have ha : (x.Z1 - z0) / (x.Z1 + z0) = 0 := by
        have : (x.Z1 - z0) / (x.Z1 + z0) * ((x.Z1 - z0) / (x.Z1 + z0)) = 0 := by linarith
        exact mul_self_eq_zero.mp this
      have hb : (x.Z2 - z0) / (x.Z2 + z0) = 0 := by
        have : (x.Z2 - z0) / (x.Z2 + z0) * ((x.Z2 - z0) / (x.Z2 + z0)) = 0 := by linarith
        exact mul_self_eq_zero.mp this
      exact ⟨a4.mp ha, b4.mp hb⟩
    · rintro ⟨e1, e2⟩
      rw [a4.mpr e1, b4.mpr e2]
      simp

/-- C35 at `Z1 = 50`, `Z2 = 75`, `z0 = 50`: the scattering matrix exists and
its transmission lies in `(0, 1]`. -/
theorem C35_isolator_passive_witness :
    (0 : ℝ) < (isolator.sample 50 75 : isolator ℝ).Z1 ∧
    (0 : ℝ) < (isolator.sample 50 75 : isolator ℝ).Z2 ∧ (0 : ℝ) < 50 ∧
    ∃ s, isolator.initSP Real.sqrt 50 (isolator.sample 50 75 : isolator ℝ) = some s ∧
      0 < (s.MatrixS NODE_2 NODE_1).r ∧ (s.MatrixS NODE_2 NODE_1).r ≤ 1 :=
  have h1 : (0 : ℝ) < (isolator.sample 50 75 : isolator ℝ).Z1 := by norm_num [isolator.sample]
  have h2 : (0 : ℝ) < (isolator.sample 50 75 : isolator ℝ).Z2 := by norm_num [isolator.sample]
  have h0 : (0 : ℝ) < 50 := by norm_num
  ⟨h1, h2, h0, by
    obtain ⟨s, hs, -, -, -, p1, p2, -⟩ := C35_isolator_passive 50 (isolator.sample 50 75) h1 h2 h0
    exact ⟨s, hs, p1, p2⟩⟩

/-! ## Sign invariants of the DC solve -/

section Signs

variable {K : Type} [LinearOrderedField K]

/-- With a square root that is never negative the threshold helper is never
negative. -/
theorem mosfet.Sarg_nonneg (sqrt : K → K) (hs : ∀ t, 0 ≤ sqrt t) (Phi Upn : K) :
    0 ≤ mosfet.Sarg sqrt Phi Upn := by
  unfold mosfet.Sarg
  simp only
  split_ifs
  · exact hs _
  · exact MAX_zero_nonneg _

/-- The body-effect factor `arg` is never negative for `Ga >= 0` and
`Sarg >= 0`. -/
theorem mosfet.argOf_nonneg (Ga S : K) (hG : 0 ≤ Ga) (hS : 0 ≤ S) : 0 ≤ mosfet.argOf Ga S := by
  unfold mosfet.argOf
  split_ifs
  · exact div_nonneg (div_nonneg hG hS) (by norm_num)
  · exact le_refl 0

/-- The region classification yields no negative current or conductance. -/
theorem mosfet.channel_nonneg (beta l arg U V : K) (hb : 0 ≤ beta) (hl : 0 ≤ l)
    (ha : 0 ≤ arg) (hV : 0 ≤ V) :
    0 ≤ (mosfet.channel beta l arg U V).Ids ∧ 0 ≤ (mosfet.channel beta l arg U V).gm ∧
    0 ≤ (mosfet.channel beta l arg U V).gds ∧ 0 ≤ (mosfet.channel beta l arg U V).gmb := by
  unfold mosfet.channel
  simp only
  split_ifs with h1 h2
  · exact ⟨le_refl 0, le_refl 0, le_refl 0, le_refl 0⟩
  · have hU : 0 ≤ U := le_of_lt (not_le.mp h1)
    have hB : 0 ≤ beta * (1 + l * V) := mul_nonneg hb (by positivity)
    refine ⟨?_, ?_, ?_, ?_⟩
    · positivity
    · positivity
    · positivity
    · positivity
  · have hU : 0 ≤ U := le_of_lt (not_le.mp h1)
    have hUV : 0 ≤ U - V := le_of_lt (sub_pos.mpr (not_le.mp h2))
    have hUV2 : 0 ≤ U - V / 2 := by linarith
    have hB : 0 ≤ beta * (1 + l * V) := mul_nonneg hb (by positivity)
    refine ⟨?_, ?_, ?_, ?_⟩
    · positivity
    · positivity
    · positivity
    · positivity

/-- The product `Uds * MOSdir` is the magnitude of `Uds`. -/
theorem mosfet.Uds_mul_dirOf_abs (Uds : K) : Uds * mosfet.dirOf Uds = |Uds| := by
  unfold mosfet.dirOf
  split_ifs with h
  · rw [mul_one, abs_of_nonneg h]
  · rw [abs_of_neg (not_le.mp h)]
    ring

end Signs

/-- C36: with a square root that is never negative and `beta >= 0`,
`Lambda >= 0`, `Ga >= 0`, `mosfet::calcDC` yields `gm >= 0`, `gds >= 0`,
`gmb >= 0`, a drain-source voltage `Vds = Uds * MOSdir = |Uds|`, and a signed
drain current that follows the conduction direction: `Ids * MOSdir >= 0`,
with `Ids >= 0` when `Uds >= 0` and `Ids <= 0` when `Uds < 0`. -/
theorem C36_sign_invariants {K : Type} [LinearOrderedField K] (lib : DeviceLib K)
    (m : mosfet K) (hs : ∀ t, 0 ≤ lib.sqrt t) (hb : 0 ≤ m.beta) (hl : 0 ≤ m.Lambda)
    (hG : 0 ≤ m.Ga) :
    0 ≤ (mosfet.calcDC lib m).gm ∧ 0 ≤ (mosfet.calcDC lib m).gds ∧
    0 ≤ (mosfet.calcDC lib m).gmb ∧
    (mosfet.calcDC lib m).Uds * (mosfet.calcDC lib m).MOSdir = |(mosfet.calcDC lib m).Uds| ∧
    0 ≤ (mosfet.calcDC lib m).Ids * (mosfet.calcDC lib m).MOSdir ∧
    (if 0 ≤ (mosfet.calcDC lib m).Uds then 0 ≤ (mosfet.calcDC lib m).Ids
      else (mosfet.calcDC lib m).Ids ≤ 0) := by
  obtain ⟨e1, e2, e3, e4, e5⟩ := mosfet.calcDC_channel_eq lib m
  have hV : 0 ≤ (mosfet.calcDC lib m).Uds * (mosfet.calcDC lib m).MOSdir := by
    rw [e5, mosfet.Uds_mul_dirOf_abs]
    exact abs_nonneg _
  obtain ⟨c1, c2, c3, c4⟩ := mosfet.channel_nonneg m.beta m.Lambda
    (mosfet.argOf m.Ga (mosfet.Sarg lib.sqrt m.Phi (mosfet.Upn (mosfet.calcDC lib m))))
    (mosfet.Utst lib (mosfet.calcDC lib m))
    ((mosfet.calcDC lib m).Uds * (mosfet.calcDC lib m).MOSdir) hb hl
    (mosfet.argOf_nonneg _ _ hG (mosfet.Sarg_nonneg lib.sqrt hs _ _)) hV
  have hd : (mosfet.calcDC lib m).MOSdir * (mosfet.calcDC lib m).MOSdir = 1 := by
    rw [e5]
    rcases mosfet.dirOf_cases (mosfet.calcDC lib m).Uds with h | h <;> rw [h] <;> norm_num
  refine ⟨by rw [e2]; exact c2, by rw [e3]; exact c3, by rw [e4]; exact c4, ?_, ?_, ?_⟩
  · rw [e5, mosfet.Uds_mul_dirOf_abs]
  · rw [e1]
    calc (0 : K) ≤ (mosfet.channel m.beta m.Lambda
          (mosfet.argOf m.Ga (mosfet.Sarg lib.sqrt m.Phi (mosfet.Upn (mosfet.calcDC lib m))))
          (mosfet.Utst lib (mosfet.calcDC lib m))
          ((mosfet.calcDC lib m).Uds * (mosfet.calcDC lib m).MOSdir)).Ids := c1
      _ = _ := by rw [mul_right_comm, hd, one_mul]
  · rw [e1, e5]
    rw [e5] at c1
    unfold mosfet.dirOf at c1 ⊢
    split_ifs at c1 ⊢ with h1
    · rw [one_mul]
      exact c1
    · linarith

/-- C36 on the sample n-channel device (`beta = 2`, `Lambda = 0`, `Ga = 1`)
with gate 3 V and drain 1 V, with the real square root. -/
theorem C36_sign_invariants_witness :
    (0 : ℝ) ≤ (mosfet.sample 3 1 0 0 : mosfet ℝ).beta ∧
    (0 : ℝ) ≤ (mosfet.sample 3 1 0 0 : mosfet ℝ).Lambda ∧
    (0 : ℝ) ≤ (mosfet.sample 3 1 0 0 : mosfet ℝ).Ga ∧
    0 ≤ (mosfet.calcDC (DeviceLib.unlimited Real.sqrt linearJunction)
      (mosfet.sample 3 1 0 0)).gm ∧
    0 ≤ (mosfet.calcDC (DeviceLib.unlimited Real.sqrt linearJunction)
      (mosfet.sample 3 1 0 0)).gds ∧
    0 ≤ (mosfet.calcDC (DeviceLib.unlimited Real.sqrt linearJunction)
      (mosfet.sample 3 1 0 0)).gmb :=
  have hb : (0 : ℝ) ≤ (mosfet.sample 3 1 0 0 : mosfet ℝ).beta := by norm_num [mosfet.sample]
  have hl : (0 : ℝ) ≤ (mosfet.sample 3 1 0 0 : mosfet ℝ).Lambda := by norm_num [mosfet.sample]
  have hG : (0 : ℝ) ≤ (mosfet.sample 3 1 0 0 : mosfet ℝ).Ga := by norm_num [mosfet.sample]
  ⟨hb, hl, hG,
    (C36_sign_invariants (DeviceLib.unlimited Real.sqrt linearJunction) (mosfet.sample 3 1 0 0)
      Real.sqrt_nonneg hb hl hG).1,
    (C36_sign_invariants (DeviceLib.unlimited Real.sqrt linearJunction) (mosfet.sample 3 1 0 0)
      Real.sqrt_nonneg hb hl hG).2.1,
    (C36_sign_invariants (DeviceLib.unlimited Real.sqrt linearJunction) (mosfet.sample 3 1 0 0)
      Real.sqrt_nonneg hb hl hG).2.2.1⟩

/-! ## Continuity of the region formulas -/

section RegionContinuity

/-- The region classification as nested conditionals, field by field. -/
theorem mosfet.channel_fields {K : Type} [LinearOrderedField K] (beta l arg U V : K) :
    (mosfet.channel beta l arg U V).Ids =
      (if U ≤ 0 then 0 else if U ≤ V then beta * (1 + l * V) * U * U / 2
        else beta * (1 + l * V) * V * (U - V / 2)) ∧
    (mosfet.channel beta l arg U V).gm =
      (if U ≤ 0 then 0 else if U ≤ V then beta * (1 + l * V) * U
        else beta * (1 + l * V) * V) ∧
    (mosfet.channel beta l arg U V).gds =
      (if U ≤ 0 then 0 else if U ≤ V then l * beta * U * U / 2
        else beta * (1 + l * V) * (U - V) + l * beta * V * (U - V / 2)) := by
  unfold mosfet.channel
  simp only
  split_ifs <;> exact ⟨rfl, rfl, rfl⟩

/-- A cutoff value `0`, a saturation expression and a linear expression that
agree at the two boundaries glue to a continuous function of the overdrive. -/
theorem mosfet.region_glue (V : ℝ) (hV : 0 ≤ V) (sat lin : ℝ → ℝ) (hsat : Continuous sat)
    (hlin : Continuous lin) (h0 : sat 0 = 0) (hb : sat V = lin V) :
    Continuous fun U : ℝ => if U ≤ 0 then 0 else if U ≤ V then sat U else lin U := by
  have hin : Continuous fun U : ℝ => if U ≤ V then sat U else lin U :=
    Continuous.if_le hsat hlin continuous_id continuous_const (fun x hx => by rw [hx]; exact hb)
  refine Continuous.if_le continuous_const hin continuous_id continuous_const ?_
  intro x hx
  subst hx
  rw [if_pos hV]
  exact h0.symm

end RegionContinuity

/-- C37: for a fixed `Vds >= 0` the current and the conductances `gm`, `gds`
assigned by the region classification of `mosfet::calcDC` are continuous
functions of the overdrive `Utst`.  At the boundary `Utst = Vds` the value
(the saturation expression) is the value of the linear expression there, which
is also the limit from the linear side; and as `Utst` decreases to `0` the
three quantities tend to the cutoff value `0`. -/
theorem C37_region_continuity (beta l arg Vds : ℝ) (hV : 0 ≤ Vds) :
    (Continuous (fun U : ℝ => (mosfet.channel beta l arg U Vds).Ids) ∧
      Continuous (fun U : ℝ => (mosfet.channel beta l arg U Vds).gm) ∧
      Continuous (fun U : ℝ => (mosfet.channel beta l arg U Vds).gds)) ∧
    ((mosfet.channel beta l arg Vds Vds).Ids = beta * (1 + l * Vds) * Vds * Vds / 2 ∧
      (mosfet.channel beta l arg Vds Vds).Ids = beta * (1 + l * Vds) * Vds * (Vds - Vds / 2) ∧
      (mosfet.channel beta l arg Vds Vds).gm = beta * (1 + l * Vds) * Vds ∧
      (mosfet.channel beta l arg Vds Vds).gds = l * beta * Vds * Vds / 2 ∧
      (mosfet.channel beta l arg Vds Vds).gds =
        beta * (1 + l * Vds) * (Vds - Vds) + l * beta * Vds * (Vds - Vds / 2)) ∧
    (Filter.Tendsto (fun U : ℝ => (mosfet.channel beta l arg U Vds).Ids)
        (nhdsWithin Vds (Set.Ioi Vds)) (nhds (beta * (1 + l * Vds) * Vds * Vds / 2)) ∧
      Filter.Tendsto (fun U : ℝ => (mosfet.channel beta l arg U Vds).gm)
        (nhdsWithin Vds (Set.Ioi Vds)) (nhds (beta * (1 + l * Vds) * Vds)) ∧
      Filter.Tendsto (fun U : ℝ => (mosfet.channel beta l arg U Vds).gds)
        (nhdsWithin Vds (Set.Ioi Vds)) (nhds (l * beta * Vds * Vds / 2))) ∧
    (Filter.Tendsto (fun U : ℝ => (mosfet.channel beta l arg U Vds).Ids)
        (nhdsWithin 0 (Set.Ioi 0)) (nhds 0) ∧
      Filter.Tendsto (fun U : ℝ => (mosfet.channel beta l arg U Vds).gm)
        (nhdsWithin 0 (Set.Ioi 0)) (nhds 0) ∧
      Filter.Tendsto (fun U : ℝ => (mosfet.channel beta l arg U Vds).gds)
        (nhdsWithin 0 (Set.Ioi 0)) (nhds 0)) := by
  have cI : Continuous (fun U : ℝ => (mosfet.channel beta l arg U Vds).Ids) := by
    simp only [(mosfet.channel_fields beta l arg _ Vds).1]
    exact mosfet.region_glue Vds hV (fun U => beta * (1 + l * Vds) * U * U / 2)
      (fun U => beta * (1 + l * Vds) * Vds * (U - Vds / 2)) (by fun_prop) (by fun_prop)
      (by ring) (by ring)
  have cm : Continuous (fun U : ℝ => (mosfet.channel beta l arg U Vds).gm) := by
    simp only [(mosfet.channel_fields beta l arg _ Vds).2.1]
    exact mosfet.region_glue Vds hV (fun U => beta * (1 + l * Vds) * U)
      (fun _ => beta * (1 + l * Vds) * Vds) (by fun_prop) (by fun_prop) (by ring) (by ring)
  have cd : Continuous (fun U : ℝ => (mosfet.channel beta l arg U Vds).gds) := by
    simp only [(mosfet.channel_fields beta l arg _ Vds).2.2]
    exact mosfet.region_glue Vds hV (fun U => l * beta * U * U / 2)
      (fun U => beta * (1 + l * Vds) * (U - Vds) + l * beta * Vds * (U - Vds / 2))
      (by fun_prop) (by fun_prop) (by ring) (by ring)
  have vI : (mosfet.channel beta l arg Vds Vds).Ids = beta * (1 + l * Vds) * Vds * Vds / 2 := by
    rw [(mosfet.channel_fields beta l arg Vds Vds).1]
    split_ifs with h
    · have : Vds = 0 := le_antisymm h hV
      rw [this]; ring
    · rfl
    · exact absurd (le_refl Vds) ‹_›
  have vm : (mosfet.channel beta l arg Vds Vds).gm = beta * (1 + l * Vds) * Vds := by
    rw [(mosfet.channel_fields beta l arg Vds Vds).2.1]
    split_ifs with h
    · have : Vds = 0 := le_antisymm h hV
      rw [this]; ring
    · rfl
    · exact absurd (le_refl Vds) ‹_›
  have vd : (mosfet.channel beta l arg Vds Vds).gds = l * beta * Vds * Vds / 2 := by
    rw [(mosfet.channel_fields beta l arg Vds Vds).2.2]
    split_ifs with h
    · have : Vds = 0 := le_antisymm h hV
      rw [this]; ring
    · rfl
    · exact absurd (le_refl Vds) ‹_›
  have z : (mosfet.channel beta l arg 0 Vds).Ids = 0 ∧ (mosfet.channel beta l arg 0 Vds).gm = 0 ∧
      (mosfet.channel beta l arg 0 Vds).gds = 0 := by
    simp [mosfet.channel]
  refine ⟨⟨cI, cm, cd⟩, ⟨vI, ?_, vm, vd, ?_⟩, ⟨?_, ?_, ?_⟩, ⟨?_, ?_, ?_⟩⟩
  · rw [vI]; ring
  · rw [vd]; ring
  · rw [← vI]; exact cI.continuousAt.continuousWithinAt
  · rw [← vm]; exact cm.continuousAt.continuousWithinAt
  · rw [← vd]; exact cd.continuousAt.continuousWithinAt
  · have h := (cI.continuousAt (x := 0)).continuousWithinAt (s := Set.Ioi 0)
    unfold ContinuousWithinAt at h
    simpa only [z.1] using h
  · have h := (cm.continuousAt (x := 0)).continuousWithinAt (s := Set.Ioi 0)
    unfold ContinuousWithinAt at h
    simpa only [z.2.1] using h
  · have h := (cd.continuousAt (x := 0)).continuousWithinAt (s := Set.Ioi 0)
    unfold ContinuousWithinAt at h
    simpa only [z.2.2] using h

/-- C37 at `beta = 2`, `Lambda = 0`, `Vds = 1`: at the boundary `Utst = 1`
the saturation and the linear expression both give the current of the
region classification. -/
theorem C37_region_continuity_witness :
    (0 : ℝ) ≤ 1 ∧
    (mosfet.channel (2 : ℝ) 0 0 1 1).Ids = 2 * (1 + 0 * 1) * 1 * 1 / 2 ∧
    (mosfet.channel (2 : ℝ) 0 0 1 1).Ids = 2 * (1 + 0 * 1) * 1 * (1 - 1 / 2) :=
  ⟨by norm_num, (C37_region_continuity 2 0 0 1 (by norm_num)).2.1.1,
    (C37_region_continuity 2 0 0 1 (by norm_num)).2.1.2.1⟩

/-! ## Result tags of the applications table -/

/-- The functions embedded with their bodies construct the tag recorded for
them. -/
theorem evaluate.resultTag_embedded {K : Type} [LinearOrderedField K] (sqrt : K → K) (d : K)
    (c : complex K) :
    (evaluate.abs_d d).tag = evaluator_t.abs_d.resultTag ∧
    (evaluate.abs_c sqrt c).tag = evaluator_t.abs_c.resultTag ∧
    (evaluate.sqrt_d sqrt d).tag = evaluator_t.sqrt_d.resultTag ∧
    (evaluate.real_c c).tag = evaluator_t.real_c.resultTag ∧
    (evaluate.imag_c c).tag = evaluator_t.imag_c.resultTag ∧
    (evaluate.norm_c c).tag = evaluator_t.norm_c.resultTag := by
  refine ⟨rfl, rfl, ?_, rfl, rfl, rfl⟩
  unfold evaluate.sqrt_d
  split_ifs <;> rfl

/-- C38 fails on the code: the table entry for `real` on a complex argument
declares the result tag `TAG_COMPLEX`, while `evaluate::real_c` constructs a
`TAG_DOUBLE` constant (on `1 + 2j` the real constant `1`).  Of the 117 table
entries exactly these 11 declare a tag other than the one the function
constructs: the complex overloads of `real`, `imag`, `abs`, `mag`, `norm`,
`phase`, `angle`, `arg`, `dB` and the real overloads of `ztor` and `rtoz`. -/
theorem C38_table_tag_mismatch :
    application_t.mk "real" Tag.TAG_COMPLEX evaluator_t.real_c 1 [Tag.TAG_COMPLEX] ∈
      applications ∧
    evaluator_t.real_c.resultTag = Tag.TAG_DOUBLE ∧
    evaluate.real_c (complex.rect (1 : ℚ) 2) = constant.TAG_DOUBLE 1 ∧
    (evaluate.real_c (complex.rect (1 : ℚ) 2)).tag = Tag.TAG_DOUBLE ∧
    (evaluate.real_c (complex.rect (1 : ℚ) 2)).tag ≠ Tag.TAG_COMPLEX ∧
    applications.length = 117 ∧
    mismatches =
      [application_t.mk "real" Tag.TAG_COMPLEX evaluator_t.real_c 1 [Tag.TAG_COMPLEX],
       application_t.mk "imag" Tag.TAG_COMPLEX evaluator_t.imag_c 1 [Tag.TAG_COMPLEX],
       application_t.mk "abs" Tag.TAG_COMPLEX evaluator_t.abs_c 1 [Tag.TAG_COMPLEX],
       application_t.mk "mag" Tag.TAG_COMPLEX evaluator_t.abs_c 1 [Tag.TAG_COMPLEX],
       application_t.mk "norm" Tag.TAG_COMPLEX evaluator_t.norm_c 1 [Tag.TAG_COMPLEX],
       application_t.mk "phase" Tag.TAG_COMPLEX evaluator_t.phase_c 1 [Tag.TAG_COMPLEX],
       application_t.mk "angle" Tag.TAG_COMPLEX evaluator_t.arg_c 1 [Tag.TAG_COMPLEX],
       application_t.mk "arg" Tag.TAG_COMPLEX evaluator_t.arg_c 1 [Tag.TAG_COMPLEX],
       application_t.mk "dB" Tag.TAG_COMPLEX evaluator_t.dB_c 1 [Tag.TAG_COMPLEX],
       application_t.mk "ztor" Tag.TAG_DOUBLE evaluator_t.ztor_d 1 [Tag.TAG_DOUBLE],
       application_t.mk "rtoz" Tag.TAG_DOUBLE evaluator_t.rtoz_d 1 [Tag.TAG_DOUBLE]] ∧
    evaluator_t.abs_c.resultTag = Tag.TAG_DOUBLE ∧
    evaluator_t.ztor_d.resultTag = Tag.TAG_COMPLEX ∧
    evaluator_t.rtoz_d.resultTag = Tag.TAG_COMPLEX := by
  refine ⟨by decide, rfl, rfl, rfl, by decide, by decide, by decide, rfl, rfl, rfl⟩

/-! ## Operating-point voltages in the transient solve -/

section TransientVoltages

variable {K : Type} [LinearOrderedField K]

/-- Saving and loading on any state sets the voltage members from the node
voltages of that state, and the two assignments of `calcTR` then change
nothing. -/
theorem mosfet.load_save (X : mosfet K) :
    (mosfet.loadOperatingPoints (mosfet.saveOperatingPoints X) X).1.Ugs =
      complex.real (X.VectorV NODE_G - X.VectorV NODE_S) * X.pol ∧
    (mosfet.loadOperatingPoints (mosfet.saveOperatingPoints X) X).1.Ugd =
      complex.real (X.VectorV NODE_G - X.VectorV NODE_D) * X.pol ∧
    (mosfet.loadOperatingPoints (mosfet.saveOperatingPoints X) X).1.Ubs =
      complex.real (X.VectorV NODE_B - X.VectorV NODE_S) * X.pol ∧
    (mosfet.loadOperatingPoints (mosfet.saveOperatingPoints X) X).1.Ubd =
      complex.real (X.VectorV NODE_B - X.VectorV NODE_D) * X.pol ∧
    (mosfet.loadOperatingPoints (mosfet.saveOperatingPoints X) X).1.Uds =
      (mosfet.loadOperatingPoints (mosfet.saveOperatingPoints X) X).1.Ugs -
        (mosfet.loadOperatingPoints (mosfet.saveOperatingPoints X) X).1.Ugd ∧
    (mosfet.loadOperatingPoints (mosfet.saveOperatingPoints X) X).2 =
      (mosfet.loadOperatingPoints (mosfet.saveOperatingPoints X) X).1.Ugs -
        (mosfet.loadOperatingPoints (mosfet.saveOperatingPoints X) X).1.Ubs ∧
    mosfet.calcTR_voltages (mosfet.loadOperatingPoints (mosfet.saveOperatingPoints X) X) =
      mosfet.loadOperatingPoints (mosfet.saveOperatingPoints X) X :=
  ⟨rfl, rfl, rfl, rfl, rfl, rfl, rfl⟩

/-- The node voltages and the polarity are not changed by `calcDC`. -/
theorem mosfet.calcDC_VectorV (lib : DeviceLib K) (m : mosfet K) :
    (mosfet.calcDC lib m).VectorV = m.VectorV := by
  simp only [mosfet.calcDC, mosfet.calcDC_stamp, mosfet.calcDC_channel, mosfet.calcDC_diodes,
    mosfet.calcDC_limit, circuit.setI, circuit.setY]

end TransientVoltages

/-- C39: in `mosfet::calcTR`, `saveOperatingPoints` followed by
`loadOperatingPoints` sets `Ugs`, `Ugd`, `Ubs`, `Ubd` to `pol` times the
present node-voltage differences and `Uds = Ugs - Ugd`, `Ugb = Ugs - Ubs`,
whatever limited values `calcDC` left in those fields (`X` is any state of
the object, `m` the object on which `calcTR` starts); the later assignments
`Uds = Ugs - Ugd` and `Ugb = Ugs - Ubs` change no value. -/
theorem C39_operating_point_voltages {K : Type} [LinearOrderedField K] (lib : DeviceLib K)
    (m X : mosfet K) :
    ((mosfet.loadOperatingPoints (mosfet.saveOperatingPoints X) X).1.Ugs =
        complex.real (X.VectorV NODE_G - X.VectorV NODE_S) * X.pol ∧
      (mosfet.loadOperatingPoints (mosfet.saveOperatingPoints X) X).1.Ugd =
        complex.real (X.VectorV NODE_G - X.VectorV NODE_D) * X.pol ∧
      (mosfet.loadOperatingPoints (mosfet.saveOperatingPoints X) X).1.Ubs =
        complex.real (X.VectorV NODE_B - X.VectorV NODE_S) * X.pol ∧
      (mosfet.loadOperatingPoints (mosfet.saveOperatingPoints X) X).1.Ubd =
        complex.real (X.VectorV NODE_B - X.VectorV NODE_D) * X.pol ∧
      mosfet.calcTR_voltages (mosfet.loadOperatingPoints (mosfet.saveOperatingPoints X) X) =
        mosfet.loadOperatingPoints (mosfet.saveOperatingPoints X) X) ∧
    ((mosfet.calcTR_load lib m).1.Ugs =
        complex.real (m.VectorV NODE_G - m.VectorV NODE_S) * m.pol ∧
      (mosfet.calcTR_load lib m).1.Ugd =
        complex.real (m.VectorV NODE_G - m.VectorV NODE_D) * m.pol ∧
      (mosfet.calcTR_load lib m).1.Ubs =
        complex.real (m.VectorV NODE_B - m.VectorV NODE_S) * m.pol ∧
      (mosfet.calcTR_load lib m).1.Ubd =
        complex.real (m.VectorV NODE_B - m.VectorV NODE_D) * m.pol ∧
      (mosfet.calcTR_load lib m).1.Uds =
        (mosfet.calcTR_load lib m).1.Ugs - (mosfet.calcTR_load lib m).1.Ugd ∧
      (mosfet.calcTR_load lib m).2 =
        (mosfet.calcTR_load lib m).1.Ugs - (mosfet.calcTR_load lib m).1.Ubs ∧
      mosfet.calcTR_voltages (mosfet.calcTR_load lib m) = mosfet.calcTR_load lib m) := by
  obtain ⟨a1, a2, a3, a4, a5, a6, a7⟩ := mosfet.load_save X
  obtain ⟨b1, b2, b3, b4, b5, b6, b7⟩ := mosfet.load_save (mosfet.calcDC lib m)
  rw [mosfet.calcDC_VectorV, mosfet.calcDC_pol] at b1 b2 b3 b4
  exact ⟨⟨a1, a2, a3, a4, a7⟩, ⟨b1, b2, b3, b4, b5, b6, b7⟩⟩

/-! ## State slots of the MOSFET -/

/-- C40: the sixteen state-slot constants are exactly the numbers `0..15`
in this order, so they are pairwise distinct and lie in the range declared
by `setStates (16)`; for the Meyer charge slots `qgs`, `qgd`, `qgb` the
derived indices `qstate + 2` and `qstate + 3` are the voltage and the
capacitance slot of the same element; and `transientChargeTR` and
`transientChargeSR` called with one of them write only these two slots and
compute their results from the slots of that element alone. -/
theorem C40_state_slots {K : Type} [LinearOrderedField K] (st : States K) (cap v ccap : K) :
    mosfet.stateSlots = List.range mosfet.initTR_states ∧
    mosfet.stateSlots.Nodup ∧ mosfet.stateSlots.length = 16 ∧
    (qgsState + 2 = vgsState ∧ qgsState + 3 = cgsState ∧
      qgdState + 2 = vgdState ∧ qgdState + 3 = cgdState ∧
      qgbState + 2 = vgbState ∧ qgbState + 3 = cgbState) ∧
    (qgsState + 3 < mosfet.initTR_states ∧ qgdState + 3 < mosfet.initTR_states ∧
      qgbState + 3 < mosfet.initTR_states) ∧
    (∀ s n, (s = vgsState ∨ s = cgsState) ∨
      ((mosfet.transientChargeTR st qgsState cap v ccap).1 s n = st s n ∧
        (mosfet.transientChargeSR st qgsState cap v ccap).1 s n = st s n)) ∧
    (∀ s n, (s = vgdState ∨ s = cgdState) ∨
      ((mosfet.transientChargeTR st qgdState cap v ccap).1 s n = st s n ∧
        (mosfet.transientChargeSR st qgdState cap v ccap).1 s n = st s n)) ∧
    (∀ s n, (s = vgbState ∨ s = cgbState) ∨
      ((mosfet.transientChargeTR st qgbState cap v ccap).1 s n = st s n ∧
        (mosfet.transientChargeSR st qgbState cap v ccap).1 s n = st s n)) ∧
    ((mosfet.transientChargeTR st qgsState cap v ccap).2.2 =
        ((cap + getState st cgsState 1) / 2 + ccap) * (v - getState st vgsState 1) +
          getState st qgsState 1 ∧
      (mosfet.transientChargeTR st qgdState cap v ccap).2.2 =
        ((cap + getState st cgdState 1) / 2 + ccap) * (v - getState st vgdState 1) +
          getState st qgdState 1 ∧
      (mosfet.transientChargeTR st qgbState cap v ccap).2.2 =
        ((cap + getState st cgbState 1) / 2 + ccap) * (v - getState st vgbState 1) +
          getState st qgbState 1) ∧
    ((mosfet.transientChargeSR st qgsState cap v ccap).2.2 =
        ((cap + 4 * getState st cgsState 1 + getState st cgsState 2) / 6 + ccap) *
          (v - getState st vgsState 1) + getState st qgsState 1 ∧
      (mosfet.transientChargeSR st qgdState cap v ccap).2.2 =
        ((cap + 4 * getState st cgdState 1 + getState st cgdState 2) / 6 + ccap) *
          (v - getState st vgdState 1) + getState st qgdState 1 ∧
      (mosfet.transientChargeSR st qgbState cap v ccap).2.2 =
        ((cap + 4 * getState st cgbState 1 + getState st cgbState 2) / 6 + ccap) *
          (v - getState st vgbState 1) + getState st qgbState 1) := by
  have hw : ∀ (q s n : Nat), (s = q + 2 ∨ s = q + 3) ∨
      ((mosfet.transientChargeTR st q cap v ccap).1 s n = st s n ∧
        (mosfet.transientChargeSR st q cap v ccap).1 s n = st s n) := by
    intro q s n
    by_cases h2 : s = q + 2
    · exact Or.inl (Or.inl h2)
    · by_cases h3 : s = q + 3
      · exact Or.inl (Or.inr h3)
      · right
        simp [mosfet.transientChargeTR, mosfet.transientChargeSR, setState, h2, h3]
  refine ⟨by decide, by decide, by decide, by decide, by decide, fun s n => hw qgsState s n,
    fun s n => hw qgdState s n, fun s n => hw qgbState s n, ⟨?_, ?_, ?_⟩, ⟨?_, ?_, ?_⟩⟩ <;>
    simp [mosfet.transientChargeTR, mosfet.transientChargeSR, getState, setState, qgsState,
      qgdState, qgbState, vgsState, vgdState, vgbState, cgsState, cgdState, cgbState]

end Qucs
